import Mathlib

/-!
# WaoN spectral engine

A shallow embedding of the frame loop of `waon_transcribe_internal`
(`src/lib/waon.c`) and of `main` (`src/waon/main.c`), together with the option
setters of the library, the option stage of the command line (`src/waon/cli.c`,
`src/waon/config.c`), its progress bar (`src/waon/progress.c`), and the return
codes, resources and progress values of a call.

Conventions of the embedding:

* C `double` values are elements of a linearly ordered field `R` (the real
  numbers in the theorems, the rationals when a definition is evaluated);
  `M_PI` and `sqrt` are parameters `pi` and `sqrt` of the definitions that use
  them.
* C `int` and `long` values are `Int`; `/` on them is `Int.tdiv` (C truncates
  towards zero).
* The conversion `(int) x` of a `double` is `doubleToInt x`: the truncation when
  the 32-bit `int` can hold it, and `INT_MIN` otherwise (the conversion is then
  undefined in C; `INT_MIN` is what the x86-64 instruction delivers). The
  increment of an `int` that may overflow is `intAdd`, which wraps.
* A C array is a total function `Int → R` and an assignment `a[i] = v` is
  `Function.update a i v`.
* A loop that may run for an unbounded number of rounds takes a `fuel : Nat`
  and returns `none` when the fuel is exhausted.
-/

namespace WaoN

/-! ## Loops -/

/-- A counted loop `for (i = 0; i < n; i++) s = body s i`. -/
def forLoop {S : Type} (n : Int) (body : S → Int → S) (s : S) : S :=
  (List.range n.toNat).foldl (fun acc (k : Nat) => body acc (k : Int)) s

/-- A counted loop whose body may fail to return. -/
def forLoopM {S : Type} (n : Int) (body : S → Int → Option S) (s : S) : Option S :=
  (List.range n.toNat).foldlM (fun acc (k : Nat) => body acc (k : Int)) s

/-! ## Phase-vocoder corrector (`waon.c` 514-537, `main.c` 556-594) -/

/-- The arrays `p`, `p0`, `dphi`, `ph0`, `ph1` of the frame loop. -/
structure Spectral (R : Type) where
  p : Int → R
  p0 : Int → R
  dphi : Int → R
  ph0 : Int → R
  ph1 : Int → R

/-- The loop `for (; dphi[i] >= M_PI; dphi[i] -= twopi);` with `twopi = 2.0 * M_PI`. -/
def wrapDown {R : Type} [LinearOrderedField R] (pi : R) : Nat → R → Option R
  | 0, _ => none
  | fuel + 1, d => if d ≥ pi then wrapDown pi fuel (d - 2 * pi) else some d

/-- The loop `for (; dphi[i] < -M_PI; dphi[i] += twopi);` with `twopi = 2.0 * M_PI`. -/
def wrapUp {R : Type} [LinearOrderedField R] (pi : R) : Nat → R → Option R
  | 0, _ => none
  | fuel + 1, d => if d < -pi then wrapUp pi fuel (d + 2 * pi) else some d

/-- The wrap step: the two loops one after the other. -/
def wrapPhase {R : Type} [LinearOrderedField R] (pi : R) (fuel : Nat) (d : R) : Option R :=
  (wrapDown pi fuel d).bind (wrapUp pi fuel)

/-- Body of the loop of the first frame (`icnt == 0`). -/
def bootstrapBin {R : Type} [LinearOrderedField R] (s : Spectral R) (i : Int) : Spectral R :=
  let s1 := { s with dphi := Function.update s.dphi i 0 }
  let s2 := { s1 with p0 := Function.update s1.p0 i (s1.p i) }
  { s2 with ph0 := Function.update s2.ph0 i (s2.ph1 i) }

/-- Body of the loop of every later frame (`icnt > 0`), statement by statement. -/
def steadyBin {R : Type} [LinearOrderedField R] (sqrt : R → R) (pi : R) (fuel : Nat)
    (len hop : Int) (s : Spectral R) (i : Int) : Option (Spectral R) :=
  let twopi : R := 2 * pi
  -- dphi[i] = ph1[i] - ph0[i] - twopi * (double)i / (double)len * (double)hop;
  let d : R := s.ph1 i - s.ph0 i - twopi * (i : R) / (len : R) * (hop : R)
  let s1 := { s with dphi := Function.update s.dphi i d }
  -- the two wrap loops
  (wrapPhase pi fuel (s1.dphi i)).map fun w =>
    let s2 := { s1 with dphi := Function.update s1.dphi i w }
    -- dphi[i] = dphi[i] / twopi / (double)hop;
    let s3 := { s2 with dphi := Function.update s2.dphi i (s2.dphi i / twopi / (hop : R)) }
    -- p0[i] = p[i];  ph0[i] = ph1[i];
    let s4 := { s3 with p0 := Function.update s3.p0 i (s3.p i) }
    let s5 := { s4 with ph0 := Function.update s4.ph0 i (s4.ph1 i) }
    -- p[i] = 0.5 * (sqrt(p[i]) + sqrt(p0[i]));  p[i] = p[i] * p[i];
    let s6 := { s5 with p := Function.update s5.p i (0.5 * (sqrt (s5.p i) + sqrt (s5.p0 i))) }
    { s6 with p := Function.update s6.p i (s6.p i * s6.p i) }

/-- The corrector applied to a frame whose power and phase have just been
extracted into `p` and `ph1` (the `else` branch of `if (flag_phase == 0)`). -/
def phaseVocoder {R : Type} [LinearOrderedField R] (sqrt : R → R) (pi : R) (fuel : Nat)
    (len hop : Int) (icnt : Int) (s : Spectral R) : Option (Spectral R) :=
  if icnt = 0 then
    some (forLoop (Int.tdiv len 2 + 1) bootstrapBin s)
  else
    forLoopM (Int.tdiv len 2 + 1) (steadyBin sqrt pi fuel len hop) s

/-- The two artifact-suppression passes (`waon.c` 540-548, `main.c` 597-607).
The passes themselves (`power_subtract_ave`, `power_subtract_octave` of
`analyse.c`) are parameters: each receives `len`, the power array and its own
settings, and returns the new power array. -/
def artifactSuppress {R : Type} [LinearOrderedField R]
    (power_subtract_ave : Int → (Int → R) → Int → R → (Int → R))
    (power_subtract_octave : Int → (Int → R) → R → (Int → R))
    (len : Int) (psub_n : Int) (psub_f oct_f : R) (p : Int → R) : Int → R :=
  let p1 := if psub_n ≠ 0 then power_subtract_ave len p psub_n psub_f else p
  if oct_f ≠ 0 then power_subtract_octave len p1 oct_f else p1

/-- Body of the loop before `note_intensity`:
`dphi[i] = ((double)i / (double)len + dphi[i]) * (double)sfinfo->samplerate;`. -/
def frequencyBin {R : Type} [LinearOrderedField R] (len samplerate : Int)
    (s : Spectral R) (i : Int) : Spectral R :=
  let f : R := ((i : R) / (len : R) + s.dphi i) * (samplerate : R)
  { s with dphi := Function.update s.dphi i f }

/-- What one frame hands to `note_intensity`: the power array and, with the
phase vocoder, the frequency array (`NULL` otherwise). -/
structure Handoff (R : Type) where
  power : Int → R
  freq : Option (Int → R)

/-- The analysis of one frame after power/phase extraction (`waon.c` 511-558,
`main.c` 548-649): corrector, artifact suppression, frequency array. The state
`s` holds the extracted power in `p` and, with the phase vocoder, the extracted
phase in `ph1`. -/
def analyseFrame {R : Type} [LinearOrderedField R] (sqrt : R → R) (pi : R) (fuel : Nat)
    (power_subtract_ave : Int → (Int → R) → Int → R → (Int → R))
    (power_subtract_octave : Int → (Int → R) → R → (Int → R))
    (len hop samplerate : Int) (flag_phase psub_n : Int) (psub_f oct_f : R)
    (icnt : Int) (s : Spectral R) : Option (Spectral R × Handoff R) :=
  (if flag_phase = 0 then some s else phaseVocoder sqrt pi fuel len hop icnt s).map fun s1 =>
    let p2 := artifactSuppress power_subtract_ave power_subtract_octave len psub_n psub_f
      oct_f s1.p
    let s2 := { s1 with p := p2 }
    if flag_phase = 0 then
      (s2, { power := s2.p, freq := none })
    else
      let s3 := forLoop (Int.tdiv len 2 + 1) (frequencyBin len samplerate) s2
      (s3, { power := s3.p, freq := some s3.dphi })

/-! ## Error codes (`waon.h`) -/

/-- The enumeration `waon_error_t`. -/
inductive waon_error_t where
  | WAON_SUCCESS
  | WAON_ERROR_MEMORY
  | WAON_ERROR_FILE_NOT_FOUND
  | WAON_ERROR_FILE_FORMAT
  | WAON_ERROR_INVALID_PARAM
  | WAON_ERROR_IO
  | WAON_ERROR_INTERNAL
  deriving DecidableEq, Repr

/-! ## Frame buffer and frame loop (`waon.c` 461-500, `main.c` 468-534) -/

/-- Modelled from the spec: the sample source read by `sndfile_read` (`snd.c`, not
part of the sources at hand). It holds `total` samples per channel, of which `pos`
have been consumed; `left j` and `right j` are sample `j` of the two channels (a
mono source has only `left`); `frames` is the length announced in `SF_INFO`. -/
structure Source (R : Type) where
  channels : Int
  frames : Int
  total : Nat
  pos : Nat
  left : Nat → R
  right : Nat → R

/-- The channel history arrays `left` and `right`. -/
structure Buffers (R : Type) where
  left : Int → R
  right : Int → R

/-- Modelled from the spec: `sndfile_read (sf, sfinfo, left + base, right + base, n)`
(`snd.c`, not part of the sources at hand) is the source's
`read(n) -> (leftSamples, rightSamples|empty, countRead)`: it delivers the next
`countRead = min n (samples left)` samples of each channel to `left[base ..]` and,
for a stereo source, `right[base ..]`, consumes them and returns `countRead`. -/
def sndfile_read {R : Type} (src : Source R) (b : Buffers R) (base n : Int) :
    Int × Source R × Buffers R :=
  let count : Nat := min n.toNat (src.total - src.pos)
  let deliver (chan : Nat → R) (a : Int → R) : Int → R := fun k =>
    if base ≤ k ∧ k < base + (count : Int) then chan (src.pos + (k - base).toNat) else a k
  ((count : Int), { src with pos := src.pos + count },
    { left := deliver src.left b.left,
      right := if src.channels = 2 then deliver src.right b.right else b.right })

/-- Body of the shift loop `for (i = 0; i < len - hop; i++)`. -/
def shiftBin {R : Type} (channels hop : Int) (b : Buffers R) (i : Int) : Buffers R :=
  if channels = 2 then
    let b1 := { b with left := Function.update b.left i (b.left (i + hop)) }
    { b1 with right := Function.update b1.right i (b1.right (i + hop)) }
  else
    { b with left := Function.update b.left i (b.left (i + hop)) }

/-- The shift of both history arrays by one hop, in place. -/
def shiftBuffers {R : Type} (channels len hop : Int) (b : Buffers R) : Buffers R :=
  forLoop (len - hop) (shiftBin channels hop) b

/-- One shift-and-refill step: the shift loop followed by the read of `hop` fresh
samples at offset `len - hop`. -/
def shiftAndRefill {R : Type} (len hop : Int) (src : Source R) (b : Buffers R) :
    Int × Source R × Buffers R :=
  sndfile_read src (shiftBuffers src.channels len hop b) (len - hop) hop

/-- The loop `for (i = 0; i < len; i++)` that sets the table `x[]` for the FFT. -/
def mixdown {R : Type} [LinearOrderedField R] (channels len : Int) (b : Buffers R)
    (x : Int → R) : Int → R :=
  forLoop len (fun acc i =>
    if channels = 2 then Function.update acc i (0.5 * (b.left i + b.right i))
    else Function.update acc i (b.left i)) x

/-- One processed frame: the counter `icnt` given to the note tracker and the table
`x[]` that was analysed. -/
structure Frame (R : Type) where
  icnt : Int
  x : Int → R

/-- The variables of the frame loop that decide its control flow and its input:
source, history arrays, table `x[]`, counter, and the frames processed so far. -/
structure LoopState (R : Type) where
  src : Source R
  buf : Buffers R
  x : Int → R
  icnt : Int
  processed : List (Frame R)

/-- The main loop `for (icnt = 0; ; icnt++)`: shift, read, `break` on a read shorter
than `hop`, otherwise set `x[]`, analyse, and go on with the next counter. The
analysis of a frame takes `x[]` as its input (the windowing overwrites it in place
and the next round sets every cell `0 .. len-1` anew) and writes neither the
history arrays nor the source, so a frame is recorded by its counter and its
table. -/
def frameLoop {R : Type} [LinearOrderedField R] (len hop : Int) :
    Nat → LoopState R → Option (LoopState R)
  | 0, _ => none
  | fuel + 1, st =>
    let r := shiftAndRefill len hop st.src st.buf
    if r.1 ≠ hop then
      some { st with src := r.2.1, buf := r.2.2 }
    else
      let x := mixdown r.2.1.channels len r.2.2 st.x
      frameLoop len hop fuel
        { src := r.2.1, buf := r.2.2, x := x, icnt := st.icnt + 1,
          processed := st.processed ++ [{ icnt := st.icnt, x := x }] }

/-- The integral part of `x`: `x` with its fraction discarded (truncation towards
zero), as an integer of any size. A C conversion of a `double` to an integer type
yields it whenever the type can hold it. -/
def truncToInt {R : Type} [LinearOrderedField R] [FloorRing R] (x : R) : Int :=
  if 0 ≤ x then ⌊x⌋ else ⌈x⌉

/-- The least value of the 32-bit `int`. -/
def INT_MIN : Int := -2147483648

/-- The greatest value of the 32-bit `int`. -/
def INT_MAX : Int := 2147483647

/-- The C conversion `(int) x` of a `double` to the 32-bit `int`: the integral part
of `x` when it lies in `INT_MIN .. INT_MAX`. Otherwise the conversion is undefined
in C, and the value here is the one the conversion instruction of x86-64
(`cvttsd2si`) delivers, `INT_MIN`. -/
def doubleToInt {R : Type} [LinearOrderedField R] [FloorRing R] (x : R) : Int :=
  if INT_MIN ≤ truncToInt x ∧ truncToInt x ≤ INT_MAX then truncToInt x else INT_MIN

/-- The sum `a + b` of two `int`s. A sum outside `INT_MIN .. INT_MAX` is undefined
in C; the value here is the wrapped one that the 32-bit addition delivers. -/
def intAdd (a b : Int) : Int :=
  (a + b - INT_MIN) % 4294967296 + INT_MIN

/-- The range `[i0, i1]` of bins to analyse. The table `mid2freq` of `midi.c` (note
number to frequency) is a parameter. `i0` and `i1` are `int`: the two conversions
are `doubleToInt` and the increment is `intAdd`; `len/2 - 1` stays within the range
of `int` for every `int` `len`.
```
double t0 = (double)len / (double)sfinfo->samplerate;
int i0 = (int)(mid2freq[notelow] * t0 - 0.5);
int i1 = (int)(mid2freq[notetop] * t0 - 0.5) + 1;
if (i0 <= 0) i0 = 1;
if (i1 >= (len/2)) i1 = len/2 - 1;
``` -/
def binRange {R : Type} [LinearOrderedField R] [FloorRing R] (mid2freq : Int → R)
    (len samplerate notelow notetop : Int) : Int × Int :=
  let t0 : R := (len : R) / (samplerate : R)
  let i0 : Int := doubleToInt (mid2freq notelow * t0 - 0.5)
  let i1 : Int := intAdd (doubleToInt (mid2freq notetop * t0 - 0.5)) 1
  let i0 : Int := if i0 ≤ 0 then 1 else i0
  let i1 : Int := if i1 ≥ Int.tdiv len 2 then Int.tdiv len 2 - 1 else i1
  (i0, i1)

/-! ## Options of the library (`waon.c` 54-73, 153-287) -/

/-- The structure `struct waon_options`. -/
structure waon_options (R : Type) where
  fft_size : Int
  hop_size : Int
  window_type : Int
  cutoff_ratio : R
  note_bottom : Int
  note_top : Int
  use_phase_vocoder : Int
  drum_removal_bins : Int
  drum_removal_factor : R
  octave_removal_factor : R
  pitch_adjust : R
  peak_threshold : Int
  use_relative_cutoff : Int
  relative_cutoff_ratio : R

/-- The options written by `waon_options_create` when its allocation succeeds. -/
def waon_options_create {R : Type} [LinearOrderedField R] : waon_options R :=
  { fft_size := 2048
    hop_size := 512
    window_type := 3
    cutoff_ratio := -5.0
    note_bottom := 48
    note_top := 72
    use_phase_vocoder := 1
    drum_removal_bins := 0
    drum_removal_factor := 0.0
    octave_removal_factor := 0.0
    pitch_adjust := 0.0
    peak_threshold := 128
    use_relative_cutoff := 0
    relative_cutoff_ratio := 1.0 }

/-- The setter `waon_options_set_fft_size`. The pointer `opts` is `none` when
`NULL`; the result is the return code and the options behind the pointer after the
call. The test for the default hop reads `opts->fft_size` after it has been
assigned. -/
def waon_options_set_fft_size {R : Type} (opts : Option (waon_options R)) (size : Int) :
    waon_error_t × Option (waon_options R) :=
  match opts with
  | none => (waon_error_t.WAON_ERROR_INVALID_PARAM, none)
  | some o =>
    if size ≤ 0 ∨ Int.land size (size - 1) ≠ 0 then
      (waon_error_t.WAON_ERROR_INVALID_PARAM, some o)
    else
      let o1 := { o with fft_size := size }
      let o2 := if o1.hop_size = Int.tdiv o1.fft_size 4 then
        { o1 with hop_size := Int.tdiv size 4 } else o1
      (waon_error_t.WAON_SUCCESS, some o2)

/-- The setter `waon_options_set_hop_size`. -/
def waon_options_set_hop_size {R : Type} (opts : Option (waon_options R)) (size : Int) :
    waon_error_t × Option (waon_options R) :=
  match opts with
  | none => (waon_error_t.WAON_ERROR_INVALID_PARAM, none)
  | some o =>
    if size < 0 then (waon_error_t.WAON_ERROR_INVALID_PARAM, some o)
    else
      (waon_error_t.WAON_SUCCESS,
        some { o with hop_size := if size = 0 then Int.tdiv o.fft_size 4 else size })

/-- The setter `waon_options_set_window` (`WAON_WINDOW_NONE = 0`,
`WAON_WINDOW_STEEPER = 6`). -/
def waon_options_set_window {R : Type} (opts : Option (waon_options R)) (window : Int) :
    waon_error_t × Option (waon_options R) :=
  match opts with
  | none => (waon_error_t.WAON_ERROR_INVALID_PARAM, none)
  | some o =>
    if window < 0 ∨ window > 6 then (waon_error_t.WAON_ERROR_INVALID_PARAM, some o)
    else (waon_error_t.WAON_SUCCESS, some { o with window_type := window })

/-- The setter `waon_options_set_cutoff`. -/
def waon_options_set_cutoff {R : Type} (opts : Option (waon_options R)) (cutoff : R) :
    waon_error_t × Option (waon_options R) :=
  match opts with
  | none => (waon_error_t.WAON_ERROR_INVALID_PARAM, none)
  | some o =>
    (waon_error_t.WAON_SUCCESS, some { o with cutoff_ratio := cutoff, use_relative_cutoff := 0 })

/-- The setter `waon_options_set_note_range`. -/
def waon_options_set_note_range {R : Type} (opts : Option (waon_options R))
    (bottom top : Int) : waon_error_t × Option (waon_options R) :=
  match opts with
  | none => (waon_error_t.WAON_ERROR_INVALID_PARAM, none)
  | some o =>
    if bottom < 0 ∨ bottom > 127 ∨ top < 0 ∨ top > 127 ∨ bottom > top then
      (waon_error_t.WAON_ERROR_INVALID_PARAM, some o)
    else (waon_error_t.WAON_SUCCESS, some { o with note_bottom := bottom, note_top := top })

/-- The setter `waon_options_set_phase_vocoder`. -/
def waon_options_set_phase_vocoder {R : Type} (opts : Option (waon_options R))
    (enable : Int) : waon_error_t × Option (waon_options R) :=
  match opts with
  | none => (waon_error_t.WAON_ERROR_INVALID_PARAM, none)
  | some o =>
    (waon_error_t.WAON_SUCCESS,
      some { o with use_phase_vocoder := if enable ≠ 0 then 1 else 0 })

/-- The setter `waon_options_set_drum_removal`. -/
def waon_options_set_drum_removal {R : Type} [LinearOrderedField R]
    (opts : Option (waon_options R)) (bins : Int) (factor : R) :
    waon_error_t × Option (waon_options R) :=
  match opts with
  | none => (waon_error_t.WAON_ERROR_INVALID_PARAM, none)
  | some o =>
    if bins < 0 ∨ factor < 0.0 then (waon_error_t.WAON_ERROR_INVALID_PARAM, some o)
    else
      (waon_error_t.WAON_SUCCESS,
        some { o with drum_removal_bins := bins, drum_removal_factor := factor })

/-- The setter `waon_options_set_octave_removal`. -/
def waon_options_set_octave_removal {R : Type} [LinearOrderedField R]
    (opts : Option (waon_options R)) (factor : R) : waon_error_t × Option (waon_options R) :=
  match opts with
  | none => (waon_error_t.WAON_ERROR_INVALID_PARAM, none)
  | some o =>
    if factor < 0.0 then (waon_error_t.WAON_ERROR_INVALID_PARAM, some o)
    else (waon_error_t.WAON_SUCCESS, some { o with octave_removal_factor := factor })

/-- A call of one of the setters of the library, with its arguments. -/
inductive SetterCall (R : Type) where
  | set_fft_size (size : Int)
  | set_hop_size (size : Int)
  | set_window (window : Int)
  | set_cutoff (cutoff : R)
  | set_note_range (bottom top : Int)
  | set_phase_vocoder (enable : Int)
  | set_drum_removal (bins : Int) (factor : R)
  | set_octave_removal (factor : R)

/-- The result of a setter call on a pointer to the options `o`. -/
def callSetter {R : Type} [LinearOrderedField R] (o : waon_options R) :
    SetterCall R → waon_error_t × Option (waon_options R)
  | SetterCall.set_fft_size size => waon_options_set_fft_size (some o) size
  | SetterCall.set_hop_size size => waon_options_set_hop_size (some o) size
  | SetterCall.set_window window => waon_options_set_window (some o) window
  | SetterCall.set_cutoff cutoff => waon_options_set_cutoff (some o) cutoff
  | SetterCall.set_note_range bottom top => waon_options_set_note_range (some o) bottom top
  | SetterCall.set_phase_vocoder enable => waon_options_set_phase_vocoder (some o) enable
  | SetterCall.set_drum_removal bins factor => waon_options_set_drum_removal (some o) bins factor
  | SetterCall.set_octave_removal factor => waon_options_set_octave_removal (some o) factor

/-- The options behind the pointer after a setter call. -/
def applySetter {R : Type} [LinearOrderedField R] (o : waon_options R) (c : SetterCall R) :
    waon_options R :=
  ((callSetter o c).2).getD o

/-- An options value built through the library: `waon_options_create` followed by a
sequence of setter calls. -/
def builtOptions {R : Type} [LinearOrderedField R] (calls : List (SetterCall R)) :
    waon_options R :=
  calls.foldl applySetter waon_options_create

/-! ## Options of the command line (`cli.h`, `cli.c` 76-96 and 287-312, `main.c` 307-362) -/

/-- The structure `waon_options_t` of `cli.h`; a `char *` field is `none` when
`NULL`. -/
structure waon_options_t (R : Type) where
  input_file : Option String
  output_file : Option String
  patch_file : Option String
  config_file : Option String
  fft_size : Int
  hop_size : Int
  window_type : Int
  cutoff_ratio : R
  relative_cutoff_ratio : R
  use_relative_cutoff : Int
  peak_threshold : Int
  top_note : Int
  bottom_note : Int
  pitch_adjust : R
  use_phase_vocoder : Int
  drum_removal_bins : Int
  drum_removal_factor : R
  octave_removal_factor : R
  show_progress : Int
  verbose : Int
  quiet : Int
  dry_run : Int
  batch_mode : Int
  json_output : Int
  num_threads : Int
  show_help : Int
  show_version : Int
  help_topic : Option String

/-- The function `waon_options_init`: every byte zero, then the defaults. -/
def waon_options_init {R : Type} [LinearOrderedField R] : waon_options_t R :=
  { input_file := none
    output_file := none
    patch_file := none
    config_file := none
    fft_size := 2048
    hop_size := 0
    window_type := 3
    cutoff_ratio := -5.0
    relative_cutoff_ratio := 1.0
    use_relative_cutoff := 0
    peak_threshold := 128
    top_note := 103
    bottom_note := 28
    pitch_adjust := 0.0
    use_phase_vocoder := 1
    drum_removal_bins := 0
    drum_removal_factor := 0.0
    octave_removal_factor := 0.0
    show_progress := 0
    verbose := 0
    quiet := 0
    dry_run := 0
    batch_mode := 0
    json_output := 0
    num_threads := 1
    show_help := 0
    show_version := 0
    help_topic := none }

/-- First statement of `waon_options_validate`:
`if (opts->hop_size == 0) opts->hop_size = opts->fft_size / 4;`. -/
def validateHop {R : Type} (opts : waon_options_t R) : waon_options_t R :=
  if opts.hop_size = 0 then { opts with hop_size := Int.tdiv opts.fft_size 4 } else opts

/-- Second statement of `waon_options_validate`:
`if (opts->window_type < 0 || opts->window_type > 6) opts->window_type = 0;`. -/
def validateWindow {R : Type} (opts : waon_options_t R) : waon_options_t R :=
  if opts.window_type < 0 ∨ opts.window_type > 6 then { opts with window_type := 0 } else opts

/-- Third statement of `waon_options_validate`:
`if (opts->drum_removal_bins == 0) opts->drum_removal_factor = 0.0;`. -/
def validateDrumFactor {R : Type} [LinearOrderedField R] (opts : waon_options_t R) :
    waon_options_t R :=
  if opts.drum_removal_bins = 0 then { opts with drum_removal_factor := 0.0 } else opts

/-- Fourth statement of `waon_options_validate`:
`if (opts->drum_removal_factor == 0.0) opts->drum_removal_bins = 0;`. -/
def validateDrumBins {R : Type} [LinearOrderedField R] (opts : waon_options_t R) :
    waon_options_t R :=
  if opts.drum_removal_factor = 0.0 then { opts with drum_removal_bins := 0 } else opts

/-- Fifth statement of `waon_options_validate`:
`if (opts->output_file == NULL && !opts->dry_run) opts->output_file = strdup("output.mid");`. -/
def validateOutput {R : Type} (opts : waon_options_t R) : waon_options_t R :=
  if opts.output_file = none ∧ opts.dry_run = 0 then
    { opts with output_file := some "output.mid" } else opts

/-- Sixth statement of `waon_options_validate`:
`if (opts->input_file == NULL) opts->input_file = strdup("-");`. -/
def validateInput {R : Type} (opts : waon_options_t R) : waon_options_t R :=
  if opts.input_file = none then { opts with input_file := some "-" } else opts

/-- The function `waon_options_validate`: its six statements in order. It returns
nothing: the options are changed in place. -/
def waon_options_validate {R : Type} [LinearOrderedField R] (opts : waon_options_t R) :
    waon_options_t R :=
  validateInput (validateOutput (validateDrumBins (validateDrumFactor
    (validateWindow (validateHop opts)))))

/-- Where `main` stands once the command line has been parsed and the options
handled: it has left through `exit`, or it starts to allocate its buffers with the
frame length, hop and note range it took from the options. -/
inductive MainStage where
  | exited (status : Int)
  | allocates (len hop notelow notetop : Int)
  deriving DecidableEq, Repr

/-- The function `main` from the handling of help and version to the first
allocation (`main.c` 307-362), on the options left by the parser. -/
def mainAfterParse {R : Type} [LinearOrderedField R] (opts : waon_options_t R) : MainStage :=
  if opts.show_help ≠ 0 then MainStage.exited 0
  else if opts.show_version ≠ 0 then MainStage.exited 0
  else
    let o := waon_options_validate opts
    MainStage.allocates o.fft_size o.hop_size o.bottom_note o.top_note

/-! ## Drum removal (spec section 4.5) -/

/-- Modelled from the spec: the local average of the drum-removal pass
(`power_subtract_ave` of `analyse.c`, not part of the sources at hand), "a local
average magnitude over a `(2·radius+1)`-bin window centered at `i` (radius =
configured bin count, clipped at spectrum edges)". -/
def localAverage {R : Type} [LinearOrderedField R] (len : Int) (p : Int → R) (radius i : Int) :
    R :=
  let window : List Int :=
    ((List.range (2 * radius + 1).toNat).map (fun k : Nat => i - radius + (k : Int))).filter
      (fun j => decide (0 ≤ j ∧ j ≤ Int.tdiv len 2))
  if window.length = 0 then 0 else (window.map p).sum / (window.length : R)

/-- Modelled from the spec: the drum-removal pass `power_subtract_ave (len, p,
radius, factor)` (`analyse.c`, not part of the sources at hand): on every bin of
the span `0 .. len/2`,
`power[i] = max(0, sqrt(power[i]) − factor · sqrt(localAverage[i]))^2`. -/
def power_subtract_ave {R : Type} [LinearOrderedField R] (sqrt : R → R) (len : Int)
    (p : Int → R) (radius : Int) (factor : R) : Int → R :=
  fun i =>
    if 0 ≤ i ∧ i ≤ Int.tdiv len 2 then
      (max 0 (sqrt (p i) - factor * sqrt (localAverage len p radius i))) ^ 2
    else p i

/-! ## The function `waon_transcribe_internal` (`waon.c` 301-605) -/

/-- The structure `struct waon_context`; `progress_callback` tells whether the
callback pointer is set. -/
structure waon_context where
  last_error : waon_error_t
  progress_callback : Bool
  initialized : Int

/-- What `waon_transcribe_internal` acquires: the temporary default options, the
note collection, the buffers and the transform plan. -/
inductive Resource where
  | default_options
  | notes
  | left
  | right
  | x
  | y
  | p
  | p0
  | dphi
  | ph0
  | ph1
  | pmidi
  | plan
  deriving DecidableEq, Repr

/-- The calls of `waon_transcribe_internal` that acquire or release a resource and
the calls made once the frame loop has ended. -/
inductive Event where
  | acquire (r : Resource)
  | release (r : Resource)
  | WAON_notes_regulate
  | WAON_notes_remove_shortnotes (min_duration min_vel : Int)
  | WAON_notes_remove_octaves
  | WAON_notes_output_midi (div : Int)
  deriving DecidableEq, Repr

/-- The value given to the progress callback for frame `icnt`:
`progress = (double)icnt / (double)total_frames; if (progress > 1.0) progress = 1.0;`. -/
def progressValue {R : Type} [LinearOrderedField R] (total_frames icnt : Int) : R :=
  let progress : R := (icnt : R) / (total_frames : R)
  if progress > 1.0 then 1.0 else progress

/-- What a call that returns leaves behind: the code returned, the context, the
events in order, the frames processed, the values given to the progress callback
and the source. -/
structure RunResult (R : Type) where
  code : waon_error_t
  ctx : waon_context
  events : List Event
  processed : List (Frame R)
  progress : List R
  src : Source R

/-- The outcome of a call: it returns, or it divides by zero in
`sfinfo->frames / hop`. -/
inductive Outcome (R : Type) where
  | returned (r : RunResult R)
  | divisionByZero

/-- The statements `ctx->last_error = e; ... return ctx->last_error;`. -/
def returnWith {R : Type} (ctx : waon_context) (e : waon_error_t) (events : List Event)
    (processed : List (Frame R)) (progress : List R) (src : Source R) : Outcome R :=
  let ctx1 := { ctx with last_error := e }
  Outcome.returned { code := ctx1.last_error, ctx := ctx1, events := events,
                     processed := processed, progress := progress, src := src }

/-- The allocations among `rs` that succeed (`failed r` tells that the allocation of
`r` returns `NULL`). -/
def acquired (failed : Resource → Bool) (rs : List Resource) : List Event :=
  (rs.filter (fun r => !failed r)).map Event.acquire

/-- The releases of an error path: the resources `always` released without a test,
then those of `maybe` released under `if (ptr) free (ptr)`. -/
def rollback (failed : Resource → Bool) (always maybe : List Resource) : List Event :=
  always.map Event.release ++ (maybe.filter (fun r => !failed r)).map Event.release

/-- The phase-vocoder arrays, allocated only when `flag_phase != 0`. -/
def phaseArrays (flag_phase : Int) : List Resource :=
  if flag_phase ≠ 0 then [Resource.p0, Resource.dphi, Resource.ph0, Resource.ph1] else []

/-- The allocations of `waon.c` 347-440, from `WAON_notes_init` to `pmidi`: whether
all of them succeeded, and the events up to there, the releases of the error path
taken included. -/
def allocateBuffers (failed : Resource → Bool) (flag_phase : Int) : Bool × List Event :=
  if failed Resource.notes then (false, [])
  else
    let e1 := [Event.acquire Resource.notes] ++ acquired failed [Resource.left, Resource.right]
    if failed Resource.left ∨ failed Resource.right then
      (false, e1 ++ rollback failed [Resource.notes] [Resource.left, Resource.right])
    else
      let e2 := e1 ++ acquired failed [Resource.x, Resource.y]
      if failed Resource.x ∨ failed Resource.y then
        (false, e2 ++ rollback failed [Resource.notes, Resource.left, Resource.right]
          [Resource.x, Resource.y])
      else
        let e3 := e2 ++ acquired failed [Resource.p]
        if failed Resource.p then
          (false, e3 ++ rollback failed
            [Resource.notes, Resource.left, Resource.right, Resource.x, Resource.y] [])
        else
          let e4 := e3 ++ acquired failed (phaseArrays flag_phase)
          if flag_phase ≠ 0 ∧ (failed Resource.p0 ∨ failed Resource.dphi ∨ failed Resource.ph0
              ∨ failed Resource.ph1) then
            (false, e4 ++ rollback failed
              [Resource.notes, Resource.left, Resource.right, Resource.x, Resource.y, Resource.p]
              (phaseArrays flag_phase))
          else
            let e5 := e4 ++ acquired failed [Resource.pmidi]
            if failed Resource.pmidi then
              (false, e5 ++ rollback failed
                [Resource.notes, Resource.left, Resource.right, Resource.x, Resource.y,
                  Resource.p] (phaseArrays flag_phase))
            else (true, e5)

/-- The releases after the label `cleanup:`. -/
def cleanupEvents (flag_phase : Int) : List Event :=
  [Event.release Resource.plan, Event.release Resource.notes, Event.release Resource.left,
    Event.release Resource.right, Event.release Resource.x, Event.release Resource.y,
    Event.release Resource.p]
  ++ (phaseArrays flag_phase).map Event.release ++ [Event.release Resource.pmidi]

/-- The priming read "for first step": unless `hop == len`, `len - hop` samples are
read to `left + hop` and `right + hop`; the flag tells whether the read was
complete. -/
def primingRead {R : Type} (len hop : Int) (src : Source R) (b : Buffers R) :
    Bool × Source R × Buffers R :=
  if hop ≠ len then
    let r := sndfile_read src b hop (len - hop)
    (decide (r.1 = len - hop), r.2.1, r.2.2)
  else (true, src, b)

/-- The calls made between the end of the frame loop and the label `cleanup:`. The
argument `(long)(0.5 * samplerate / hop)` of the MIDI output is the integral part of
the quotient: `samplerate` is an `int`, so for a hop of at least 1 the quotient is
below `2^30` and the 64-bit `long` holds its integral part. -/
def postProcessing {R : Type} [LinearOrderedField R] [FloorRing R] (samplerate hop : Int) :
    List Event :=
  [Event.WAON_notes_regulate, Event.WAON_notes_remove_shortnotes 1 64,
    Event.WAON_notes_remove_shortnotes 2 28, Event.WAON_notes_remove_octaves,
    Event.WAON_notes_output_midi (truncToInt ((0.5 : R) * (samplerate : R) / (hop : R)))]

/-- The function `waon_transcribe_internal` once the options are fixed (`waon.c`
323-605). `ev0` holds the events so far. -/
def transcribeWith {R : Type} [LinearOrderedField R] [FloorRing R] (fuel : Nat)
    (failed : Resource → Bool) (ctx : waon_context) (src : Source R) (samplerate : Int)
    (options : waon_options R) (ev0 : List Event) (b : Buffers R) (x : Int → R) :
    Option (Outcome R) :=
  let len := options.fft_size
  let hop := options.hop_size
  let flag_phase := options.use_phase_vocoder
  -- Check stereo or mono
  if src.channels ≠ 2 ∧ src.channels ≠ 1 then
    some (returnWith ctx waon_error_t.WAON_ERROR_FILE_FORMAT ev0 [] [] src)
  else
    let a := allocateBuffers failed flag_phase
    if a.1 = false then
      some (returnWith ctx waon_error_t.WAON_ERROR_MEMORY (ev0 ++ a.2) [] [] src)
    else
      let ev1 := ev0 ++ a.2 ++ [Event.acquire Resource.plan]
      -- For first step
      let primed := primingRead len hop src b
      if primed.1 = false then
        some (returnWith ctx waon_error_t.WAON_ERROR_IO (ev1 ++ cleanupEvents flag_phase)
          [] [] primed.2.1)
      else if hop = 0 then
        -- long total_frames = sfinfo->frames / hop;
        some Outcome.divisionByZero
      else
        let total_frames := Int.tdiv src.frames hop
        (frameLoop len hop fuel
          { src := primed.2.1, buf := primed.2.2, x := x, icnt := 0, processed := [] }).map
          fun st =>
            let progress : List R :=
              if ctx.progress_callback then
                st.processed.map (fun f => progressValue total_frames f.icnt)
              else []
            returnWith ctx waon_error_t.WAON_SUCCESS
              (ev1 ++ postProcessing (R := R) samplerate hop ++ cleanupEvents flag_phase)
              st.processed progress st.src

/-- The function `waon_transcribe_internal`. `failed` tells which allocations
return `NULL`; `src` and `samplerate` stand for `sf` and `sfinfo`; `opts` is `none`
for a `NULL` pointer; `b` and `x` are the contents of the freshly allocated
history arrays and table. The analysis of the frames (window, transform, power,
corrector, suppression, note detection) reads the table `x[]` of each frame and
neither the source nor the history arrays; it is `analyseRun`, applied to the
frames recorded here. -/
def waon_transcribe_internal {R : Type} [LinearOrderedField R] [FloorRing R] (fuel : Nat)
    (failed : Resource → Bool) (ctx : waon_context) (src : Source R) (samplerate : Int)
    (opts : Option (waon_options R)) (b : Buffers R) (x : Int → R) : Option (Outcome R) :=
  -- Use default options if none provided
  match opts with
  | some o => transcribeWith fuel failed ctx src samplerate o [] b x
  | none =>
    if failed Resource.default_options then
      some (returnWith ctx waon_error_t.WAON_ERROR_MEMORY [] [] [] src)
    else
      transcribeWith fuel failed ctx src samplerate waon_options_create
        [Event.acquire Resource.default_options, Event.release Resource.default_options] b x

/-! ## The analysis of the frames of a run (`waon.c` 323-325, 354-359, 442-452, 472-474, 493-558) -/

/-- The variables `abs_flg`, `adj_pitch`, `pitch_shift`, `n_pitch` shared between
runs. -/
structure Globals (R : Type) where
  abs_flg : Int
  adj_pitch : R
  pitch_shift : R
  n_pitch : Int

/-- The routines of `fft.c`, `hc.c` and `analyse.c` called by the frame loop, none of
them part of the sources at hand: each is a parameter that receives the arguments
of the call (and, for `note_intensity`, the shared variables) and returns the
arrays it writes. -/
structure Routines (R : Type) where
  init_den : Int → Int → R
  windowing : Int → (Int → R) → Int → R → (Int → R)
  fftw_execute : Int → (Int → R) → (Int → R)
  HC_to_amp2 : Int → (Int → R) → R → (Int → R)
  HC_to_polar2 : Int → (Int → R) → Int → R → (Int → R) × (Int → R)
  power_subtract_ave : Int → (Int → R) → Int → R → (Int → R)
  power_subtract_octave : Int → (Int → R) → R → (Int → R)
  note_intensity : Globals R → (Int → R) → Option (Int → R) → R → R → Int → Int → R →
    (Int → Int) → Globals R × (Int → Int)

/-- What the analysis carries from frame to frame: the spectral arrays, the shared
variables and the velocities `vel[]`. -/
structure AnalysisState (R : Type) where
  spec : Spectral R
  globals : Globals R
  vel : Int → Int

/-- The state in which the first frame is analysed: the shared variables as set at
`waon.c` 324-325 and 473-474 from whatever they held (`g0`), `vel[0..127]` cleared,
and the spectral arrays as allocated (`s0`). -/
def startAnalysis {R : Type} [LinearOrderedField R] (options : waon_options R)
    (g0 : Globals R) (s0 : Spectral R) (vel0 : Int → Int) : AnalysisState R :=
  -- abs_flg = options->use_relative_cutoff ? 0 : 1;  adj_pitch = options->pitch_adjust;
  let g1 := { g0 with abs_flg := if options.use_relative_cutoff ≠ 0 then 0 else 1 }
  let g2 := { g1 with adj_pitch := options.pitch_adjust }
  -- pitch_shift = 0.0;  n_pitch = 0;
  let g3 := { g2 with pitch_shift := 0.0 }
  let g4 := { g3 with n_pitch := 0 }
  { spec := s0, globals := g4, vel := forLoop 128 (fun v i => Function.update v i 0) vel0 }

/-- The analysis of one processed frame (`waon.c` 502-558): window, transform, power
(and phase), corrector, suppression, frequency array, note intensity. What is
handed to `note_intensity` is returned with the new state. -/
def analyseOne {R : Type} [LinearOrderedField R] [FloorRing R] (A : Routines R)
    (sqrt : R → R) (pi : R) (fuel : Nat) (mid2freq : Int → R) (options : waon_options R)
    (samplerate : Int) (st : AnalysisState R) (f : Frame R) :
    Option (AnalysisState R × Handoff R) :=
  let len := options.fft_size
  let t0 : R := (len : R) / (samplerate : R)
  let den := A.init_den len options.window_type
  let range := binRange mid2freq len samplerate options.note_bottom options.note_top
  -- windowing (len, x, flag_window, 1.0, x);  fftw_execute (plan);
  let xw := A.windowing len f.x options.window_type 1.0
  let y := A.fftw_execute len xw
  let s1 : Spectral R :=
    if options.use_phase_vocoder = 0 then
      { st.spec with p := A.HC_to_amp2 len y den }
    else
      { st.spec with p := (A.HC_to_polar2 len y 0 den).1, ph1 := (A.HC_to_polar2 len y 0 den).2 }
  (analyseFrame sqrt pi fuel A.power_subtract_ave A.power_subtract_octave len options.hop_size
      samplerate options.use_phase_vocoder options.drum_removal_bins
      options.drum_removal_factor options.octave_removal_factor f.icnt s1).map
    fun r =>
      let n := A.note_intensity st.globals r.2.power r.2.freq options.cutoff_ratio
        options.relative_cutoff_ratio range.1 range.2 t0 st.vel
      ({ spec := r.1, globals := n.1, vel := n.2 }, r.2)

/-- The power and the phase extracted from a frame before any correction
(`waon.c` 502-514): `windowing`, `fftw_execute`, `HC_to_polar2`. -/
def extractPolar {R : Type} [LinearOrderedField R] (A : Routines R) (options : waon_options R)
    (f : Frame R) : (Int → R) × (Int → R) :=
  A.HC_to_polar2 options.fft_size
    (A.fftw_execute options.fft_size
      (A.windowing options.fft_size f.x options.window_type 1.0))
    0 (A.init_den options.fft_size options.window_type)

/-- The analysis of the frames of a run, in order. -/
def analyseRun {R : Type} [LinearOrderedField R] [FloorRing R] (A : Routines R)
    (sqrt : R → R) (pi : R) (fuel : Nat) (mid2freq : Int → R) (options : waon_options R)
    (samplerate : Int) : AnalysisState R → List (Frame R) → Option (List (Handoff R))
  | _, [] => some []
  | st, f :: fs =>
    (analyseOne A sqrt pi fuel mid2freq options samplerate st f).bind fun r =>
      (analyseRun A sqrt pi fuel mid2freq options samplerate r.1 fs).map fun hs => r.2 :: hs

/-- The power arrays handed to note detection by one run of the engine, frame by
frame: `none` when the call does not return. Besides the source and the
configuration the run starts from the contents of its freshly allocated arrays
(`b`, `x`, `s0`, `vel0`) and from the shared variables as the last run left them
(`g0`). -/
def powerSequence {R : Type} [LinearOrderedField R] [FloorRing R] (A : Routines R)
    (sqrt : R → R) (pi : R) (fuel : Nat) (mid2freq : Int → R) (failed : Resource → Bool)
    (ctx : waon_context) (src : Source R) (samplerate : Int) (opts : Option (waon_options R))
    (b : Buffers R) (x : Int → R) (s0 : Spectral R) (g0 : Globals R) (vel0 : Int → Int) :
    Option (List (Int → R)) :=
  match waon_transcribe_internal fuel failed ctx src samplerate opts b x with
  | some (Outcome.returned r) =>
    (analyseRun A sqrt pi fuel mid2freq (opts.getD waon_options_create) samplerate
      (startAnalysis (opts.getD waon_options_create) g0 s0 vel0) r.processed).map
      fun hs => hs.map Handoff.power
  | _ => none

/-- Two tables hold the same values in the cells `lo .. hi - 1`. -/
def AgreeOn {R : Type} (lo hi : Int) (a a' : Int → R) : Prop :=
  ∀ i, lo ≤ i → i < hi → a i = a' i

/-- Two lists of frames have the same counters and, frame by frame, the same table
`x[0 .. len - 1]`. -/
def FramesAgree {R : Type} (len : Int) (fs fs' : List (Frame R)) : Prop :=
  List.Forall₂ (fun f f' => f.icnt = f'.icnt ∧ AgreeOn 0 len f.x f'.x) fs fs'

/-! ## The function `waon_transcribe_data` (`waon.c` 634-662) -/

/-- The function `waon_transcribe_data`. A pointer argument is `none` when `NULL`.
After the argument check the function fills a local `SF_INFO` (with
`num_samples / channels`, `channels` being 1 or 2 there) and, the memory-based
processing being left as a `TODO`, stores `WAON_ERROR_INTERNAL` and returns it.
The result is the code returned and the context behind the pointer after the
call. -/
def waon_transcribe_data {R : Type} (ctx : Option waon_context)
    (audio_data : Option (Int → R)) (num_samples sample_rate channels : Int)
    (output_file : Option String) (_opts : Option (waon_options R)) :
    waon_error_t × Option waon_context :=
  match ctx with
  | none => (waon_error_t.WAON_ERROR_INVALID_PARAM, none)
  | some c =>
    if audio_data.isNone = true ∨ output_file.isNone = true ∨ num_samples ≤ 0
        ∨ sample_rate ≤ 0 ∨ (channels ≠ 1 ∧ channels ≠ 2) then
      (waon_error_t.WAON_ERROR_INVALID_PARAM,
        some { c with last_error := waon_error_t.WAON_ERROR_INVALID_PARAM })
    else
      let c1 := { c with last_error := waon_error_t.WAON_ERROR_INTERNAL }
      (c1.last_error, some c1)

/-! ## Bookkeeping of acquired resources -/

/-- The resources held after a sequence of events, starting from the resources
`held`; `none` when the sequence acquires a resource that is held, or releases one
that is not held (never acquired, or released already). A sequence with
`ledger [] events = some []` releases every resource it acquires exactly once,
after its acquisition, and releases nothing else. -/
def ledger : List Resource → List Event → Option (List Resource)
  | held, [] => some held
  | held, Event.acquire r :: es => if r ∈ held then none else ledger (r :: held) es
  | held, Event.release r :: es => if r ∈ held then ledger (held.erase r) es else none
  | held, Event.WAON_notes_regulate :: es => ledger held es
  | held, Event.WAON_notes_remove_shortnotes _ _ :: es => ledger held es
  | held, Event.WAON_notes_remove_octaves :: es => ledger held es
  | held, Event.WAON_notes_output_midi _ :: es => ledger held es

/-! ## The input as the analysis sees it -/

/-- Sample `j` of the input after the downmix, in the words of the specification:
"stereo downmix: arithmetic mean of left/right per sample; mono: passthrough". It is
what the table `x[]` of a frame is compared with. -/
def mix {R : Type} [LinearOrderedField R] (src : Source R) (j : Nat) : R :=
  if src.channels = 2 then 0.5 * (src.left j + src.right j) else src.left j

/-! ## One iteration of the frame loop at its two call sites (`waon.c` 477-561, `main.c` 495-655) -/

/-- The local variables and the fields of `sfinfo` that an iteration of the frame
loop reads; both call sites set them before the loop. -/
structure FrameLocals (R : Type) where
  len : Int
  hop : Int
  flag_window : Int
  flag_phase : Int
  psub_n : Int
  psub_f : R
  oct_f : R
  cut_ratio : R
  rel_cut_ratio : R
  peak_threshold : Int
  t0 : R
  den : R
  i0 : Int
  i1 : Int
  samplerate : Int

/-- The variables an iteration of the frame loop reads and writes: the source, the
history arrays, the tables `x[]` and `y[]`, the spectral arrays, the shared variables
and the velocities. -/
structure FrameState (R : Type) where
  src : Source R
  buf : Buffers R
  x : Int → R
  y : Int → R
  spec : Spectral R
  globals : Globals R
  vel : Int → Int

/-- How an iteration ends: with `break` at the end of the stream, or at the end of
the body, having handed the power array and the frequency array (`NULL` without the
phase vocoder) to `note_intensity` and the arguments `icnt, 8, 0, peak_threshold`
to `WAON_notes_check`. -/
inductive FrameResult (R : Type) where
  | stop (st : FrameState R)
  | next (st : FrameState R) (handed : Handoff R) (check : Int × Int × Int × Int)

/-- The locals of `waon_transcribe_internal` (`waon.c` 327-340 and 442-452). -/
def libraryLocals {R : Type} [LinearOrderedField R] [FloorRing R] (A : Routines R)
    (mid2freq : Int → R) (options : waon_options R) (samplerate : Int) : FrameLocals R :=
  let t0 : R := (options.fft_size : R) / (samplerate : R)
  let range := binRange mid2freq options.fft_size samplerate options.note_bottom
    options.note_top
  { len := options.fft_size
    hop := options.hop_size
    flag_window := options.window_type
    flag_phase := options.use_phase_vocoder
    psub_n := options.drum_removal_bins
    psub_f := options.drum_removal_factor
    oct_f := options.octave_removal_factor
    cut_ratio := options.cutoff_ratio
    rel_cut_ratio := options.relative_cutoff_ratio
    peak_threshold := options.peak_threshold
    t0 := t0
    den := A.init_den options.fft_size options.window_type
    i0 := range.1
    i1 := range.2
    samplerate := samplerate }

/-- One iteration of the frame loop of `waon_transcribe_internal` (`waon.c` 477-561)
for the counter `icnt`. -/
def waon_transcribe_iteration {R : Type} [LinearOrderedField R] (A : Routines R)
    (sqrt : R → R) (pi : R) (fuel : Nat) (v : FrameLocals R) (icnt : Int)
    (st : FrameState R) : Option (FrameResult R) :=
  -- Shift buffers, read from audio
  let r := shiftAndRefill v.len v.hop st.src st.buf
  if r.1 ≠ v.hop then
    some (FrameResult.stop { st with src := r.2.1, buf := r.2.2 })
  else
    -- Set double table x[] for FFT
    let x := mixdown r.2.1.channels v.len r.2.2 st.x
    -- Stage 1: calc power spectrum
    let xw := A.windowing v.len x v.flag_window 1.0
    let y := A.fftw_execute v.len xw
    let s1 : Spectral R :=
      if v.flag_phase = 0 then { st.spec with p := A.HC_to_amp2 v.len y v.den }
      else { st.spec with p := (A.HC_to_polar2 v.len y 0 v.den).1,
                          ph1 := (A.HC_to_polar2 v.len y 0 v.den).2 }
    (analyseFrame sqrt pi fuel A.power_subtract_ave A.power_subtract_octave v.len v.hop
        v.samplerate v.flag_phase v.psub_n v.psub_f v.oct_f icnt s1).map
      fun out =>
        -- Stage 2: pickup notes;  Stage 3: check previous time for note-on/off
        let n := A.note_intensity st.globals out.2.power out.2.freq v.cut_ratio
          v.rel_cut_ratio v.i0 v.i1 v.t0 st.vel
        FrameResult.next
          { src := r.2.1, buf := r.2.2, x := xw, y := y, spec := out.1, globals := n.1,
            vel := n.2 }
          out.2 (icnt, 8, 0, v.peak_threshold)

/-- The locals of `main` (`main.c` 331-347 and 432-447), read from the options after
`waon_options_validate`. -/
def mainLocals {R : Type} [LinearOrderedField R] [FloorRing R] (A : Routines R)
    (mid2freq : Int → R) (opts : waon_options_t R) (samplerate : Int) : FrameLocals R :=
  let len := opts.fft_size
  let notetop := opts.top_note
  let notelow := opts.bottom_note
  -- time-period for FFT (inverse of smallest frequency)
  let t0 : R := (len : R) / (samplerate : R)
  -- set range to analyse (search notes)
  let i0 : Int := doubleToInt (mid2freq notelow * t0 - 0.5)
  let i1 : Int := intAdd (doubleToInt (mid2freq notetop * t0 - 0.5)) 1
  let i0 : Int := if i0 ≤ 0 then 1 else i0
  let i1 : Int := if i1 ≥ Int.tdiv len 2 then Int.tdiv len 2 - 1 else i1
  { len := len
    hop := opts.hop_size
    flag_window := opts.window_type
    flag_phase := opts.use_phase_vocoder
    psub_n := opts.drum_removal_bins
    psub_f := opts.drum_removal_factor
    oct_f := opts.octave_removal_factor
    cut_ratio := opts.cutoff_ratio
    rel_cut_ratio := opts.relative_cutoff_ratio
    peak_threshold := opts.peak_threshold
    t0 := t0
    den := A.init_den len opts.window_type
    i0 := i0
    i1 := i1
    samplerate := samplerate }

/-- The shift loop of `main` (`main.c` 498-509). -/
def main_shift {R : Type} (channels len hop : Int) (b : Buffers R) : Buffers R :=
  forLoop (len - hop) (fun b i =>
    if channels = 2 then
      let b1 := { b with left := Function.update b.left i (b.left (i + hop)) }
      { b1 with right := Function.update b1.right i (b1.right (i + hop)) }
    else
      { b with left := Function.update b.left i (b.left (i + hop)) }) b

/-- The loop of `main` that sets the table `x[]` (`main.c` 523-533). -/
def main_table {R : Type} [LinearOrderedField R] (channels len : Int) (b : Buffers R)
    (x : Int → R) : Int → R :=
  forLoop len (fun x i =>
    if channels = 2 then Function.update x i (0.5 * (b.left i + b.right i))
    else Function.update x i (b.left i)) x

/-- The phase-vocoder correction of `main` (`main.c` 556-594), applied once `p` and
`ph1` hold the extracted power and phase. -/
def main_correction {R : Type} [LinearOrderedField R] (sqrt : R → R) (pi : R) (fuel : Nat)
    (len hop icnt : Int) (s : Spectral R) : Option (Spectral R) :=
  if icnt = 0 then
    -- first step, so no ph0[] yet
    some (forLoop (Int.tdiv len 2 + 1) (fun s i =>
      -- no correction
      let s1 := { s with dphi := Function.update s.dphi i 0.0 }
      -- backup the phase for the next step
      let s2 := { s1 with p0 := Function.update s1.p0 i (s1.p i) }
      { s2 with ph0 := Function.update s2.ph0 i (s2.ph1 i) }) s)
  else
    -- freq correction by phase difference
    forLoopM (Int.tdiv len 2 + 1) (fun s i =>
      let twopi : R := 2.0 * pi
      let d : R := s.ph1 i - s.ph0 i - twopi * (i : R) / (len : R) * (hop : R)
      let s1 := { s with dphi := Function.update s.dphi i d }
      (wrapPhase pi fuel (s1.dphi i)).map fun w =>
        let s2 := { s1 with dphi := Function.update s1.dphi i w }
        -- frequency correction
        let s3 := { s2 with dphi := Function.update s2.dphi i (s2.dphi i / twopi / (hop : R)) }
        -- backup the phase for the next step
        let s4 := { s3 with p0 := Function.update s3.p0 i (s3.p i) }
        let s5 := { s4 with ph0 := Function.update s4.ph0 i (s4.ph1 i) }
        -- then, average the power for the analysis
        let average : R := 0.5 * (sqrt (s5.p i) + sqrt (s5.p0 i))
        let s6 := { s5 with p := Function.update s5.p i average }
        { s6 with p := Function.update s6.p i (s6.p i * s6.p i) }) s

/-- One iteration of the frame loop of `main` (`main.c` 495-655) for the counter
`icnt`; the messages and the progress bar are left out. -/
def main_iteration {R : Type} [LinearOrderedField R] (A : Routines R)
    (sqrt : R → R) (pi : R) (fuel : Nat) (v : FrameLocals R) (icnt : Int)
    (st : FrameState R) : Option (FrameResult R) :=
  -- shift, read from wav
  let r := sndfile_read st.src (main_shift st.src.channels v.len v.hop st.buf)
    (v.len - v.hop) v.hop
  if r.1 ≠ v.hop then
    some (FrameResult.stop { st with src := r.2.1, buf := r.2.2 })
  else
    -- set double table x[] for FFT
    let x := main_table r.2.1.channels v.len r.2.2 st.x
    -- stage 1: calc power spectrum
    let xw := A.windowing v.len x v.flag_window 1.0
    let y := A.fftw_execute v.len xw
    let corrected : Option (Spectral R) :=
      if v.flag_phase = 0 then
        -- no phase-vocoder correction
        some { st.spec with p := A.HC_to_amp2 v.len y v.den }
      else
        -- with phase-vocoder correction
        main_correction sqrt pi fuel v.len v.hop icnt
          { st.spec with p := (A.HC_to_polar2 v.len y 0 v.den).1,
                         ph1 := (A.HC_to_polar2 v.len y 0 v.den).2 }
    corrected.map fun s2 =>
      -- drum-removal process
      let s3 := if v.psub_n ≠ 0 then
        { s2 with p := A.power_subtract_ave v.len s2.p v.psub_n v.psub_f } else s2
      -- octave-removal process
      let s4 := if v.oct_f ≠ 0.0 then
        { s3 with p := A.power_subtract_octave v.len s3.p v.oct_f } else s3
      -- stage 2: pickup notes
      if v.flag_phase = 0 then
        let n := A.note_intensity st.globals s4.p none v.cut_ratio v.rel_cut_ratio v.i0 v.i1
          v.t0 st.vel
        FrameResult.next
          { src := r.2.1, buf := r.2.2, x := xw, y := y, spec := s4, globals := n.1,
            vel := n.2 }
          { power := s4.p, freq := none } (icnt, 8, 0, v.peak_threshold)
      else
        -- make corrected frequency (i / len + dphi) * samplerate [Hz]
        let s5 := forLoop (Int.tdiv v.len 2 + 1) (fun s i =>
          let freq : R := ((i : R) / (v.len : R) + s.dphi i) * (v.samplerate : R)
          { s with dphi := Function.update s.dphi i freq }) s4
        let n := A.note_intensity st.globals s5.p (some s5.dphi) v.cut_ratio v.rel_cut_ratio
          v.i0 v.i1 v.t0 st.vel
        FrameResult.next
          { src := r.2.1, buf := r.2.2, x := xw, y := y, spec := s5, globals := n.1,
            vel := n.2 }
          { power := s5.p, freq := some s5.dphi } (icnt, 8, 0, v.peak_threshold)

/-! ## Configuration files and command line (`config.c` 80-249, `cli.c` 98-285, `main.c` 54-324) -/

/-- The routines of the C library applied to option texts: `strcasecmp` (`true` when
it returns 0), `atoi`, `atol` and `atof`. -/
structure TextRoutines (R : Type) where
  strcasecmp : String → String → Bool
  atoi : String → Int
  atol : String → Int
  atof : String → R

/-- The enumeration `config_section_t` of `config.h`. -/
inductive config_section_t where
  | CONFIG_SECTION_GENERAL
  | CONFIG_SECTION_ANALYSIS
  | CONFIG_SECTION_NOTE_DETECTION
  | CONFIG_SECTION_RANGE
  | CONFIG_SECTION_PROCESSING
  deriving DecidableEq, Repr

/-- The function `parse_section` of `config.c`. -/
def parse_section {R : Type} (T : TextRoutines R) (section_name : String) : config_section_t :=
  if T.strcasecmp section_name "general" then config_section_t.CONFIG_SECTION_GENERAL
  else if T.strcasecmp section_name "analysis" then config_section_t.CONFIG_SECTION_ANALYSIS
  else if T.strcasecmp section_name "note-detection"
      ∨ T.strcasecmp section_name "note_detection" then
    config_section_t.CONFIG_SECTION_NOTE_DETECTION
  else if T.strcasecmp section_name "range" then config_section_t.CONFIG_SECTION_RANGE
  else if T.strcasecmp section_name "processing" then
    config_section_t.CONFIG_SECTION_PROCESSING
  else config_section_t.CONFIG_SECTION_GENERAL

/-- The function `apply_config_value` of `config.c`. -/
def apply_config_value {R : Type} (T : TextRoutines R) (opts : waon_options_t R)
    (sect : config_section_t) (key value : String) : waon_options_t R :=
  match sect with
  | config_section_t.CONFIG_SECTION_GENERAL =>
    if T.strcasecmp key "verbose" then { opts with verbose := T.atoi value }
    else if T.strcasecmp key "quiet" then { opts with quiet := T.atoi value }
    else if T.strcasecmp key "progress" then { opts with show_progress := T.atoi value }
    else opts
  | config_section_t.CONFIG_SECTION_ANALYSIS =>
    if T.strcasecmp key "fft-size" ∨ T.strcasecmp key "fft_size" then
      { opts with fft_size := T.atol value }
    else if T.strcasecmp key "hop-size" ∨ T.strcasecmp key "hop_size" then
      { opts with hop_size := T.atol value }
    else if T.strcasecmp key "window" then { opts with window_type := T.atoi value }
    else if T.strcasecmp key "use-phase" ∨ T.strcasecmp key "use_phase" then
      { opts with use_phase_vocoder := T.atoi value }
    else opts
  | config_section_t.CONFIG_SECTION_NOTE_DETECTION =>
    if T.strcasecmp key "cutoff" then { opts with cutoff_ratio := T.atof value }
    else if T.strcasecmp key "relative-cutoff" ∨ T.strcasecmp key "relative_cutoff" then
      { opts with relative_cutoff_ratio := T.atof value, use_relative_cutoff := 1 }
    else if T.strcasecmp key "peak-threshold" ∨ T.strcasecmp key "peak_threshold" then
      { opts with peak_threshold := T.atoi value }
    else if T.strcasecmp key "pitch-adjust" ∨ T.strcasecmp key "pitch_adjust" then
      { opts with pitch_adjust := T.atof value }
    else opts
  | config_section_t.CONFIG_SECTION_RANGE =>
    if T.strcasecmp key "top-note" ∨ T.strcasecmp key "top_note" then
      { opts with top_note := T.atoi value }
    else if T.strcasecmp key "bottom-note" ∨ T.strcasecmp key "bottom_note" then
      { opts with bottom_note := T.atoi value }
    else opts
  | config_section_t.CONFIG_SECTION_PROCESSING =>
    if T.strcasecmp key "drum-removal-bins" ∨ T.strcasecmp key "drum_removal_bins" then
      { opts with drum_removal_bins := T.atoi value }
    else if T.strcasecmp key "drum-removal-factor"
        ∨ T.strcasecmp key "drum_removal_factor" then
      { opts with drum_removal_factor := T.atof value }
    else if T.strcasecmp key "octave-removal" ∨ T.strcasecmp key "octave_removal" then
      { opts with octave_removal_factor := T.atof value }
    else if T.strcasecmp key "threads" then { opts with num_threads := T.atoi value }
    else opts

/-- A line of a configuration file as the loop of `load_config_file` tells them
apart once trimmed: an empty line or a comment, a section header `[name]`, a header
without `]`, a line `key = value` (key and value trimmed, quotes around the value
removed), a line without `=`. -/
inductive ConfigLine where
  | blank
  | header (name : String)
  | openHeader
  | assignment (key value : String)
  | noEquals
  deriving DecidableEq, Repr

/-- The loop of `load_config_file` over the lines of the file (`config.c` 173-215). -/
def load_config_lines {R : Type} (T : TextRoutines R) :
    List ConfigLine → config_section_t → waon_options_t R → waon_options_t R
  | [], _, opts => opts
  | ConfigLine.blank :: rest, sect, opts => load_config_lines T rest sect opts
  | ConfigLine.header name :: rest, _, opts =>
    load_config_lines T rest (parse_section T name) opts
  | ConfigLine.openHeader :: rest, sect, opts => load_config_lines T rest sect opts
  | ConfigLine.assignment key value :: rest, sect, opts =>
    load_config_lines T rest sect (apply_config_value T opts sect key value)
  | ConfigLine.noEquals :: rest, sect, opts => load_config_lines T rest sect opts

/-- The function `load_config_file`: `files path` is the content of the file `path`
as lines, `none` when `fopen` fails; `expand` stands for `expand_tilde_path`. The
result is the value returned and the options after the call. -/
def load_config_file {R : Type} (T : TextRoutines R) (files : String → Option (List ConfigLine))
    (expand : String → String) (filename : String) (opts : waon_options_t R) :
    Int × waon_options_t R :=
  match files (expand filename) with
  | none => (-1, opts)
  | some lines =>
    (0, load_config_lines T lines config_section_t.CONFIG_SECTION_GENERAL opts)

/-- The function `load_default_configs` (`WAON_SYSTEM_CONFIG` is `/etc/waon.conf`,
`WAON_USER_CONFIG` is `~/.waonrc`); `access (path, R_OK) == 0` is taken to hold when
the file can be opened. -/
def load_default_configs {R : Type} (T : TextRoutines R)
    (files : String → Option (List ConfigLine)) (expand : String → String)
    (opts : waon_options_t R) : Int × waon_options_t R :=
  -- Try to load system config
  let s1 : Int × waon_options_t R :=
    if (files "/etc/waon.conf").isSome then
      let r := load_config_file T files expand "/etc/waon.conf" opts
      if r.1 = 0 then (1, r.2) else (0, r.2)
    else (0, opts)
  -- Try to load user config
  let user_config := expand "~/.waonrc"
  if (files user_config).isSome then
    let r := load_config_file T files expand user_config s1.2
    if r.1 = 0 then (s1.1 + 1, r.2) else (s1.1, r.2)
  else s1

/-- What a call of `getopt_long` in `waon_parse_args` returns: the value `c` of the
option found, with its `optarg`; `other` stands for `'?'` and for every value the
`switch` has no case for. -/
inductive GetoptResult where
  | OPT_HELP
  | OPT_VERSION
  | OPT_INPUT (optarg : String)
  | OPT_OUTPUT (optarg : String)
  | OPT_PATCH (optarg : String)
  | OPT_FFT_SIZE (optarg : String)
  | OPT_FFT_SIZE_LONG (optarg : String)
  | OPT_HOP_SIZE (optarg : String)
  | OPT_WINDOW (optarg : String)
  | OPT_CUTOFF (optarg : String)
  | OPT_RELATIVE (optarg : String)
  | OPT_PEAK (optarg : String)
  | OPT_TOP (optarg : String)
  | OPT_BOTTOM (optarg : String)
  | OPT_ADJUST (optarg : String)
  | OPT_QUIET
  | OPT_PROGRESS
  | OPT_NOPHASE
  | OPT_NO_PHASE
  | OPT_PSUB_N (optarg : String)
  | OPT_DRUM_REMOVAL_BINS (optarg : String)
  | OPT_PSUB_F (optarg : String)
  | OPT_DRUM_REMOVAL_FACTOR (optarg : String)
  | OPT_OCT (optarg : String)
  | OPT_OCTAVE_REMOVAL (optarg : String)
  | OPT_CONFIG (optarg : String)
  | OPT_NO_CONFIG
  | OPT_DRY_RUN
  | OPT_BATCH
  | OPT_JSON
  | OPT_THREADS (optarg : String)
  | OPT_VERBOSE
  | OPT_HELP_ALL
  | other
  deriving DecidableEq, Repr

/-- The `switch (c)` of `waon_parse_args` (`cli.c` 140-267); `none` stands for
`return -1`. -/
def applyGetopt {R : Type} (T : TextRoutines R) (opts : waon_options_t R) :
    GetoptResult → Option (waon_options_t R)
  | GetoptResult.OPT_HELP => some { opts with show_help := 1 }
  | GetoptResult.OPT_VERSION => some { opts with show_version := 1 }
  | GetoptResult.OPT_INPUT optarg => some { opts with input_file := some optarg }
  | GetoptResult.OPT_OUTPUT optarg => some { opts with output_file := some optarg }
  | GetoptResult.OPT_PATCH optarg => some { opts with patch_file := some optarg }
  | GetoptResult.OPT_FFT_SIZE optarg => some { opts with fft_size := T.atol optarg }
  | GetoptResult.OPT_FFT_SIZE_LONG optarg => some { opts with fft_size := T.atol optarg }
  | GetoptResult.OPT_HOP_SIZE optarg => some { opts with hop_size := T.atol optarg }
  | GetoptResult.OPT_WINDOW optarg => some { opts with window_type := T.atoi optarg }
  | GetoptResult.OPT_CUTOFF optarg => some { opts with cutoff_ratio := T.atof optarg }
  | GetoptResult.OPT_RELATIVE optarg =>
    some { opts with relative_cutoff_ratio := T.atof optarg, use_relative_cutoff := 1 }
  | GetoptResult.OPT_PEAK optarg => some { opts with peak_threshold := T.atoi optarg }
  | GetoptResult.OPT_TOP optarg => some { opts with top_note := T.atoi optarg }
  | GetoptResult.OPT_BOTTOM optarg => some { opts with bottom_note := T.atoi optarg }
  | GetoptResult.OPT_ADJUST optarg => some { opts with pitch_adjust := T.atof optarg }
  | GetoptResult.OPT_QUIET => some { opts with quiet := 1 }
  | GetoptResult.OPT_PROGRESS => some { opts with show_progress := 1 }
  | GetoptResult.OPT_NOPHASE => some { opts with use_phase_vocoder := 0 }
  | GetoptResult.OPT_NO_PHASE => some { opts with use_phase_vocoder := 0 }
  | GetoptResult.OPT_PSUB_N optarg => some { opts with drum_removal_bins := T.atoi optarg }
  | GetoptResult.OPT_DRUM_REMOVAL_BINS optarg =>
    some { opts with drum_removal_bins := T.atoi optarg }
  | GetoptResult.OPT_PSUB_F optarg => some { opts with drum_removal_factor := T.atof optarg }
  | GetoptResult.OPT_DRUM_REMOVAL_FACTOR optarg =>
    some { opts with drum_removal_factor := T.atof optarg }
  | GetoptResult.OPT_OCT optarg => some { opts with octave_removal_factor := T.atof optarg }
  | GetoptResult.OPT_OCTAVE_REMOVAL optarg =>
    some { opts with octave_removal_factor := T.atof optarg }
  | GetoptResult.OPT_CONFIG optarg => some { opts with config_file := some optarg }
  | GetoptResult.OPT_NO_CONFIG => some opts
  | GetoptResult.OPT_DRY_RUN => some { opts with dry_run := 1 }
  | GetoptResult.OPT_BATCH => some { opts with batch_mode := 1 }
  | GetoptResult.OPT_JSON => some { opts with json_output := 1 }
  | GetoptResult.OPT_THREADS optarg => some { opts with num_threads := T.atoi optarg }
  | GetoptResult.OPT_VERBOSE => some { opts with verbose := 1 }
  | GetoptResult.OPT_HELP_ALL => some { opts with show_help := 2 }
  | GetoptResult.other => none

/-- The first loop of `waon_parse_args` over `argv[1 ..]` (`cli.c` 106-135), which
handles the old-style options; `none` stands for `return -1`. -/
def oldStyleOptions {R : Type} (T : TextRoutines R) :
    List String → waon_options_t R → Option (waon_options_t R)
  | [], opts => some opts
  | a :: rest, opts =>
    if a = "-nophase" then oldStyleOptions T rest { opts with use_phase_vocoder := 0 }
    else if a = "-psub-n" then
      match rest with
      | v :: rest' => oldStyleOptions T rest' { opts with drum_removal_bins := T.atoi v }
      | [] => none
    else if a = "-psub-f" then
      match rest with
      | v :: rest' => oldStyleOptions T rest' { opts with drum_removal_factor := T.atof v }
      | [] => none
    else if a = "-oct" then
      match rest with
      | v :: rest' => oldStyleOptions T rest' { opts with octave_removal_factor := T.atof v }
      | [] => none
    else oldStyleOptions T rest opts

/-- The function `waon_parse_args`: the loop over the old-style options, then the
loop over the values `parsed` that `getopt_long` returns for `argv`, in order;
`none` stands for `return -1`. No file is opened. -/
def waon_parse_args {R : Type} (T : TextRoutines R) (argv : List String)
    (parsed : List GetoptResult) (opts : waon_options_t R) : Option (waon_options_t R) :=
  (oldStyleOptions T argv.tail opts).bind fun o =>
    parsed.foldlM (applyGetopt T) o

/-- The test of `main` for an old-style command line (`main.c` 279-288). -/
def using_legacy_args (argv : List String) : Bool :=
  argv.tail.any (fun a =>
    decide (a.data.take 6 = "-psub-".data ∨ a = "-nophase" ∨ a = "-oct"
      ∨ (a.data.get? 0 = some '-' ∧ a.data.get? 1 ≠ some '-' ∧ a.data.length > 2)))

/-- The function `parse_legacy_args` of `main.c` (54-258) over `argv[1 ..]`; `none`
stands for `return -1`. No file is opened. -/
def parse_legacy_args {R : Type} (T : TextRoutines R) :
    List String → waon_options_t R → Option (waon_options_t R)
  | [], opts => some opts
  | a :: rest, opts =>
    if a = "-input" ∨ a = "-i" then
      match rest with
      | v :: rest' => parse_legacy_args T rest' { opts with input_file := some v }
      | [] => none
    else if a = "-output" ∨ a = "-o" then
      match rest with
      | v :: rest' => parse_legacy_args T rest' { opts with output_file := some v }
      | [] => none
    else if a = "--cutoff" ∨ a = "-c" then
      match rest with
      | v :: rest' => parse_legacy_args T rest' { opts with cutoff_ratio := T.atof v }
      | [] => none
    else if a = "--top" ∨ a = "-t" then
      match rest with
      | v :: rest' => parse_legacy_args T rest' { opts with top_note := T.atoi v }
      | [] => none
    else if a = "--bottom" ∨ a = "-b" then
      match rest with
      | v :: rest' => parse_legacy_args T rest' { opts with bottom_note := T.atoi v }
      | [] => none
    else if a = "--window" ∨ a = "-w" then
      match rest with
      | v :: rest' => parse_legacy_args T rest' { opts with window_type := T.atoi v }
      | [] => none
    else if a = "-n" then
      match rest with
      | v :: rest' => parse_legacy_args T rest' { opts with fft_size := T.atoi v }
      | [] => none
    else if a = "--shift" ∨ a = "-s" then
      match rest with
      | v :: rest' => parse_legacy_args T rest' { opts with hop_size := T.atoi v }
      | [] => none
    else if a = "--patch" ∨ a = "-p" then
      match rest with
      | v :: rest' => parse_legacy_args T rest' { opts with patch_file := some v }
      | [] => none
    else if a = "--relative" ∨ a = "-r" then
      match rest with
      | v :: rest' => parse_legacy_args T rest' { opts with relative_cutoff_ratio := T.atof v, use_relative_cutoff := 1 }
      | [] => none
    else if a = "--peak" ∨ a = "-k" then
      match rest with
      | v :: rest' => parse_legacy_args T rest' { opts with peak_threshold := T.atoi v }
      | [] => none
    else if a = "--adjust" ∨ a = "-a" then
      match rest with
      | v :: rest' => parse_legacy_args T rest' { opts with pitch_adjust := T.atof v }
      | [] => none
    else if a = "--help" ∨ a = "-h" then
      -- opts->show_help = 1; break;
      some { opts with show_help := 1 }
    else if a = "-nophase" then parse_legacy_args T rest { opts with use_phase_vocoder := 0 }
    else if a = "-psub-n" then
      match rest with
      | v :: rest' => parse_legacy_args T rest' { opts with drum_removal_bins := T.atoi v }
      | [] => none
    else if a = "-psub-f" then
      match rest with
      | v :: rest' => parse_legacy_args T rest' { opts with drum_removal_factor := T.atof v }
      | [] => none
    else if a = "-oct" then
      match rest with
      | v :: rest' => parse_legacy_args T rest' { opts with octave_removal_factor := T.atof v }
      | [] => none
    else if a = "-v" ∨ a = "--version" then
      parse_legacy_args T rest { opts with show_version := 1 }
    else parse_legacy_args T rest { opts with show_help := 1 }

/-- Where `main` stands after its option stage: it has left through `exit`, or it
goes on with the options it will use for the run. -/
inductive OptionStage (R : Type) where
  | exited (status : Int)
  | run (opts : waon_options_t R)

/-- The option stage of `main` (`main.c` 271-324): `waon_options_init`,
`load_default_configs`, one of the two parsers, help and version,
`waon_options_validate`. `parsed` is what `getopt_long` returns for `argv`. -/
def mainOptionStage {R : Type} [LinearOrderedField R] (T : TextRoutines R)
    (files : String → Option (List ConfigLine)) (expand : String → String)
    (argv : List String) (parsed : List GetoptResult) : OptionStage R :=
  -- Initialize options structure
  let opts0 : waon_options_t R := waon_options_init
  -- Try to load default config files first (can be overridden by command line)
  let opts1 := (load_default_configs T files expand opts0).2
  -- Parse arguments
  let parsedOptions :=
    if using_legacy_args argv then parse_legacy_args T argv.tail opts1
    else waon_parse_args T argv parsed opts1
  match parsedOptions with
  | none => OptionStage.exited 1
  | some o =>
    -- Handle help and version
    if o.show_help ≠ 0 then OptionStage.exited 0
    else if o.show_version ≠ 0 then OptionStage.exited 0
    -- Validate and set defaults
    else OptionStage.run (waon_options_validate o)

/-! ## Progress bar of the command line (`progress.c`, `main.c` 482-489, 651-654, 713-716) -/

/-- The structure `progress_bar_t` of `progress.h`. -/
structure progress_bar_t where
  total_steps : Int
  current_step : Int
  bar_width : Int
  start_time : Int
  enabled : Int
  last_percent : Int
  label : String
  deriving DecidableEq, Repr

/-- The function `progress_bar_init` when its allocation succeeds; `isatty` and `now`
stand for `isatty (STDOUT_FILENO)` and `time (NULL)`. -/
def progress_bar_init (isatty : Bool) (now : Int) (total_steps : Int)
    (label : Option String) : progress_bar_t :=
  { total_steps := total_steps
    current_step := 0
    bar_width := 50
    start_time := now
    enabled := if isatty then 1 else 0
    last_percent := -1
    label := label.getD "Processing" }

/-- The function `progress_bar_update` on a bar that is not `NULL`: the bar after
the call, or `none` when the call divides by zero. `now` and `term_width` stand for
`time (NULL)` and `get_terminal_width ()`; what is printed is left out. The second
division by `total_steps` (`filled`) is reached only after the first. -/
def progress_bar_update (now term_width : Int) (pb : progress_bar_t) (current_step : Int) :
    Option progress_bar_t :=
  if pb.enabled = 0 then some pb
  else
    let pb1 := { pb with current_step := current_step }
    -- int percent = (int)((pb->current_step * 100) / pb->total_steps);
    if pb1.total_steps = 0 then none
    else
      let percent := Int.tdiv (pb1.current_step * 100) pb1.total_steps
      -- Only update if percentage changed
      if percent = pb1.last_percent then some pb1
      else
        let pb2 := { pb1 with last_percent := percent }
        -- Get terminal width and adjust bar width
        let available_width := term_width - (pb2.label.length : Int) - 30
        let available_width := if available_width < 20 then 20 else available_width
        let pb3 := if available_width < pb2.bar_width then
          { pb2 with bar_width := available_width } else pb2
        -- int filled = (pb->bar_width * pb->current_step) / pb->total_steps;
        if pb3.total_steps = 0 then none
        else
          let _elapsed := now - pb3.start_time
          some pb3

/-- The function `progress_bar_finish` on a bar that is not `NULL`: the bar after
the call, or `none` when the call divides by zero. -/
def progress_bar_finish (now term_width : Int) (pb : progress_bar_t) : Option progress_bar_t :=
  if pb.enabled = 0 then some pb
  else
    -- Update to 100%
    let pb1 := { pb with current_step := pb.total_steps }
    progress_bar_update now term_width pb1 pb1.total_steps

/-- How the part of `main` from the priming read to the end of the progress display
ends. -/
inductive MainProgress where
  | noWavData
  | divisionByZero
  | finished (progress : Option progress_bar_t)
  deriving DecidableEq, Repr

/-- The part of `main` from the priming read to `progress_bar_finish` (`main.c`
468-716), as far as the progress display goes: a short priming read leaves through
`exit (0)`; with `--progress` and without `--quiet` the bar is created with
`sfinfo.frames / hop` steps, updated with the counter of every frame processed and
finished after the loop. `none` when the frame loop does not return. -/
def main_progress {R : Type} [LinearOrderedField R] (fuel : Nat) (isatty : Bool)
    (now term_width : Int) (opts : waon_options_t R) (src : Source R) (b : Buffers R)
    (x : Int → R) : Option MainProgress :=
  let len := opts.fft_size
  let hop := opts.hop_size
  -- for first step
  let primed := primingRead len hop src b
  if primed.1 = false then some MainProgress.noWavData
  else if opts.show_progress ≠ 0 ∧ opts.quiet = 0 then
    -- total_frames = sfinfo.frames / hop;
    if hop = 0 then some MainProgress.divisionByZero
    else
      let progress := progress_bar_init isatty now (Int.tdiv src.frames hop)
        (some "Processing")
      (frameLoop len hop fuel
        { src := primed.2.1, buf := primed.2.2, x := x, icnt := 0, processed := [] }).map
        fun fin =>
          -- progress_bar_update (progress, icnt) in every iteration, then
          -- progress_bar_finish (progress)
          match ((fin.processed.map Frame.icnt).foldlM
              (progress_bar_update now term_width) progress).bind
              (progress_bar_finish now term_width) with
          | none => MainProgress.divisionByZero
          | some pb => MainProgress.finished (some pb)
  else
    (frameLoop len hop fuel
      { src := primed.2.1, buf := primed.2.2, x := x, icnt := 0, processed := [] }).map
      fun _ => MainProgress.finished none

/-! ## Concrete inputs used to evaluate the definitions -/

/-- A mono source of `T` samples `0, 1, 2, …`, read from its start, which announces
its true length. -/
def rampSource (T : Nat) : Source ℚ :=
  { channels := 1, frames := T, total := T, pos := 0, left := fun j => (j : ℚ),
    right := fun _ => 0 }

/-- History arrays that hold zero in every cell. -/
def zeroBuffers : Buffers ℚ :=
  { left := fun _ => 0, right := fun _ => 0 }

/-- A context with a progress callback set. -/
def callbackContext : waon_context :=
  { last_error := waon_error_t.WAON_ERROR_INTERNAL, progress_callback := true, initialized := 1 }

/-- The default options of the library with another frame size and hop. -/
def optionsWith (fft_size hop_size : Int) : waon_options ℚ :=
  { (waon_options_create : waon_options ℚ) with fft_size := fft_size, hop_size := hop_size }

/-- Stand-ins for the routines of `fft.c`, `hc.c` and `analyse.c`, used to evaluate
the analysis on concrete inputs: the windowing scales the cells `0 .. len−1`, the
transform is the identity, the power is the square divided by `den`, the phase is
the value itself, the suppression passes and the note detection change nothing. -/
def sampleRoutines : Routines ℚ :=
  { init_den := fun len _ => (len : ℚ)
    windowing := fun len y _ scale => fun i => if 0 ≤ i ∧ i < len then y i * scale else 0
    fftw_execute := fun _ y => y
    HC_to_amp2 := fun _ y den => fun i => y i * y i / den
    HC_to_polar2 := fun _ y _ den => (fun i => y i * y i / den, fun i => y i)
    power_subtract_ave := fun _ q _ _ => q
    power_subtract_octave := fun _ q _ => q
    note_intensity := fun g _ _ _ _ _ _ _ vel => (g, vel) }

/-- History arrays that hold `c` in every cell. -/
def constBuffers (c : ℚ) : Buffers ℚ :=
  { left := fun _ => c, right := fun _ => c }

/-- Spectral arrays that hold `c` in every cell. -/
def constSpectral (c : ℚ) : Spectral ℚ :=
  { p := fun _ => c, p0 := fun _ => c, dphi := fun _ => c, ph0 := fun _ => c,
    ph1 := fun _ => c }

/-- Shared variables that hold `n` and `c`. -/
def constGlobals (n : Int) (c : ℚ) : Globals ℚ :=
  { abs_flg := n, adj_pitch := c, pitch_shift := c, n_pitch := n }

/-- Stand-ins for the text routines of the C library, used to evaluate the option
stage on concrete inputs: texts are compared as they are, and the only number read
is `4096`. -/
def sampleText : TextRoutines ℚ :=
  { strcasecmp := fun a b => decide (a = b)
    atoi := fun s => if s = "4096" then 4096 else 0
    atol := fun s => if s = "4096" then 4096 else 0
    atof := fun _ => 0 }

/-- A file system with one configuration file, `my.conf`, which sets the frame size
to 4096 in its section `[analysis]`; there is no `/etc/waon.conf` and no `~/.waonrc`. -/
def sampleFiles : String → Option (List ConfigLine) :=
  fun path =>
    if path = "my.conf" then
      some [ConfigLine.header "analysis", ConfigLine.assignment "fft-size" "4096"]
    else none

/-- A stand-in for `expand_tilde_path` with the home directory `/home/user`. -/
def sampleExpand : String → String :=
  fun path => if path = "~/.waonrc" then "/home/user/.waonrc" else path

/-- The options of the command line after validation with frame size and hop
`size` and the progress display switched on. -/
def progressOptions (size : Int) : waon_options_t ℚ :=
  waon_options_validate
    { (waon_options_init : waon_options_t ℚ) with
      fft_size := size, hop_size := size, show_progress := 1 }

/-- A frame with the counter `icnt` and the table `x[i] = offset + i`. -/
def rampFrame (icnt : Int) (offset : ℚ) : Frame ℚ :=
  { icnt := icnt, x := fun i => offset + (i : ℚ) }

/-! ## Auxiliary lemmas -/

section Wrap

variable {R : Type} [LinearOrderedField R]

theorem wrapDown_small (pi : R) (fuel : Nat) (d : R) (h : d < pi) :
    wrapDown pi (fuel + 1) d = some d := by
  simp [wrapDown, not_le.mpr h]

theorem wrapUp_small (pi : R) (fuel : Nat) (d : R) (h : -pi ≤ d) :
    wrapUp pi (fuel + 1) d = some d := by
  simp [wrapUp, not_lt.mpr h]

theorem wrapDown_steps (pi : R) (hpi : 0 < pi) (n : Nat) :
    ∀ (fuel : Nat) (d : R), n < fuel → -pi ≤ d - 2 * pi * n → d - 2 * pi * n < pi →
      wrapDown pi fuel d = some (d - 2 * pi * n) := by
  induction n with
  | zero =>
    intro fuel d hf _ h2
    obtain ⟨f, rfl⟩ : ∃ f, fuel = f + 1 := ⟨fuel - 1, by omega⟩
    simpa using wrapDown_small pi f d (by simpa using h2)
  | succ n ih =>
    intro fuel d hf h1 h2
    obtain ⟨f, rfl⟩ : ∃ f, fuel = f + 1 := ⟨fuel - 1, by omega⟩
    have hd : d ≥ pi := by
      push_cast at h1
      nlinarith [mul_nonneg hpi.le (Nat.cast_nonneg (α := R) n)]
    have e : d - 2 * pi - 2 * pi * (n : R) = d - 2 * pi * ((n + 1 : Nat) : R) := by
      push_cast; ring
    rw [wrapDown, if_pos hd, ih f (d - 2 * pi) (by omega) (by rw [e]; exact h1)
      (by rw [e]; exact h2), e]

theorem wrapUp_steps (pi : R) (hpi : 0 < pi) (n : Nat) :
    ∀ (fuel : Nat) (d : R), n < fuel → -pi ≤ d + 2 * pi * n → d + 2 * pi * n < pi →
      wrapUp pi fuel d = some (d + 2 * pi * n) := by
  induction n with
  | zero =>
    intro fuel d hf h1 _
    obtain ⟨f, rfl⟩ : ∃ f, fuel = f + 1 := ⟨fuel - 1, by omega⟩
    simpa using wrapUp_small pi f d (by simpa using h1)
  | succ n ih =>
    intro fuel d hf h1 h2
    obtain ⟨f, rfl⟩ : ∃ f, fuel = f + 1 := ⟨fuel - 1, by omega⟩
    have hd : d < -pi := by
      push_cast at h2
      nlinarith [mul_nonneg hpi.le (Nat.cast_nonneg (α := R) n)]
    have e : d + 2 * pi + 2 * pi * (n : R) = d + 2 * pi * ((n + 1 : Nat) : R) := by
      push_cast; ring
    rw [wrapUp, if_pos hd, ih f (d + 2 * pi) (by omega) (by rw [e]; exact h1)
      (by rw [e]; exact h2), e]

variable [FloorRing R]

/-- The number of whole turns removed by the wrap step. -/
theorem turns_bounds (pi : R) (hpi : 0 < pi) (d : R) :
    -pi ≤ d - 2 * pi * (⌊(d + pi) / (2 * pi)⌋ : R) ∧
      d - 2 * pi * (⌊(d + pi) / (2 * pi)⌋ : R) < pi := by
  have h2 : (0 : R) < 2 * pi := by linarith
  have hle := Int.floor_le ((d + pi) / (2 * pi))
  have hlt := Int.lt_floor_add_one ((d + pi) / (2 * pi))
  rw [le_div_iff₀ h2] at hle
  rw [div_lt_iff₀ h2] at hlt
  constructor <;> nlinarith

/-- With enough fuel the wrap step returns the representative of `d` modulo `2·pi`
in `[-pi, pi)`. -/
theorem wrapPhase_eq (pi : R) (hpi : 0 < pi) (d : R) (fuel : Nat)
    (hf : (⌊(d + pi) / (2 * pi)⌋).natAbs < fuel) :
    wrapPhase pi fuel d = some (d - 2 * pi * (⌊(d + pi) / (2 * pi)⌋ : R)) := by
  obtain ⟨hlo, hhi⟩ := turns_bounds pi hpi d
  obtain ⟨f, rfl⟩ : ∃ f, fuel = f + 1 := ⟨fuel - 1, by omega⟩
  generalize ⌊(d + pi) / (2 * pi)⌋ = k at hlo hhi hf ⊢
  rcases le_or_lt 0 k with hk | hk
  · -- non-negative number of turns: the first loop does the work
    obtain ⟨n, rfl⟩ : ∃ n : Nat, k = (n : Int) := ⟨k.natAbs, by omega⟩
    have hn : n < f + 1 := by simpa using hf
    simp only [Int.cast_natCast] at hlo hhi ⊢
    rw [wrapPhase, wrapDown_steps pi hpi n (f + 1) d hn hlo hhi]
    simpa using wrapUp_small pi f _ hlo
  · -- negative number of turns: the second loop does the work
    obtain ⟨n, rfl⟩ : ∃ n : Nat, k = -(n : Int) := ⟨k.natAbs, by omega⟩
    have hn : n < f + 1 := by simpa using hf
    have e : d - 2 * pi * (((-(n : Int)) : Int) : R) = d + 2 * pi * (n : R) := by
      push_cast; ring
    rw [e] at hlo hhi ⊢
    have hd : d < pi := by
      nlinarith [mul_nonneg hpi.le (Nat.cast_nonneg (α := R) n)]
    rw [wrapPhase, wrapDown_small pi f d hd]
    simpa using wrapUp_steps pi hpi n (f + 1) d hn hlo hhi

end Wrap

section FrameBuffer

variable {R : Type}

/-- The shift loop after `m` rounds: cells below `m` hold the value that stood `hop`
cells further on, the others are untouched; the right array moves for stereo only. -/
theorem shift_fold (channels hop : Int) (hhop : 0 ≤ hop) (m : Nat) (b : Buffers R) :
    ∀ j : Int,
      ((List.range m).foldl (fun acc (k : Nat) => shiftBin channels hop acc (k : Int)) b).left j
        = (if 0 ≤ j ∧ j < m then b.left (j + hop) else b.left j) ∧
      ((List.range m).foldl (fun acc (k : Nat) => shiftBin channels hop acc (k : Int)) b).right j
        = (if channels = 2 ∧ 0 ≤ j ∧ j < m then b.right (j + hop) else b.right j) := by
  induction m with
  | zero =>
    intro j
    have h1 : ¬ (0 ≤ j ∧ j < (0 : Int)) := by omega
    have h2 : ¬ (channels = 2 ∧ 0 ≤ j ∧ j < (0 : Int)) := by omega
    simp [h1, h2]
  | succ m ih =>
    intro j
    rw [List.range_succ, List.foldl_append]
    simp only [List.foldl_cons, List.foldl_nil]
    generalize (List.range m).foldl
      (fun acc (k : Nat) => shiftBin channels hop acc (k : Int)) b = t at ih ⊢
    have hsrc : ¬ (0 ≤ (m : Int) + hop ∧ (m : Int) + hop < (m : Int)) := by omega
    have hsrc2 : ¬ (channels = 2 ∧ 0 ≤ (m : Int) + hop ∧ (m : Int) + hop < (m : Int)) := by
      omega
    have hl := (ih ((m : Int) + hop)).1
    have hr := (ih ((m : Int) + hop)).2
    rw [if_neg hsrc] at hl
    rw [if_neg hsrc2] at hr
    obtain ⟨ihl, ihr⟩ := ih j
    by_cases hc : channels = 2
    · have e : shiftBin channels hop t (m : Int)
          = { left := Function.update t.left (m : Int) (t.left ((m : Int) + hop))
              right := Function.update t.right (m : Int) (t.right ((m : Int) + hop)) } := by
        simp only [shiftBin, if_pos hc]
      rw [e]
      by_cases hj : j = (m : Int)
      · subst hj
        have hin : (0 : Int) ≤ (m : Int) ∧ (m : Int) < ((m + 1 : Nat) : Int) := by omega
        simp only [Function.update_same, if_pos hin, if_pos (And.intro hc hin), hl, hr, and_self]
      · have hiff : (0 ≤ j ∧ j < ((m + 1 : Nat) : Int)) ↔ (0 ≤ j ∧ j < (m : Int)) := by omega
        simp only [Function.update_noteq hj, hiff]
        exact ⟨ihl, ihr⟩
    · have e : shiftBin channels hop t (m : Int)
          = { left := Function.update t.left (m : Int) (t.left ((m : Int) + hop))
              right := t.right } := by
        simp only [shiftBin, if_neg hc]
      rw [e]
      have hn : ∀ q : Prop, ¬ (channels = 2 ∧ q) := fun q h => hc h.1
      rw [if_neg (hn _)] at ihr ⊢
      by_cases hj : j = (m : Int)
      · subst hj
        have hin : (0 : Int) ≤ (m : Int) ∧ (m : Int) < ((m + 1 : Nat) : Int) := by omega
        simp only [Function.update_same, if_pos hin, hl, true_and]
        exact ihr
      · have hiff : (0 ≤ j ∧ j < ((m + 1 : Nat) : Int)) ↔ (0 ≤ j ∧ j < (m : Int)) := by omega
        simp only [Function.update_noteq hj, hiff]
        exact ⟨ihl, ihr⟩

theorem shiftBuffers_left (channels len hop : Int) (hhop : 0 ≤ hop) (b : Buffers R) (j : Int) :
    (shiftBuffers channels len hop b).left j
      = (if 0 ≤ j ∧ j < len - hop then b.left (j + hop) else b.left j) := by
  have h := (shift_fold channels hop hhop (len - hop).toNat b j).1
  have hiff : (0 ≤ j ∧ j < (((len - hop).toNat : Nat) : Int)) ↔ (0 ≤ j ∧ j < len - hop) := by
    omega
  simp only [hiff] at h
  exact h

theorem shiftBuffers_right (channels len hop : Int) (hhop : 0 ≤ hop) (b : Buffers R) (j : Int) :
    (shiftBuffers channels len hop b).right j
      = (if channels = 2 ∧ 0 ≤ j ∧ j < len - hop then b.right (j + hop) else b.right j) := by
  have h := (shift_fold channels hop hhop (len - hop).toNat b j).2
  have hiff : (channels = 2 ∧ 0 ≤ j ∧ j < (((len - hop).toNat : Nat) : Int))
      ↔ (channels = 2 ∧ 0 ≤ j ∧ j < len - hop) := by omega
  simp only [hiff] at h
  exact h

/-- The count returned by a read and the position it leaves. -/
theorem sndfile_read_count (src : Source R) (b : Buffers R) (base n : Int) :
    (sndfile_read src b base n).1 = ((min n.toNat (src.total - src.pos) : Nat) : Int) ∧
    (sndfile_read src b base n).2.1.pos = src.pos + min n.toNat (src.total - src.pos) ∧
    (sndfile_read src b base n).2.1.total = src.total ∧
    (sndfile_read src b base n).2.1.channels = src.channels :=
  ⟨rfl, rfl, rfl, rfl⟩

theorem range_shift (a : Int) (r : Nat) :
    (List.range (r + 1)).map (fun j : Nat => a + (j : Int))
      = a :: (List.range r).map (fun j : Nat => a + 1 + (j : Int)) := by
  rw [List.range_succ_eq_map, List.map_cons, List.map_map]
  simp only [Nat.cast_zero, add_zero, List.cons.injEq, true_and]
  apply List.map_congr_left
  intro j _
  simp only [Function.comp_apply, Nat.cast_succ]
  ring

/-- The main loop from a state with `r` whole hops left in the source: it returns
with any fuel above `r`, having processed `r` more frames with consecutive
counters. -/
theorem frameLoop_count {R : Type} [LinearOrderedField R] (len : Int) (h : Nat) (hh : 1 ≤ h) :
    ∀ (r : Nat) (st : LoopState R) (fuel : Nat),
      (st.src.total - st.src.pos) / h = r → r < fuel →
      ∃ fin, frameLoop len (h : Int) fuel st = some fin ∧
        fin.processed.map Frame.icnt
          = st.processed.map Frame.icnt ++ (List.range r).map (fun j : Nat => st.icnt + (j : Int)) := by
  intro r
  induction r with
  | zero =>
    intro st fuel hr hf
    obtain ⟨f, rfl⟩ : ∃ f, fuel = f + 1 := ⟨fuel - 1, by omega⟩
    have hlt : st.src.total - st.src.pos < h := by
      by_contra hge
      have := Nat.div_eq_sub_div (by omega : 0 < h) (Nat.le_of_not_lt hge)
      rw [hr] at this
      exact Nat.succ_ne_zero _ this.symm
    have hcount : (shiftAndRefill len (h : Int) st.src st.buf).1 ≠ (h : Int) := by
      rw [shiftAndRefill, (sndfile_read_count _ _ _ _).1]
      simp only [Int.toNat_ofNat]
      omega
    refine ⟨_, by rw [frameLoop, if_pos hcount], by simp⟩
  | succ r ih =>
    intro st fuel hr hf
    obtain ⟨f, rfl⟩ : ∃ f, fuel = f + 1 := ⟨fuel - 1, by omega⟩
    have hge : h ≤ st.src.total - st.src.pos := by
      by_contra hlt
      have := Nat.div_eq_of_lt (Nat.lt_of_not_le hlt)
      rw [hr] at this
      exact Nat.succ_ne_zero _ this
    have hmin : min h (st.src.total - st.src.pos) = h := by omega
    have hcount : ¬ (shiftAndRefill len (h : Int) st.src st.buf).1 ≠ (h : Int) := by
      rw [shiftAndRefill, (sndfile_read_count _ _ _ _).1]
      simp only [Int.toNat_ofNat, hmin, ne_eq, not_not]
    have hpos : (shiftAndRefill len (h : Int) st.src st.buf).2.1.pos = st.src.pos + h := by
      rw [shiftAndRefill, (sndfile_read_count _ _ _ _).2.1]
      simp only [Int.toNat_ofNat, hmin]
    have htot : (shiftAndRefill len (h : Int) st.src st.buf).2.1.total = st.src.total := by
      rw [shiftAndRefill, (sndfile_read_count _ _ _ _).2.2.1]
    have hdiv := Nat.div_eq_sub_div (by omega : 0 < h) hge
    obtain ⟨fin, hfin, hmap⟩ := ih
      { src := (shiftAndRefill len (h : Int) st.src st.buf).2.1
        buf := (shiftAndRefill len (h : Int) st.src st.buf).2.2
        x := mixdown (shiftAndRefill len (h : Int) st.src st.buf).2.1.channels len
          (shiftAndRefill len (h : Int) st.src st.buf).2.2 st.x
        icnt := st.icnt + 1
        processed := st.processed ++
          [{ icnt := st.icnt
             x := mixdown (shiftAndRefill len (h : Int) st.src st.buf).2.1.channels len
              (shiftAndRefill len (h : Int) st.src st.buf).2.2 st.x }] } f
      (by
        show ((shiftAndRefill len (h : Int) st.src st.buf).2.1.total
          - (shiftAndRefill len (h : Int) st.src st.buf).2.1.pos) / h = r
        rw [hpos, htot]
        have e : st.src.total - (st.src.pos + h) = st.src.total - st.src.pos - h := by omega
        rw [e]
        rw [hr] at hdiv
        exact (Nat.succ.inj hdiv).symm)
      (by omega)
    refine ⟨fin, by rw [frameLoop, if_neg hcount]; exact hfin, ?_⟩
    rw [hmap, range_shift st.icnt r]
    simp only [List.map_append, List.map_cons, List.map_nil, List.append_assoc,
      List.singleton_append]

end FrameBuffer

section BinRange

variable {R : Type} [LinearOrderedField R] [FloorRing R]

theorem truncToInt_mono {x y : R} (h : x ≤ y) : truncToInt x ≤ truncToInt y := by
  unfold truncToInt
  by_cases hx : 0 ≤ x
  · rw [if_pos hx, if_pos (le_trans hx h)]
    exact Int.floor_mono h
  · rw [if_neg hx]
    have hc : ⌈x⌉ ≤ 0 := Int.ceil_le.mpr (by simpa using (not_le.mp hx).le)
    by_cases hy : 0 ≤ y
    · rw [if_pos hy]
      exact le_trans hc (Int.floor_nonneg.mpr hy)
    · rw [if_neg hy]
      exact Int.ceil_mono h

theorem truncToInt_of_small {x : R} (h1 : -1 < x) (h2 : x < 1) : truncToInt x = 0 := by
  unfold truncToInt
  by_cases hx : 0 ≤ x
  · rw [if_pos hx]
    exact Int.floor_eq_iff.mpr ⟨by simpa using hx, by simpa using h2⟩
  · rw [if_neg hx]
    exact Int.ceil_eq_iff.mpr ⟨by simpa using h1, by simpa using (not_le.mp hx).le⟩

/-- Truncation of `x - 0.5` when `x` is at least one half: one below the rounded `x`. -/
theorem truncToInt_sub_half_of_ge {x : R} (h : 1 / 2 ≤ x) :
    truncToInt (x - 0.5) = round x - 1 := by
  have e : x - (0.5 : R) = x + 1 / 2 - 1 := by norm_num; ring
  have h0 : (0 : R) ≤ x - 0.5 := by rw [e]; linarith
  rw [truncToInt, if_pos h0, e, Int.floor_sub_one, round_eq]

/-- Truncation of `x - 0.5` when `x` is below one half: not positive, as is the
rounded `x`. -/
theorem truncToInt_sub_half_of_lt {x : R} (h : x < 1 / 2) :
    truncToInt (x - 0.5) ≤ 0 ∧ round x ≤ 0 := by
  have e : x - (0.5 : R) = x - 1 / 2 := by norm_num
  have hneg : ¬ (0 : R) ≤ x - 0.5 := by rw [e]; linarith
  refine ⟨?_, ?_⟩
  · rw [truncToInt, if_neg hneg]
    exact Int.ceil_le.mpr (by rw [e]; simp only [Int.cast_zero]; linarith)
  · rw [round_eq]
    have : ⌊x + 1 / 2⌋ < 1 := Int.floor_lt.mpr (by simp only [Int.cast_one]; linarith)
    omega

/-- Truncation of `x - 0.5` for `0 ≤ x < 1/2` is zero. -/
theorem truncToInt_sub_half_of_small {x : R} (h0 : 0 ≤ x) (h : x < 1 / 2) :
    truncToInt (x - 0.5) = 0 := by
  have e : x - (0.5 : R) = x - 1 / 2 := by norm_num
  apply truncToInt_of_small <;> rw [e] <;> linarith

/-- A value below a positive integer has its integral part below it. -/
theorem truncToInt_lt {x : R} {n : Int} (hn : 0 < n) (h : x < (n : R)) : truncToInt x < n := by
  unfold truncToInt
  by_cases hx : 0 ≤ x
  · rw [if_pos hx]
    exact Int.floor_lt.mpr h
  · rw [if_neg hx]
    have hc : ⌈x⌉ ≤ 0 := Int.ceil_le.mpr (by simpa using (not_le.mp hx).le)
    omega

/-- The integral part of a value of at least `-1/2` is not negative. -/
theorem truncToInt_nonneg {x : R} (h : -(0.5 : R) ≤ x) : 0 ≤ truncToInt x := by
  have e : (0.5 : R) = 1 / 2 := by norm_num
  have h0 : truncToInt (-(0.5 : R)) = 0 := by
    apply truncToInt_of_small <;> rw [e] <;> linarith
  have := truncToInt_mono h
  omega

/-- A value of at least a non-negative integer has its integral part at least it. -/
theorem le_truncToInt {x : R} {n : Int} (hn : 0 ≤ n) (h : (n : R) ≤ x) : n ≤ truncToInt x := by
  have hx : (0 : R) ≤ x := le_trans (by exact_mod_cast hn) h
  rw [truncToInt, if_pos hx]
  exact Int.le_floor.mpr h

/-- The conversion to `int` of a value whose integral part the type can hold. -/
theorem doubleToInt_of_range {x : R}
    (h : INT_MIN ≤ truncToInt x ∧ truncToInt x ≤ INT_MAX) : doubleToInt x = truncToInt x := by
  rw [doubleToInt, if_pos h]

/-- The conversion to `int` of a value whose integral part the type cannot hold. -/
theorem doubleToInt_of_overflow {x : R} (h : INT_MAX < truncToInt x) :
    doubleToInt x = INT_MIN := by
  rw [doubleToInt, if_neg (by omega)]

/-- The sum of two `int`s that the type can hold. -/
theorem intAdd_of_range {a b : Int} (h1 : INT_MIN ≤ a + b) (h2 : a + b ≤ INT_MAX) :
    intAdd a b = a + b := by
  unfold intAdd
  unfold INT_MIN INT_MAX at *
  omega

/-- The lower end of the bin range in closed form, when the `int` can hold the
integral part of the value converted. -/
theorem binRange_fst (mid2freq : Int → R) (len samplerate notelow notetop : Int)
    (h : INT_MIN ≤ truncToInt (mid2freq notelow * ((len : R) / (samplerate : R)) - 0.5)
      ∧ truncToInt (mid2freq notelow * ((len : R) / (samplerate : R)) - 0.5) ≤ INT_MAX) :
    (binRange mid2freq len samplerate notelow notetop).1
      = max 1 (truncToInt (mid2freq notelow * ((len : R) / (samplerate : R)) - 0.5)) := by
  simp only [binRange, doubleToInt_of_range h]
  split_ifs with h <;> omega

/-- The upper end of the bin range in closed form, when the `int` can hold the
integral part of the value converted and its successor. -/
theorem binRange_snd (mid2freq : Int → R) (len samplerate notelow notetop : Int)
    (h : INT_MIN ≤ truncToInt (mid2freq notetop * ((len : R) / (samplerate : R)) - 0.5)
      ∧ truncToInt (mid2freq notetop * ((len : R) / (samplerate : R)) - 0.5) < INT_MAX) :
    (binRange mid2freq len samplerate notelow notetop).2
      = min (Int.tdiv len 2 - 1)
          (truncToInt (mid2freq notetop * ((len : R) / (samplerate : R)) - 0.5) + 1) := by
  have hr : INT_MIN ≤ truncToInt (mid2freq notetop * ((len : R) / (samplerate : R)) - 0.5)
      ∧ truncToInt (mid2freq notetop * ((len : R) / (samplerate : R)) - 0.5) ≤ INT_MAX :=
    ⟨h.1, h.2.le⟩
  have ha := intAdd_of_range (a := truncToInt
    (mid2freq notetop * ((len : R) / (samplerate : R)) - 0.5)) (b := 1)
    (by unfold INT_MIN at *; omega) (by omega)
  simp only [binRange, doubleToInt_of_range hr, ha]
  split_ifs with h <;> omega

/-- The upper end of the bin range when the integral part of the value converted is
above `INT_MAX`: the conversion delivers `INT_MIN`, the increment `INT_MIN + 1`, and
for a frame length that is not negative the test `i1 >= len/2` fails. -/
theorem binRange_snd_overflow (mid2freq : Int → R) (len samplerate notelow notetop : Int)
    (hlen : 0 ≤ len)
    (h : INT_MAX < truncToInt (mid2freq notetop * ((len : R) / (samplerate : R)) - 0.5)) :
    (binRange mid2freq len samplerate notelow notetop).2 = INT_MIN + 1 := by
  have ha : intAdd INT_MIN 1 = INT_MIN + 1 := by decide
  simp only [binRange, doubleToInt_of_overflow h, ha]
  have hd : ¬ (INT_MIN + 1 ≥ Int.tdiv len 2) := by
    have := Int.tdiv_nonneg hlen (by decide : (0 : Int) ≤ 2)
    unfold INT_MIN
    omega
  rw [if_neg hd]

end BinRange

section Options

/-- The test `(n & (n - 1)) == 0` on a positive number singles out the powers of two. -/
theorem and_pred_eq_zero_iff (n : Nat) (hn : 0 < n) :
    n &&& (n - 1) = 0 ↔ ∃ k : Nat, n = 2 ^ k := by
  induction n using Nat.strong_induction_on with
  | _ n ih =>
    have hmod : (n &&& (n - 1)) % 2 = 0 := by
      by_contra h
      have h1 : (n &&& (n - 1)) % 2 = 1 := by omega
      rw [Nat.and_mod_two_eq_one] at h1
      omega
    have hdiv : (n &&& (n - 1)) / 2 = n / 2 &&& (n - 1) / 2 := Nat.and_div_two
    have hiff : n &&& (n - 1) = 0 ↔ n / 2 &&& (n - 1) / 2 = 0 := by
      rw [← hdiv]
      omega
    rw [hiff]
    rcases Nat.even_or_odd' n with ⟨m, rfl | rfl⟩
    · have hm : 0 < m := by omega
      have e1 : 2 * m / 2 = m := by omega
      have e2 : (2 * m - 1) / 2 = m - 1 := by omega
      rw [e1, e2, ih m (by omega) hm]
      constructor
      · rintro ⟨k, rfl⟩
        exact ⟨k + 1, by rw [pow_succ]; ring⟩
      · rintro ⟨k, hk⟩
        cases k with
        | zero =>
          simp only [pow_zero] at hk
          omega
        | succ k =>
          rw [pow_succ] at hk
          exact ⟨k, by omega⟩
    · have e1 : (2 * m + 1) / 2 = m := by omega
      have e2 : (2 * m + 1 - 1) / 2 = m := by omega
      rw [e1, e2, Nat.and_self]
      constructor
      · rintro rfl
        exact ⟨0, rfl⟩
      · rintro ⟨k, hk⟩
        cases k with
        | zero =>
          simp only [pow_zero] at hk
          omega
        | succ k =>
          rw [pow_succ] at hk
          omega

/-- The guard of `waon_options_set_fft_size` rejects exactly the sizes that are not
positive powers of two. -/
theorem fft_size_guard_iff (size : Int) :
    (size ≤ 0 ∨ Int.land size (size - 1) ≠ 0) ↔ ¬ ∃ k : Nat, size = 2 ^ k := by
  rcases le_or_lt size 0 with h | h
  · constructor
    · rintro _ ⟨k, hk⟩
      have : (0 : Int) < 2 ^ k := by positivity
      omega
    · exact fun _ => Or.inl h
  · obtain ⟨n, rfl⟩ : ∃ n : Nat, size = (n : Int) := ⟨size.toNat, by omega⟩
    have hn : 0 < n := by omega
    have e : ((n : Int) - 1) = ((n - 1 : Nat) : Int) := by omega
    have hland : Int.land (n : Int) ((n : Int) - 1) = ((n &&& (n - 1) : Nat) : Int) := by
      rw [e]
      rfl
    rw [hland]
    have key := and_pred_eq_zero_iff n hn
    constructor
    · rintro (h0 | h1)
      · omega
      · rintro ⟨k, hk⟩
        apply h1
        have : n = 2 ^ k := by exact_mod_cast hk
        exact_mod_cast key.mpr ⟨k, this⟩
    · intro hno
      right
      intro hz
      apply hno
      have : n &&& (n - 1) = 0 := by exact_mod_cast hz
      obtain ⟨k, hk⟩ := key.mp this
      exact ⟨k, by exact_mod_cast hk⟩

end Options

section Vocoder

variable {R : Type} [LinearOrderedField R]

theorem bootstrap_fold (m : Nat) (s : Spectral R) :
    ((List.range m).foldl (fun acc (k : Nat) => bootstrapBin acc (k : Int)) s).p = s.p ∧
    ((List.range m).foldl (fun acc (k : Nat) => bootstrapBin acc (k : Int)) s).ph1 = s.ph1 ∧
    ∀ j : Int,
      ((List.range m).foldl (fun acc (k : Nat) => bootstrapBin acc (k : Int)) s).dphi j
        = (if 0 ≤ j ∧ j < m then 0 else s.dphi j) ∧
      ((List.range m).foldl (fun acc (k : Nat) => bootstrapBin acc (k : Int)) s).p0 j
        = (if 0 ≤ j ∧ j < m then s.p j else s.p0 j) ∧
      ((List.range m).foldl (fun acc (k : Nat) => bootstrapBin acc (k : Int)) s).ph0 j
        = (if 0 ≤ j ∧ j < m then s.ph1 j else s.ph0 j) := by
  induction m with
  | zero =>
    refine ⟨rfl, rfl, fun j => ?_⟩
    have : ¬ (0 ≤ j ∧ j < (0 : Int)) := by omega
    simp [this]
  | succ m ih =>
    rw [List.range_succ, List.foldl_append]
    simp only [List.foldl_cons, List.foldl_nil]
    generalize (List.range m).foldl (fun acc (k : Nat) => bootstrapBin acc (k : Int)) s = t at ih ⊢
    obtain ⟨hp, hph, hrest⟩ := ih
    refine ⟨hp, hph, fun j => ?_⟩
    obtain ⟨h1, h2, h3⟩ := hrest j
    show Function.update t.dphi (m : Int) 0 j = _ ∧
      Function.update t.p0 (m : Int) (t.p m) j = _ ∧
      Function.update t.ph0 (m : Int) (t.ph1 m) j = _
    by_cases hj : j = (m : Int)
    · subst hj
      have hin : (0 : Int) ≤ (m : Int) ∧ (m : Int) < ((m + 1 : Nat) : Int) := by omega
      simp only [Function.update_same, if_pos hin, hp, hph, and_self]
    · have hiff : (0 ≤ j ∧ j < ((m + 1 : Nat) : Int)) ↔ (0 ≤ j ∧ j < (m : Int)) := by omega
      simp only [Function.update_noteq hj, hiff]
      exact ⟨h1, h2, h3⟩

/-- One round of the steady loop, once the wrap step has returned `w`. -/
theorem steadyBin_eq (sqrt : R → R) (pi : R) (fuel : Nat) (len hop : Int) (t : Spectral R)
    (i : Int) (w : R)
    (hw : wrapPhase pi fuel (t.ph1 i - t.ph0 i - 2 * pi * (i : R) / (len : R) * (hop : R))
      = some w) :
    steadyBin sqrt pi fuel len hop t i = some
      { p := Function.update t.p i
          (0.5 * (sqrt (t.p i) + sqrt (t.p i)) * (0.5 * (sqrt (t.p i) + sqrt (t.p i))))
        p0 := Function.update t.p0 i (t.p i)
        dphi := Function.update t.dphi i (w / (2 * pi) / (hop : R))
        ph0 := Function.update t.ph0 i (t.ph1 i)
        ph1 := t.ph1 } := by
  simp only [steadyBin, Function.update_same, hw, Option.map_some', Function.update_idem]

theorem steady_fold (sqrt : R → R) (pi : R) (fuel : Nat) (len hop : Int) (w : Int → R)
    (m : Nat) (s : Spectral R)
    (hw : ∀ j : Nat, j < m →
      wrapPhase pi fuel (s.ph1 j - s.ph0 j - 2 * pi * ((j : Int) : R) / (len : R) * (hop : R))
        = some (w j)) :
    ∃ t, (List.range m).foldlM
          (fun acc (k : Nat) => steadyBin sqrt pi fuel len hop acc (k : Int)) s = some t ∧
      t.ph1 = s.ph1 ∧
      ∀ j : Int,
        t.p j = (if 0 ≤ j ∧ j < m then
            0.5 * (sqrt (s.p j) + sqrt (s.p j)) * (0.5 * (sqrt (s.p j) + sqrt (s.p j)))
          else s.p j) ∧
        t.p0 j = (if 0 ≤ j ∧ j < m then s.p j else s.p0 j) ∧
        t.ph0 j = (if 0 ≤ j ∧ j < m then s.ph1 j else s.ph0 j) ∧
        t.dphi j = (if 0 ≤ j ∧ j < m then w j / (2 * pi) / (hop : R) else s.dphi j) := by
  induction m with
  | zero =>
    refine ⟨s, rfl, rfl, fun j => ?_⟩
    have : ¬ (0 ≤ j ∧ j < (0 : Int)) := by omega
    simp [this]
  | succ m ih =>
    obtain ⟨t, ht, hph, hrest⟩ := ih (fun j hj => hw j (by omega))
    have hout : ¬ (0 ≤ (m : Int) ∧ (m : Int) < (m : Int)) := by omega
    obtain ⟨hp_m, _, hph0_m, _⟩ := hrest (m : Int)
    rw [if_neg hout] at hp_m hph0_m
    have hstep := steadyBin_eq sqrt pi fuel len hop t (m : Int) (w m)
      (by rw [hph, hph0_m]; exact hw m (by omega))
    refine ⟨{ p := Function.update t.p (m : Int)
                (0.5 * (sqrt (t.p m) + sqrt (t.p m)) * (0.5 * (sqrt (t.p m) + sqrt (t.p m))))
              p0 := Function.update t.p0 (m : Int) (t.p m)
              dphi := Function.update t.dphi (m : Int) (w m / (2 * pi) / (hop : R))
              ph0 := Function.update t.ph0 (m : Int) (t.ph1 m)
              ph1 := t.ph1 }, ?_, ?_, fun j => ?_⟩
    · rw [List.range_succ, List.foldlM_append, ht]
      simp only [Option.bind_eq_bind, Option.some_bind, List.foldlM_cons, List.foldlM_nil]
      rw [hstep]
      rfl
    · exact hph
    · obtain ⟨h1, h2, h3, h4⟩ := hrest j
      by_cases hj : j = (m : Int)
      · subst hj
        have hin : (0 : Int) ≤ (m : Int) ∧ (m : Int) < ((m + 1 : Nat) : Int) := by omega
        simp only [Function.update_same, if_pos hin, hp_m, hph, and_self]
      · have hiff : (0 ≤ j ∧ j < ((m + 1 : Nat) : Int)) ↔ (0 ≤ j ∧ j < (m : Int)) := by omega
        simp only [Function.update_noteq hj, hiff]
        exact ⟨h1, h2, h3, h4⟩

theorem frequency_fold (len samplerate : Int) (m : Nat) (s : Spectral R) :
    ((List.range m).foldl (fun acc (k : Nat) => frequencyBin len samplerate acc (k : Int)) s).p
        = s.p ∧
    ∀ j : Int,
      ((List.range m).foldl
          (fun acc (k : Nat) => frequencyBin len samplerate acc (k : Int)) s).dphi j
        = (if 0 ≤ j ∧ j < m then ((j : R) / (len : R) + s.dphi j) * (samplerate : R)
            else s.dphi j) := by
  induction m with
  | zero =>
    refine ⟨rfl, fun j => ?_⟩
    have : ¬ (0 ≤ j ∧ j < (0 : Int)) := by omega
    simp [this]
  | succ m ih =>
    rw [List.range_succ, List.foldl_append]
    simp only [List.foldl_cons, List.foldl_nil]
    generalize (List.range m).foldl
      (fun acc (k : Nat) => frequencyBin len samplerate acc (k : Int)) s = t at ih ⊢
    obtain ⟨hp, hrest⟩ := ih
    refine ⟨hp, fun j => ?_⟩
    show Function.update t.dphi (m : Int)
      ((((m : Int) : R) / (len : R) + t.dphi m) * (samplerate : R)) j = _
    by_cases hj : j = (m : Int)
    · subst hj
      have hin : (0 : Int) ≤ (m : Int) ∧ (m : Int) < ((m + 1 : Nat) : Int) := by omega
      have hout : ¬ (0 ≤ (m : Int) ∧ (m : Int) < (m : Int)) := by omega
      have := hrest (m : Int)
      rw [if_neg hout] at this
      simp only [Function.update_same, if_pos hin, this]
    · have hiff : (0 ≤ j ∧ j < ((m + 1 : Nat) : Int)) ↔ (0 ≤ j ∧ j < (m : Int)) := by omega
      simp only [Function.update_noteq hj, hiff]
      exact hrest j

theorem exists_fuel_bound (k : Nat → Int) (m : Nat) : ∃ F : Nat, ∀ j < m, (k j).natAbs < F := by
  induction m with
  | zero => exact ⟨0, fun j hj => absurd hj (Nat.not_lt_zero j)⟩
  | succ m ih =>
    obtain ⟨F, hF⟩ := ih
    refine ⟨max F ((k m).natAbs + 1), fun j hj => ?_⟩
    rcases Nat.lt_succ_iff_lt_or_eq.mp hj with h | h
    · exact lt_of_lt_of_le (hF j h) (le_max_left _ _)
    · subst h
      exact lt_of_lt_of_le (Nat.lt_succ_self _) (le_max_right _ _)

/-- Bins of the full span `0 .. len/2` are the indices visited by the loops. -/
theorem bin_in_span (len i : Int) (h0 : 0 ≤ i) (h1 : i ≤ Int.tdiv len 2) :
    0 ≤ i ∧ i < (((Int.tdiv len 2 + 1).toNat : Nat) : Int) := by
  omega

variable [FloorRing R]

/-- The steady frame: with enough fuel the corrector returns, and every field is
given in closed form. -/
theorem phaseVocoder_steady (sqrt : R → R) (pi : R) (hpi : 0 < pi) (len hop icnt : Int)
    (hicnt : icnt ≠ 0) (s : Spectral R) :
    ∃ F : Nat, ∀ fuel, F ≤ fuel → ∃ t,
      phaseVocoder sqrt pi fuel len hop icnt s = some t ∧ t.ph1 = s.ph1 ∧
      ∀ j : Int, 0 ≤ j → j ≤ Int.tdiv len 2 →
        wrapPhase pi fuel (s.ph1 j - s.ph0 j - 2 * pi * (j : R) / (len : R) * (hop : R))
          = some (s.ph1 j - s.ph0 j - 2 * pi * (j : R) / (len : R) * (hop : R)
              - 2 * pi * (⌊(s.ph1 j - s.ph0 j - 2 * pi * (j : R) / (len : R) * (hop : R) + pi)
                  / (2 * pi)⌋ : R)) ∧
        t.p j = 0.5 * (sqrt (s.p j) + sqrt (s.p j)) * (0.5 * (sqrt (s.p j) + sqrt (s.p j))) ∧
        t.p0 j = s.p j ∧ t.ph0 j = s.ph1 j ∧
        t.dphi j = (s.ph1 j - s.ph0 j - 2 * pi * (j : R) / (len : R) * (hop : R)
              - 2 * pi * (⌊(s.ph1 j - s.ph0 j - 2 * pi * (j : R) / (len : R) * (hop : R) + pi)
                  / (2 * pi)⌋ : R)) / (2 * pi) / (hop : R) := by
  obtain ⟨F, hF⟩ := exists_fuel_bound
    (fun j : Nat => ⌊(s.ph1 j - s.ph0 j - 2 * pi * ((j : Int) : R) / (len : R) * (hop : R) + pi)
      / (2 * pi)⌋) (Int.tdiv len 2 + 1).toNat
  refine ⟨F, fun fuel hfuel => ?_⟩
  have hwrap : ∀ j : Int, 0 ≤ j → j ≤ Int.tdiv len 2 →
      wrapPhase pi fuel (s.ph1 j - s.ph0 j - 2 * pi * (j : R) / (len : R) * (hop : R))
        = some (s.ph1 j - s.ph0 j - 2 * pi * (j : R) / (len : R) * (hop : R)
            - 2 * pi * (⌊(s.ph1 j - s.ph0 j - 2 * pi * (j : R) / (len : R) * (hop : R) + pi)
                / (2 * pi)⌋ : R)) := by
    intro j h0 h1
    apply wrapPhase_eq pi hpi
    obtain ⟨n, rfl⟩ : ∃ n : Nat, j = (n : Int) := ⟨j.toNat, by omega⟩
    exact lt_of_lt_of_le (hF n (by omega)) hfuel
  obtain ⟨t, ht, hph, hrest⟩ := steady_fold sqrt pi fuel len hop
    (fun j => s.ph1 j - s.ph0 j - 2 * pi * (j : R) / (len : R) * (hop : R)
            - 2 * pi * (⌊(s.ph1 j - s.ph0 j - 2 * pi * (j : R) / (len : R) * (hop : R) + pi)
                / (2 * pi)⌋ : R))
    (Int.tdiv len 2 + 1).toNat s (fun j hj => hwrap j (by omega) (by omega))
  refine ⟨t, ?_, hph, fun j h0 h1 => ?_⟩
  · rw [phaseVocoder, if_neg hicnt]
    exact ht
  · obtain ⟨e1, e2, e3, e4⟩ := hrest j
    have hin := bin_in_span len j h0 h1
    rw [if_pos hin] at e1 e2 e3 e4
    exact ⟨hwrap j h0 h1, e1, e2, e3, e4⟩

end Vocoder

/-! ## The phase-vocoder corrector: wrap step, first frame, later frames -/

section VocoderClaims

open Real

/-- The analysis of a frame with the phase vocoder: once the corrector has
returned `t`, the frequency array holds `(j/len + t.dphi j) · samplerate` on the
full span and the power array is the suppressed `t.p`. -/
theorem analyseFrame_freq {R : Type} [LinearOrderedField R] (sqrt : R → R) (pi : R) (fuel : Nat)
    (psa : Int → (Int → R) → Int → R → (Int → R)) (pso : Int → (Int → R) → R → (Int → R))
    (len hop samplerate flag_phase psub_n : Int) (psub_f oct_f : R) (icnt : Int)
    (s t : Spectral R) (hflag : flag_phase ≠ 0)
    (ht : phaseVocoder sqrt pi fuel len hop icnt s = some t) :
    ∃ out f, analyseFrame sqrt pi fuel psa pso len hop samplerate flag_phase psub_n psub_f
        oct_f icnt s = some out ∧ out.2.freq = some f ∧
      out.2.power = artifactSuppress psa pso len psub_n psub_f oct_f t.p ∧
      ∀ j : Int, 0 ≤ j → j ≤ Int.tdiv len 2 →
        f j = ((j : R) / (len : R) + t.dphi j) * (samplerate : R) := by
  obtain ⟨hp, hd⟩ := frequency_fold len samplerate (Int.tdiv len 2 + 1).toNat
    { t with p := artifactSuppress psa pso len psub_n psub_f oct_f t.p }
  refine ⟨(forLoop (Int.tdiv len 2 + 1) (frequencyBin len samplerate)
      { t with p := artifactSuppress psa pso len psub_n psub_f oct_f t.p },
      { power := (forLoop (Int.tdiv len 2 + 1) (frequencyBin len samplerate)
          { t with p := artifactSuppress psa pso len psub_n psub_f oct_f t.p }).p
        freq := some (forLoop (Int.tdiv len 2 + 1) (frequencyBin len samplerate)
          { t with p := artifactSuppress psa pso len psub_n psub_f oct_f t.p }).dphi }),
    _, ?_, rfl, ?_, fun j h0 h1 => ?_⟩
  · simp only [analyseFrame, if_neg hflag, ht, Option.map_some']
  · exact hp
  · have := hd j
    rw [if_pos (bin_in_span len j h0 h1)] at this
    exact this

/-- The first frame: the corrector returns whatever the fuel, with every field in
closed form on the full span. -/
theorem phaseVocoder_bootstrap {R : Type} [LinearOrderedField R] (sqrt : R → R) (pi : R)
    (fuel : Nat) (len hop : Int) (s : Spectral R) :
    ∃ t, phaseVocoder sqrt pi fuel len hop 0 s = some t ∧ t.p = s.p ∧ t.ph1 = s.ph1 ∧
      ∀ j : Int, 0 ≤ j → j ≤ Int.tdiv len 2 →
        t.dphi j = 0 ∧ t.p0 j = s.p j ∧ t.ph0 j = s.ph1 j := by
  obtain ⟨hp, hph, hrest⟩ := bootstrap_fold (Int.tdiv len 2 + 1).toNat s
  refine ⟨_, by simp only [phaseVocoder, if_true]; rfl, hp, hph, fun j h0 h1 => ?_⟩
  obtain ⟨e1, e2, e3⟩ := hrest j
  rw [if_pos (bin_in_span len j h0 h1)] at e1 e2 e3
  exact ⟨e1, e2, e3⟩

theorem sqrt_average_self (x : ℝ) (hx : 0 ≤ x) :
    0.5 * (√x + √x) * (0.5 * (√x + √x)) = x := by
  have h := Real.mul_self_sqrt hx
  have e : (0.5 : ℝ) * (√x + √x) = √x := by norm_num; ring
  rw [e, h]

/-- C1 (evaluation of the code at the failing input): on a later frame
(`icnt = 1`, frame size 2048, hop 512) with extracted power 4 and previous power 0
in every bin, the corrector returns and the power it hands on at bin 10 is 4, the
extracted power itself, whereas the average of the claim,
`(0.5·(sqrt 4 + sqrt 0))^2`, is 1: the previous power has been overwritten by
`p0[i] = p[i]` before the average reads it. -/
theorem C1_steady_power_is_not_averaged :
    (∃ F : Nat, ∀ fuel, F ≤ fuel → ∃ t : Spectral ℝ,
      phaseVocoder Real.sqrt π fuel 2048 512 1
        { p := fun _ => 4, p0 := fun _ => 0, dphi := fun _ => 0,
          ph0 := fun _ => 0, ph1 := fun _ => 0 } = some t ∧ t.p 10 = 4) ∧
    (0.5 * (√(4 : ℝ) + √(0 : ℝ))) ^ 2 = 1 := by
  constructor
  · obtain ⟨F, hF⟩ := phaseVocoder_steady Real.sqrt π Real.pi_pos 2048 512 1 (by decide)
      { p := fun _ => 4, p0 := fun _ => 0, dphi := fun _ => 0,
        ph0 := fun _ => 0, ph1 := fun _ => 0 }
    refine ⟨F, fun fuel hfuel => ?_⟩
    obtain ⟨t, ht, _, hrest⟩ := hF fuel hfuel
    obtain ⟨_, hp, _⟩ := hrest 10 (by decide) (by decide)
    exact ⟨t, ht, by rw [hp]; exact sqrt_average_self 4 (by norm_num)⟩
  · have h4 : √(4 : ℝ) = 2 := by
      rw [show (4 : ℝ) = 2 ^ 2 by norm_num]
      exact Real.sqrt_sq (by norm_num)
    rw [h4, Real.sqrt_zero]
    norm_num

/-- C2: for every real raw phase difference `d` the wrap step terminates (it
returns for every fuel from some bound on) and its result lies in `[-π, π)`. -/
theorem C2_wrap_terminates_in_range (d : ℝ) :
    ∃ w : ℝ, -π ≤ w ∧ w < π ∧ ∃ F : Nat, ∀ fuel, F ≤ fuel → wrapPhase π fuel d = some w := by
  obtain ⟨hlo, hhi⟩ := turns_bounds π Real.pi_pos d
  exact ⟨_, hlo, hhi, ⌊(d + π) / (2 * π)⌋.natAbs + 1, fun fuel hf =>
    wrapPhase_eq π Real.pi_pos d fuel (by omega)⟩

/-- C3: for every real `d` and every integer `k`, the wrap step returns the same
value on `d` and on `d + 2πk`. -/
theorem C3_wrap_invariant_under_turns (d : ℝ) (k : ℤ) :
    ∃ w : ℝ, ∃ F : Nat, ∀ fuel, F ≤ fuel →
      wrapPhase π fuel d = some w ∧ wrapPhase π fuel (d + 2 * π * k) = some w := by
  have h2 : (2 : ℝ) * π ≠ 0 := by positivity
  have hfloor : ⌊(d + 2 * π * k + π) / (2 * π)⌋ = ⌊(d + π) / (2 * π)⌋ + k := by
    rw [← Int.floor_add_int]
    congr 1
    field_simp
    ring
  refine ⟨d - 2 * π * (⌊(d + π) / (2 * π)⌋ : ℝ),
    max (⌊(d + π) / (2 * π)⌋.natAbs + 1) ((⌊(d + π) / (2 * π)⌋ + k).natAbs + 1),
    fun fuel hf => ⟨wrapPhase_eq π Real.pi_pos d fuel ?_, ?_⟩⟩
  · have := le_max_left (⌊(d + π) / (2 * π)⌋.natAbs + 1) ((⌊(d + π) / (2 * π)⌋ + k).natAbs + 1)
    omega
  · have := le_max_right (⌊(d + π) / (2 * π)⌋.natAbs + 1)
      ((⌊(d + π) / (2 * π)⌋ + k).natAbs + 1)
    rw [wrapPhase_eq π Real.pi_pos (d + 2 * π * k) fuel (by rw [hfloor]; omega), hfloor]
    congr 1
    push_cast
    ring

/-- C4: on frame 0 with the phase vocoder enabled the corrector returns, and for
every bin `i` of the full span `0 .. len/2` it has set `dphi[i] = 0`, stored the
extracted power and phase as the previous snapshot (`p0[i] = p[i]`,
`ph0[i] = ph1[i]`) and left the power array as extracted. -/
theorem C4_bootstrap_frame {R : Type} [LinearOrderedField R] (sqrt : R → R) (pi : R)
    (fuel : Nat) (len hop : Int) (s : Spectral R) (i : Int)
    (h0 : 0 ≤ i) (h1 : i ≤ Int.tdiv len 2) :
    ∃ t, phaseVocoder sqrt pi fuel len hop 0 s = some t ∧
      t.dphi i = 0 ∧ t.p0 i = s.p i ∧ t.ph0 i = s.ph1 i ∧ t.p = s.p := by
  obtain ⟨t, ht, hp, _, hrest⟩ := phaseVocoder_bootstrap sqrt pi fuel len hop s
  obtain ⟨e1, e2, e3⟩ := hrest i h0 h1
  exact ⟨t, ht, e1, e2, e3, hp⟩

/-- Witness of C4: frame size 8, Nyquist bin 4, on rational arrays. -/
theorem C4_bootstrap_frame_witness :
    ∃ t : Spectral ℚ, phaseVocoder (fun x => x) 3 0 8 2 0
        { p := fun (j : Int) => 5 + (j : ℚ), p0 := fun _ => 1, dphi := fun _ => 7,
          ph0 := fun _ => 2, ph1 := fun (j : Int) => 1 / 2 - (j : ℚ) } = some t ∧
      t.dphi 4 = 0 ∧ t.p0 4 = 5 + ((4 : Int) : ℚ) ∧
      t.ph0 4 = 1 / 2 - ((4 : Int) : ℚ) ∧ t.p = fun (j : Int) => 5 + (j : ℚ) :=
  C4_bootstrap_frame (fun x => x) 3 0 8 2
    { p := fun (j : Int) => 5 + (j : ℚ), p0 := fun _ => 1, dphi := fun _ => 7,
      ph0 := fun _ => 2, ph1 := fun (j : Int) => 1 / 2 - (j : ℚ) } 4 (by decide) (by decide)

/-- C9: with the phase vocoder enabled, a frame length and a hop other than zero,
for every bin `i` of the full span `0 .. len/2` (DC and Nyquist included) the frame
analysis returns (for every fuel from some bound on) and the frequency it hands to
note detection is `i/len · samplerate` on frame 0 and
`(i/len + w/(2π·hop)) · samplerate` on every later frame, where `w` is the wrap of
`d = ph1[i] − ph0[i] − 2π·i·hop/len` into `[-π, π)`: `w = d − 2π·⌊(d + π)/(2π)⌋`,
the value the wrap step of the code returns on `d`. -/
theorem C9_frequency_handed_to_detection
    (psa : Int → (Int → ℝ) → Int → ℝ → (Int → ℝ)) (pso : Int → (Int → ℝ) → ℝ → (Int → ℝ))
    (len hop samplerate flag_phase psub_n : Int) (psub_f oct_f : ℝ) (icnt : Int)
    (s : Spectral ℝ) (i : Int)
    (hflag : flag_phase ≠ 0) (_hlen : len ≠ 0) (_hhop : hop ≠ 0)
    (h0 : 0 ≤ i) (h1 : i ≤ Int.tdiv len 2) :
    ∃ F : Nat, ∀ fuel, F ≤ fuel → ∃ out f,
      analyseFrame Real.sqrt π fuel psa pso len hop samplerate flag_phase psub_n psub_f
        oct_f icnt s = some out ∧ out.2.freq = some f ∧
      (icnt = 0 → f i = (i : ℝ) / (len : ℝ) * (samplerate : ℝ)) ∧
      (icnt ≠ 0 → ∃ w : ℝ,
        w = s.ph1 i - s.ph0 i - 2 * π * (i : ℝ) * (hop : ℝ) / (len : ℝ)
          - 2 * π * (⌊(s.ph1 i - s.ph0 i - 2 * π * (i : ℝ) * (hop : ℝ) / (len : ℝ) + π)
              / (2 * π)⌋ : ℝ) ∧
        -π ≤ w ∧ w < π ∧
        wrapPhase π fuel (s.ph1 i - s.ph0 i - 2 * π * (i : ℝ) * (hop : ℝ) / (len : ℝ)) = some w ∧
        f i = ((i : ℝ) / (len : ℝ) + w / (2 * π * (hop : ℝ))) * (samplerate : ℝ)) := by
  have hd : s.ph1 i - s.ph0 i - 2 * π * (i : ℝ) * (hop : ℝ) / (len : ℝ)
      = s.ph1 i - s.ph0 i - 2 * π * (i : ℝ) / (len : ℝ) * (hop : ℝ) := by ring
  by_cases hicnt : icnt = 0
  · subst hicnt
    refine ⟨0, fun fuel _ => ?_⟩
    obtain ⟨t, ht, _, _, hrest⟩ := phaseVocoder_bootstrap Real.sqrt π fuel len hop s
    obtain ⟨out, f, hout, hf, _, hfreq⟩ := analyseFrame_freq Real.sqrt π fuel psa pso len hop
      samplerate flag_phase psub_n psub_f oct_f 0 s t hflag ht
    refine ⟨out, f, hout, hf, fun _ => ?_, fun h => absurd rfl h⟩
    rw [hfreq i h0 h1, (hrest i h0 h1).1, add_zero]
  · obtain ⟨F, hF⟩ := phaseVocoder_steady Real.sqrt π Real.pi_pos len hop icnt hicnt s
    refine ⟨F, fun fuel hfuel => ?_⟩
    obtain ⟨t, ht, _, hrest⟩ := hF fuel hfuel
    obtain ⟨out, f, hout, hf, _, hfreq⟩ := analyseFrame_freq Real.sqrt π fuel psa pso len hop
      samplerate flag_phase psub_n psub_f oct_f icnt s t hflag ht
    obtain ⟨hw, _, _, _, hdphi⟩ := hrest i h0 h1
    obtain ⟨hlo, hhi⟩ := turns_bounds π Real.pi_pos
      (s.ph1 i - s.ph0 i - 2 * π * (i : ℝ) / (len : ℝ) * (hop : ℝ))
    refine ⟨out, f, hout, hf, fun h => absurd h hicnt, fun _ => ⟨_, rfl, ?_, ?_, ?_, ?_⟩⟩
    · rw [hd]
      exact hlo
    · rw [hd]
      exact hhi
    · rw [hd]
      exact hw
    · rw [hfreq i h0 h1, hdphi, div_div, hd]

/-- Witness of C9: frame size 8, hop 2, 8000 Hz, frame 1, Nyquist bin 4, with
suppression passes that return the power array as it is. -/
theorem C9_frequency_handed_to_detection_witness :
    ∃ F : Nat, ∀ fuel, F ≤ fuel → ∃ out f,
      analyseFrame Real.sqrt π fuel (fun _ p _ _ => p) (fun _ p _ => p) 8 2 8000 1 0 0 0 1
        { p := fun _ => 4, p0 := fun _ => 1, dphi := fun _ => 0,
          ph0 := fun _ => 0, ph1 := fun _ => 1 } = some out ∧ out.2.freq = some f ∧
      ((1 : Int) = 0 → f 4 = ((4 : Int) : ℝ) / ((8 : Int) : ℝ) * ((8000 : Int) : ℝ)) ∧
      ((1 : Int) ≠ 0 → ∃ w : ℝ,
        w = (1 : ℝ) - 0 - 2 * π * ((4 : Int) : ℝ) * ((2 : Int) : ℝ) / ((8 : Int) : ℝ)
          - 2 * π * (⌊((1 : ℝ) - 0 - 2 * π * ((4 : Int) : ℝ) * ((2 : Int) : ℝ) / ((8 : Int) : ℝ)
              + π) / (2 * π)⌋ : ℝ) ∧
        -π ≤ w ∧ w < π ∧
        wrapPhase π fuel ((1 : ℝ) - 0 - 2 * π * ((4 : Int) : ℝ) * ((2 : Int) : ℝ) / ((8 : Int) : ℝ))
          = some w ∧
        f 4 = (((4 : Int) : ℝ) / ((8 : Int) : ℝ) + w / (2 * π * ((2 : Int) : ℝ)))
          * ((8000 : Int) : ℝ)) :=
  C9_frequency_handed_to_detection (fun _ p _ _ => p) (fun _ p _ => p) 8 2 8000 1 0 0 0 1
    { p := fun _ => 4, p0 := fun _ => 1, dphi := fun _ => 0,
      ph0 := fun _ => 0, ph1 := fun _ => 1 } 4 (by decide) (by decide) (by decide)
    (by decide) (by decide)

end VocoderClaims

/-! ## Frame buffer and frame loop -/

section FrameClaims

/-- C5: for every `1 ≤ hop ≤ len` and every buffer content `b`, one shift-and-refill
step whose read finds a full hop of fresh samples returns `hop` and leaves each
channel buffer equal to `b[hop..len)` followed by the fresh samples: cell `i` holds
`b[i+hop]` for `i < len−hop` and cell `len−hop+j` holds fresh sample `j` for
`j < hop` (left buffer always, right buffer for a stereo source). -/
theorem C5_shift_and_refill {R : Type} (len hop : Int) (src : Source R) (b : Buffers R)
    (h1 : 1 ≤ hop) (_h2 : hop ≤ len) (hfull : (src.pos : Int) + hop ≤ (src.total : Int)) :
    (shiftAndRefill len hop src b).1 = hop ∧
    (∀ i : Int, 0 ≤ i → i < len - hop →
      (shiftAndRefill len hop src b).2.2.left i = b.left (i + hop) ∧
      (src.channels = 2 → (shiftAndRefill len hop src b).2.2.right i = b.right (i + hop))) ∧
    (∀ j : Nat, (j : Int) < hop →
      (shiftAndRefill len hop src b).2.2.left (len - hop + j) = src.left (src.pos + j) ∧
      (src.channels = 2 →
        (shiftAndRefill len hop src b).2.2.right (len - hop + j) = src.right (src.pos + j))) := by
  have hmin : min hop.toNat (src.total - src.pos) = hop.toNat := by omega
  have hcast : ((hop.toNat : Nat) : Int) = hop := by omega
  refine ⟨?_, fun i hi0 hi1 => ⟨?_, fun hc => ?_⟩, fun j hj => ⟨?_, fun hc => ?_⟩⟩
  · rw [shiftAndRefill, (sndfile_read_count _ _ _ _).1, hmin, hcast]
  · have hout : ¬ (len - hop ≤ i ∧ i < len - hop + ((hop.toNat : Nat) : Int)) := by omega
    simp only [shiftAndRefill, sndfile_read, hmin, if_neg hout]
    rw [shiftBuffers_left _ _ _ (by omega), if_pos ⟨hi0, hi1⟩]
  · have hout : ¬ (len - hop ≤ i ∧ i < len - hop + ((hop.toNat : Nat) : Int)) := by omega
    simp only [shiftAndRefill, sndfile_read, hmin, if_neg hout, if_pos hc]
    rw [shiftBuffers_right _ _ _ (by omega), if_pos ⟨hc, hi0, hi1⟩]
  · have hin : len - hop ≤ len - hop + (j : Int) ∧
        len - hop + (j : Int) < len - hop + ((hop.toNat : Nat) : Int) := by omega
    have hk : (len - hop + (j : Int) - (len - hop)).toNat = j := by omega
    simp only [shiftAndRefill, sndfile_read, hmin, if_pos hin, hk]
  · have hin : len - hop ≤ len - hop + (j : Int) ∧
        len - hop + (j : Int) < len - hop + ((hop.toNat : Nat) : Int) := by omega
    have hk : (len - hop + (j : Int) - (len - hop)).toNat = j := by omega
    simp only [shiftAndRefill, sndfile_read, hmin, if_pos hin, hk, if_pos hc]

/-- Witness of C5: a stereo source with 8 samples left, frame size 4, hop 2. -/
theorem C5_shift_and_refill_witness :
    (shiftAndRefill 4 2
        ({ channels := 2, frames := 10, total := 10, pos := 2,
           left := fun j => (j : Int), right := fun j => 100 + (j : Int) } : Source Int)
        { left := fun i => -i, right := fun i => -100 - i }).1 = 2 ∧
    (∀ i : Int, 0 ≤ i → i < 4 - 2 →
      (shiftAndRefill 4 2
        ({ channels := 2, frames := 10, total := 10, pos := 2,
           left := fun j => (j : Int), right := fun j => 100 + (j : Int) } : Source Int)
        { left := fun i => -i, right := fun i => -100 - i }).2.2.left i = -(i + 2) ∧
      ((2 : Int) = 2 → (shiftAndRefill 4 2
        ({ channels := 2, frames := 10, total := 10, pos := 2,
           left := fun j => (j : Int), right := fun j => 100 + (j : Int) } : Source Int)
        { left := fun i => -i, right := fun i => -100 - i }).2.2.right i = -100 - (i + 2))) ∧
    (∀ j : Nat, (j : Int) < 2 →
      (shiftAndRefill 4 2
        ({ channels := 2, frames := 10, total := 10, pos := 2,
           left := fun j => (j : Int), right := fun j => 100 + (j : Int) } : Source Int)
        { left := fun i => -i, right := fun i => -100 - i }).2.2.left (4 - 2 + j)
          = ((2 + j : Nat) : Int) ∧
      ((2 : Int) = 2 → (shiftAndRefill 4 2
        ({ channels := 2, frames := 10, total := 10, pos := 2,
           left := fun j => (j : Int), right := fun j => 100 + (j : Int) } : Source Int)
        { left := fun i => -i, right := fun i => -100 - i }).2.2.right (4 - 2 + j)
          = 100 + ((2 + j : Nat) : Int))) :=
  C5_shift_and_refill 4 2
    ({ channels := 2, frames := 10, total := 10, pos := 2,
       left := fun j => (j : Int), right := fun j => 100 + (j : Int) } : Source Int)
    { left := fun i => -i, right := fun i => -100 - i } (by decide) (by decide) (by decide)

end FrameClaims

/-! ## Bin range of interest -/

section BinRangeClaims

/-- The equal-tempered note table (`440 · 2^((n − 69)/12)` Hz) is positive. -/
theorem tempered_pos (n : Int) : (0 : ℝ) < 440 * (2 : ℝ) ^ (((n : ℝ) - 69) / 12) :=
  mul_pos (by norm_num) (Real.rpow_pos_of_pos (by norm_num) _)

/-- The equal-tempered note table increases with the note number. -/
theorem tempered_lt (m n : Int) (h : m < n) :
    (440 : ℝ) * (2 : ℝ) ^ (((m : ℝ) - 69) / 12) < 440 * (2 : ℝ) ^ (((n : ℝ) - 69) / 12) := by
  have hc : (m : ℝ) < (n : ℝ) := by exact_mod_cast h
  have := Real.rpow_lt_rpow_of_exponent_lt (by norm_num : (1 : ℝ) < 2)
    (by linarith : ((m : ℝ) - 69) / 12 < ((n : ℝ) - 69) / 12)
  linarith

/-- Frame size 2048 at 44100 Hz with the note range 0..0 (8.18 Hz) of the
equal-tempered table: both ends of the bin range are 1. -/
theorem binRange_lowest_note :
    binRange (fun n : Int => (440 : ℝ) * (2 : ℝ) ^ (((n : ℝ) - 69) / 12)) 2048 44100 0 0
      = (1, 1) := by
  have hpos := tempered_pos 0
  have hle : (2 : ℝ) ^ ((((0 : Int) : ℝ) - 69) / 12) ≤ 1 / 16 := by
    have h1 := Real.rpow_le_rpow_of_exponent_le (by norm_num : (1 : ℝ) ≤ 2)
      (by norm_num : (((0 : Int) : ℝ) - 69) / 12 ≤ ((-4 : Int) : ℝ))
    rw [Real.rpow_intCast] at h1
    norm_num at h1 ⊢
    linarith
  have ht : truncToInt ((440 : ℝ) * (2 : ℝ) ^ ((((0 : Int) : ℝ) - 69) / 12)
      * ((((2048 : Int) : ℝ)) / ((44100 : Int) : ℝ)) - 0.5) = 0 := by
    apply truncToInt_of_small
    · push_cast
      norm_num at hpos ⊢
      nlinarith
    · push_cast
      norm_num at hle ⊢
      nlinarith
  rw [Prod.ext_iff, binRange_fst _ _ _ _ _ (by rw [ht]; decide),
    binRange_snd _ _ _ _ _ (by rw [ht]; decide)]
  simp only [ht]
  decide

/-- Frame size `2^22` at a sample rate of 1 Hz with the note range 0..127 of the
equal-tempered table, a valid configuration: the value converted for the top note
is above `INT_MAX`, the upper end of the bin range is `INT_MIN + 1` and lies below
the lower end. -/
theorem binRange_overflow_example :
    (binRange (fun n : Int => (440 : ℝ) * (2 : ℝ) ^ (((n : ℝ) - 69) / 12))
      4194304 1 0 127).2 = INT_MIN + 1 ∧
    (binRange (fun n : Int => (440 : ℝ) * (2 : ℝ) ^ (((n : ℝ) - 69) / 12))
      4194304 1 0 127).2
      < (binRange (fun n : Int => (440 : ℝ) * (2 : ℝ) ^ (((n : ℝ) - 69) / 12))
          4194304 1 0 127).1 := by
  have hge : (16 : ℝ) ≤ (2 : ℝ) ^ ((((127 : Int) : ℝ) - 69) / 12) := by
    have h1 := Real.rpow_le_rpow_of_exponent_le (by norm_num : (1 : ℝ) ≤ 2)
      (by norm_num : (((4 : Int)) : ℝ) ≤ (((127 : Int) : ℝ) - 69) / 12)
    rw [Real.rpow_intCast] at h1
    norm_num at h1 ⊢
    linarith
  have hover : INT_MAX < truncToInt ((440 : ℝ) * (2 : ℝ) ^ ((((127 : Int) : ℝ) - 69) / 12)
      * ((((4194304 : Int) : ℝ)) / ((1 : Int) : ℝ)) - 0.5) := by
    have h2 : (((INT_MAX + 1 : Int)) : ℝ) ≤ (440 : ℝ) * (2 : ℝ) ^ ((((127 : Int) : ℝ) - 69) / 12)
        * ((((4194304 : Int) : ℝ)) / ((1 : Int) : ℝ)) - 0.5 := by
      unfold INT_MAX
      push_cast
      norm_num at hge ⊢
      nlinarith
    have := le_truncToInt (by decide : (0 : Int) ≤ INT_MAX + 1) h2
    omega
  have h2nd := binRange_snd_overflow
    (fun n : Int => (440 : ℝ) * (2 : ℝ) ^ (((n : ℝ) - 69) / 12)) 4194304 1 0 127
    (by decide) hover
  refine ⟨h2nd, ?_⟩
  rw [h2nd]
  have h1st : 1 ≤ (binRange (fun n : Int => (440 : ℝ) * (2 : ℝ) ^ (((n : ℝ) - 69) / 12))
      4194304 1 0 127).1 := by
    simp only [binRange]
    split_ifs <;> omega
  have : INT_MIN + 1 < 1 := by decide
  omega

/-- C7 (counterexample): frame size 2048, sample rate 44100, note range 0..0 and the
equal-tempered table form a valid configuration, yet the bin range is `(1, 1)`, so
`i0 < i1` fails. -/
theorem C7_strict_order_fails :
    ¬ ∀ (mid2freq : Int → ℝ) (len samplerate notelow notetop : Int),
      (∃ k : Nat, len = 2 ^ k) → 0 ≤ notelow → notelow ≤ notetop → notetop ≤ 127 →
      0 < samplerate →
      (∀ n, 0 ≤ n → n ≤ 127 → 0 < mid2freq n) →
      (∀ m n, 0 ≤ m → m < n → n ≤ 127 → mid2freq m < mid2freq n) →
      1 ≤ (binRange mid2freq len samplerate notelow notetop).1 ∧
      (binRange mid2freq len samplerate notelow notetop).1
        < (binRange mid2freq len samplerate notelow notetop).2 ∧
      (binRange mid2freq len samplerate notelow notetop).2 ≤ Int.tdiv len 2 - 1 := by
  intro h
  have := h (fun n : Int => (440 : ℝ) * (2 : ℝ) ^ (((n : ℝ) - 69) / 12)) 2048 44100 0 0
    ⟨11, by norm_num⟩ (by decide) (by decide) (by decide) (by decide)
    (fun n _ _ => tempered_pos n) (fun m n _ hmn _ => tempered_lt m n hmn)
  rw [binRange_lowest_note] at this
  exact absurd this.2.1 (by decide)

/-- C7 (as amended): for every valid configuration in which the integral part of
`freq(top)·T − 0.5` is below `INT_MAX` (so that the 32-bit `int` holds both values
converted and the increment of the upper one), the bin range satisfies `1 ≤ i0`
and `i1 ≤ len/2 − 1`; and `i0 < i1` holds exactly when `len/2 ≥ 3`, the truncated
index `(int)(freq(top)·T − 0.5)` of the top note is at least 1 and the truncated
index `(int)(freq(bottom)·T − 0.5)` of the bottom note is below `len/2 − 1`. -/
theorem C7_bin_range_bounds {R : Type} [LinearOrderedField R] [FloorRing R]
    (mid2freq : Int → R) (len samplerate notelow notetop : Int)
    (hpow : ∃ k : Nat, len = 2 ^ k) (h0 : 0 ≤ notelow) (hlt : notelow ≤ notetop)
    (h127 : notetop ≤ 127) (hsr : 0 < samplerate)
    (hpos : ∀ n, 0 ≤ n → n ≤ 127 → 0 < mid2freq n)
    (hinc : ∀ m n, 0 ≤ m → m < n → n ≤ 127 → mid2freq m < mid2freq n)
    (hrep : truncToInt (mid2freq notetop * ((len : R) / (samplerate : R)) - 0.5) < INT_MAX) :
    1 ≤ (binRange mid2freq len samplerate notelow notetop).1 ∧
    (binRange mid2freq len samplerate notelow notetop).2 ≤ Int.tdiv len 2 - 1 ∧
    ((binRange mid2freq len samplerate notelow notetop).1
        < (binRange mid2freq len samplerate notelow notetop).2 ↔
      3 ≤ Int.tdiv len 2 ∧
      1 ≤ truncToInt (mid2freq notetop * ((len : R) / (samplerate : R)) - 0.5) ∧
      truncToInt (mid2freq notelow * ((len : R) / (samplerate : R)) - 0.5)
        < Int.tdiv len 2 - 1) := by
  have hT : (0 : R) ≤ (len : R) / (samplerate : R) := by
    obtain ⟨k, rfl⟩ := hpow
    have hs : (0 : R) < (samplerate : R) := by exact_mod_cast hsr
    have hl : (0 : R) ≤ ((2 ^ k : Int) : R) := by
      push_cast
      positivity
    exact div_nonneg hl hs.le
  have hf : mid2freq notelow ≤ mid2freq notetop := by
    rcases eq_or_lt_of_le hlt with h | h
    · rw [h]
    · exact (hinc notelow notetop h0 h h127).le
  have hmono := truncToInt_mono (R := R)
    (sub_le_sub_right (mul_le_mul_of_nonneg_right hf hT) (0.5 : R))
  have hlow : 0 ≤ truncToInt (mid2freq notelow * ((len : R) / (samplerate : R)) - 0.5) := by
    apply truncToInt_nonneg
    have := mul_nonneg (hpos notelow h0 (by omega)).le hT
    linarith
  have hmin : INT_MIN ≤ 0 := by decide
  rw [binRange_fst _ _ _ _ _ ⟨by omega, by omega⟩, binRange_snd _ _ _ _ _ ⟨by omega, hrep⟩]
  refine ⟨le_max_left _ _, min_le_left _ _, ?_⟩
  omega

/-- Witness of C7 as amended: frame size 2048, 44100 Hz, notes 48..72 of the
equal-tempered table. -/
theorem C7_bin_range_bounds_witness :
    1 ≤ (binRange (fun n : Int => (440 : ℝ) * (2 : ℝ) ^ (((n : ℝ) - 69) / 12))
          2048 44100 48 72).1 ∧
    (binRange (fun n : Int => (440 : ℝ) * (2 : ℝ) ^ (((n : ℝ) - 69) / 12))
          2048 44100 48 72).2 ≤ Int.tdiv 2048 2 - 1 ∧
    ((binRange (fun n : Int => (440 : ℝ) * (2 : ℝ) ^ (((n : ℝ) - 69) / 12))
          2048 44100 48 72).1
        < (binRange (fun n : Int => (440 : ℝ) * (2 : ℝ) ^ (((n : ℝ) - 69) / 12))
          2048 44100 48 72).2 ↔
      3 ≤ Int.tdiv 2048 2 ∧
      1 ≤ truncToInt ((440 : ℝ) * (2 : ℝ) ^ ((((72 : Int) : ℝ) - 69) / 12)
            * ((((2048 : Int) : ℝ)) / ((44100 : Int) : ℝ)) - 0.5) ∧
      truncToInt ((440 : ℝ) * (2 : ℝ) ^ ((((48 : Int) : ℝ) - 69) / 12)
            * ((((2048 : Int) : ℝ)) / ((44100 : Int) : ℝ)) - 0.5)
        < Int.tdiv 2048 2 - 1) :=
  C7_bin_range_bounds (fun n : Int => (440 : ℝ) * (2 : ℝ) ^ (((n : ℝ) - 69) / 12))
    2048 44100 48 72 ⟨11, by norm_num⟩ (by decide) (by decide) (by decide) (by decide)
    (fun n _ _ => tempered_pos n) (fun m n _ hmn _ => tempered_lt m n hmn)
    (by
      have hle : (2 : ℝ) ^ ((((72 : Int) : ℝ) - 69) / 12) ≤ 2 := by
        have h1 := Real.rpow_le_rpow_of_exponent_le (by norm_num : (1 : ℝ) ≤ 2)
          (by norm_num : (((72 : Int) : ℝ) - 69) / 12 ≤ ((1 : Int) : ℝ))
        rw [Real.rpow_intCast] at h1
        norm_num at h1 ⊢
        linarith
      apply truncToInt_lt (by decide)
      unfold INT_MAX
      push_cast
      norm_num at hle ⊢
      nlinarith)

/-- C8 (counterexample): frame size 2048, sample rate 44100, note range 69..69
(440 Hz): the product `freq·T` is 20.43, its rounding clamped into `[1, 1023]` is
20, but the lower end computed by the driver is 19. -/
theorem C8_lower_end_is_not_the_rounded_product :
    ¬ ∀ (mid2freq : Int → ℝ) (len samplerate notelow notetop : Int),
      (binRange mid2freq len samplerate notelow notetop).1
        = max 1 (min (Int.tdiv len 2 - 1)
            (round (mid2freq notelow * ((len : ℝ) / (samplerate : ℝ))))) ∧
      (binRange mid2freq len samplerate notelow notetop).2
        = max 1 (min (Int.tdiv len 2 - 1)
            (round (mid2freq notetop * ((len : ℝ) / (samplerate : ℝ))))) := by
  intro h
  have h1 := (h (fun n : Int => (440 : ℝ) * (2 : ℝ) ^ (((n : ℝ) - 69) / 12))
    2048 44100 69 69).1
  have hf : (440 : ℝ) * (2 : ℝ) ^ ((((69 : Int) : ℝ) - 69) / 12) = 440 := by
    norm_num
  have hr : round ((440 : ℝ) * ((((2048 : Int) : ℝ)) / ((44100 : Int) : ℝ))) = 20 := by
    rw [round_eq, Int.floor_eq_iff]
    push_cast
    constructor <;> norm_num
  have ht : truncToInt ((440 : ℝ) * ((((2048 : Int) : ℝ)) / ((44100 : Int) : ℝ)) - 0.5)
      = 19 := by
    have hge : (0 : ℝ) ≤ (440 : ℝ) * ((((2048 : Int) : ℝ)) / ((44100 : Int) : ℝ)) - 0.5 := by
      push_cast
      norm_num
    rw [truncToInt, if_pos hge, Int.floor_eq_iff]
    push_cast
    constructor <;> norm_num
  rw [binRange_fst _ _ _ _ _ (by simp only [hf, ht]; decide)] at h1
  simp only [hf, hr, ht] at h1
  exact absurd h1 (by decide)

/-- C8 (as amended): with `T = len / samplerate` for a sample rate other than zero,
when the 32-bit `int` holds the integral part of `freq(bottom)·T − 0.5` and the
integral part of `freq(top)·T − 0.5` is below `INT_MAX` (so that the conversions
and the increment are defined), the lower end is one below the rounded product and
clamped from below only, `i0 = max(1, round(freq(bottom)·T) − 1)`; the upper end is
the rounded product brought into `[1, len/2 − 1]`,
`i1 = min(len/2 − 1, max(1, round(freq(top)·T)))`, for a non-negative product. -/
theorem C8_bin_range_ends {R : Type} [LinearOrderedField R] [FloorRing R]
    (mid2freq : Int → R) (len samplerate notelow notetop : Int)
    (_hsr : samplerate ≠ 0)
    (hlow : INT_MIN ≤ truncToInt (mid2freq notelow * ((len : R) / (samplerate : R)) - 0.5)
      ∧ truncToInt (mid2freq notelow * ((len : R) / (samplerate : R)) - 0.5) ≤ INT_MAX)
    (htop : 0 ≤ mid2freq notetop * ((len : R) / (samplerate : R)))
    (hrep : truncToInt (mid2freq notetop * ((len : R) / (samplerate : R)) - 0.5) < INT_MAX) :
    (binRange mid2freq len samplerate notelow notetop).1
      = max 1 (round (mid2freq notelow * ((len : R) / (samplerate : R))) - 1) ∧
    (binRange mid2freq len samplerate notelow notetop).2
      = min (Int.tdiv len 2 - 1)
          (max 1 (round (mid2freq notetop * ((len : R) / (samplerate : R))))) := by
  have hnn : 0 ≤ truncToInt (mid2freq notetop * ((len : R) / (samplerate : R)) - 0.5) := by
    apply truncToInt_nonneg
    linarith
  have hmin : INT_MIN ≤ 0 := by decide
  rw [binRange_fst _ _ _ _ _ hlow, binRange_snd _ _ _ _ _ ⟨by omega, hrep⟩]
  constructor
  · rcases le_or_lt (1 / 2) (mid2freq notelow * ((len : R) / (samplerate : R))) with h | h
    · rw [truncToInt_sub_half_of_ge h]
    · obtain ⟨h1, h2⟩ := truncToInt_sub_half_of_lt h
      omega
  · rcases le_or_lt (1 / 2) (mid2freq notetop * ((len : R) / (samplerate : R))) with h | h
    · rw [truncToInt_sub_half_of_ge h]
      have : 1 ≤ round (mid2freq notetop * ((len : R) / (samplerate : R))) := by
        rw [round_eq]
        exact Int.le_floor.mpr (by simp only [Int.cast_one]; linarith)
      omega
    · have h1 := truncToInt_sub_half_of_small htop h
      have h2 := (truncToInt_sub_half_of_lt h).2
      omega

/-- Witness of C8 as amended: frame size 2048, 44100 Hz, note 69 at 440 Hz. -/
theorem C8_bin_range_ends_witness :
    (binRange (fun n : Int => (440 : ℚ) + ((n : ℚ) - 69)) 2048 44100 69 69).1
      = max 1 (round (((440 : ℚ) + (((69 : Int) : ℚ) - 69))
          * ((((2048 : Int) : ℚ)) / ((44100 : Int) : ℚ))) - 1) ∧
    (binRange (fun n : Int => (440 : ℚ) + ((n : ℚ) - 69)) 2048 44100 69 69).2
      = min (Int.tdiv 2048 2 - 1)
          (max 1 (round (((440 : ℚ) + (((69 : Int) : ℚ) - 69))
            * ((((2048 : Int) : ℚ)) / ((44100 : Int) : ℚ))))) :=
  C8_bin_range_ends (fun n : Int => (440 : ℚ) + ((n : ℚ) - 69)) 2048 44100 69 69
    (by decide)
    ⟨le_trans (by decide) (truncToInt_nonneg (by norm_num)),
      (truncToInt_lt (by decide) (by unfold INT_MAX; norm_num)).le⟩
    (by norm_num)
    (truncToInt_lt (by decide) (by unfold INT_MAX; norm_num))

end BinRangeClaims

/-! ## Options of the library -/

section OptionClaims

variable {R : Type} [LinearOrderedField R]

/-- A setter call leaves the frame size a positive power of two. -/
theorem applySetter_fft_size (o : waon_options R) (c : SetterCall R)
    (h : ∃ k : Nat, o.fft_size = 2 ^ k) : ∃ k : Nat, (applySetter o c).fft_size = 2 ^ k := by
  cases c with
  | set_fft_size size =>
    by_cases hg : size ≤ 0 ∨ Int.land size (size - 1) ≠ 0
    · simpa only [applySetter, callSetter, waon_options_set_fft_size, if_pos hg,
        Option.getD_some] using h
    · have hp : ∃ k : Nat, size = 2 ^ k := not_not.mp (mt (fft_size_guard_iff size).mpr hg)
      simp only [applySetter, callSetter, waon_options_set_fft_size, if_neg hg, Option.getD_some]
      split_ifs <;> exact hp
  | set_hop_size size =>
    simp only [applySetter, callSetter, waon_options_set_hop_size]
    split_ifs <;> exact h
  | set_window window =>
    simp only [applySetter, callSetter, waon_options_set_window]
    split_ifs <;> exact h
  | set_cutoff cutoff => exact h
  | set_note_range bottom top =>
    simp only [applySetter, callSetter, waon_options_set_note_range]
    split_ifs <;> exact h
  | set_phase_vocoder enable => exact h
  | set_drum_removal bins factor =>
    simp only [applySetter, callSetter, waon_options_set_drum_removal]
    split_ifs <;> exact h
  | set_octave_removal factor =>
    simp only [applySetter, callSetter, waon_options_set_octave_removal]
    split_ifs <;> exact h

theorem foldl_applySetter_fft_size (calls : List (SetterCall R)) :
    ∀ o : waon_options R, (∃ k : Nat, o.fft_size = 2 ^ k) →
      ∃ k : Nat, (calls.foldl applySetter o).fft_size = 2 ^ k := by
  induction calls with
  | nil => exact fun o h => h
  | cons c cs ih => exact fun o h => ih (applySetter o c) (applySetter_fft_size o c h)

/-- C10: `waon_options_set_fft_size(opts, size)` on an options value returns
`WAON_SUCCESS` and stores `size` as the frame size if and only if `size` is a
positive power of two; otherwise it returns `WAON_ERROR_INVALID_PARAM` and leaves
the options unchanged; so every options value built through the library (from
`waon_options_create` by setter calls) has a positive power-of-two frame size. -/
theorem C10_set_fft_size_power_of_two (o : waon_options R) (size : Int) :
    (((waon_options_set_fft_size (some o) size).1 = waon_error_t.WAON_SUCCESS ∧
        ∃ o', (waon_options_set_fft_size (some o) size).2 = some o' ∧ o'.fft_size = size)
      ↔ ∃ k : Nat, size = 2 ^ k) ∧
    ((¬ ∃ k : Nat, size = 2 ^ k) →
      waon_options_set_fft_size (some o) size
        = (waon_error_t.WAON_ERROR_INVALID_PARAM, some o)) ∧
    ∀ calls : List (SetterCall R), ∃ k : Nat, (builtOptions calls).fft_size = 2 ^ k := by
  refine ⟨⟨fun h => ?_, fun h => ?_⟩, fun h => ?_, fun calls => ?_⟩
  · by_contra hno
    have hg := (fft_size_guard_iff size).mpr hno
    have := h.1
    simp only [waon_options_set_fft_size, if_pos hg] at this
    exact absurd this (by decide)
  · have hg : ¬ (size ≤ 0 ∨ Int.land size (size - 1) ≠ 0) :=
      fun hg => (fft_size_guard_iff size).mp hg h
    simp only [waon_options_set_fft_size, if_neg hg, true_and]
    split_ifs <;> exact ⟨_, rfl, rfl⟩
  · have hg := (fft_size_guard_iff size).mpr h
    simp only [waon_options_set_fft_size, if_pos hg]
  · exact foldl_applySetter_fft_size calls waon_options_create ⟨11, by
      simp only [waon_options_create]
      norm_num⟩

end OptionClaims

/-! ## Options of the library: hop size and note range -/

section HopClaims

variable {R : Type}

/-- The setter of the frame size never changes the hop: the test for the default
hop compares it with a quarter of the size just stored. -/
theorem set_fft_size_hop (o : waon_options R) (size : Int) :
    ∃ o', (waon_options_set_fft_size (some o) size).2 = some o' ∧ o'.hop_size = o.hop_size := by
  by_cases hg : size ≤ 0 ∨ Int.land size (size - 1) ≠ 0
  · exact ⟨o, by simp only [waon_options_set_fft_size, if_pos hg], rfl⟩
  · by_cases hh : o.hop_size = Int.tdiv size 4
    · exact ⟨{ o with fft_size := size, hop_size := Int.tdiv size 4 },
        by simp only [waon_options_set_fft_size, if_neg hg, if_pos hh], hh.symm⟩
    · exact ⟨{ o with fft_size := size },
        by simp only [waon_options_set_fft_size, if_neg hg, if_neg hh], rfl⟩

/-- C11 (evaluation of the code at the failing input): on freshly created default
options (frame size 2048, hop 512, a quarter of the frame size) the call
`waon_options_set_fft_size(opts, 4096)` returns `WAON_SUCCESS` and stores 4096, but
the hop stays 512, whereas a quarter of the new size is 1024: the test
`hop_size == fft_size / 4` runs after `fft_size = size`. -/
theorem C11_default_hop_is_not_adjusted :
    (waon_options_create : waon_options ℚ).hop_size
        = Int.tdiv (waon_options_create : waon_options ℚ).fft_size 4 ∧
    (∃ o', waon_options_set_fft_size (some (waon_options_create : waon_options ℚ)) 4096
        = (waon_error_t.WAON_SUCCESS, some o') ∧ o'.fft_size = 4096 ∧ o'.hop_size = 512) ∧
    Int.tdiv 4096 4 = 1024 := by
  refine ⟨by decide, ⟨{ (waon_options_create : waon_options ℚ) with fft_size := 4096 }, ?_,
    rfl, rfl⟩, by decide⟩
  have hg : ¬ ((4096 : Int) ≤ 0 ∨ Int.land 4096 (4096 - 1) ≠ 0) := by decide
  have hh : ¬ ((waon_options_create : waon_options ℚ).hop_size = Int.tdiv 4096 4) := by decide
  simp only [waon_options_set_fft_size, if_neg hg, if_neg hh]

/-- C12 (counterexample): from the default options, `waon_options_set_hop_size(opts,
4096)` succeeds and leaves a hop of 4096 above the frame size 2048; and
`waon_options_set_fft_size(opts, 2)` followed by `waon_options_set_hop_size(opts, 0)`
leaves a hop of `2/4 = 0`. -/
theorem C12_hop_bounds_fail :
    (builtOptions [SetterCall.set_hop_size (4096 : Int)] : waon_options ℚ).hop_size = 4096 ∧
    (builtOptions [SetterCall.set_hop_size (4096 : Int)] : waon_options ℚ).fft_size = 2048 ∧
    (builtOptions [SetterCall.set_fft_size 2, SetterCall.set_hop_size 0] :
      waon_options ℚ).hop_size = 0 ∧
    ¬ ∀ calls : List (SetterCall ℚ),
      0 < (builtOptions calls).hop_size ∧ (builtOptions calls).hop_size ≤ (builtOptions calls).fft_size := by
  have h1 : (builtOptions [SetterCall.set_hop_size (4096 : Int)] : waon_options ℚ).hop_size
      = 4096 := by decide
  have h2 : (builtOptions [SetterCall.set_hop_size (4096 : Int)] : waon_options ℚ).fft_size
      = 2048 := by decide
  have h3 : (builtOptions [SetterCall.set_fft_size 2, SetterCall.set_hop_size 0] :
      waon_options ℚ).hop_size = 0 := by decide
  refine ⟨h1, h2, h3, fun h => ?_⟩
  have := (h [SetterCall.set_fft_size 2, SetterCall.set_hop_size 0]).1
  rw [h3] at this
  exact absurd this (by decide)

/-- A setter call keeps the hop non-negative, given a power-of-two frame size. -/
theorem applySetter_hop_nonneg [LinearOrderedField R] (o : waon_options R) (c : SetterCall R)
    (hf : ∃ k : Nat, o.fft_size = 2 ^ k) (h : 0 ≤ o.hop_size) :
    0 ≤ (applySetter o c).hop_size := by
  cases c with
  | set_fft_size size =>
    obtain ⟨o', ho', hh⟩ := set_fft_size_hop o size
    simp only [applySetter, callSetter, ho', Option.getD_some, hh]
    exact h
  | set_hop_size size =>
    obtain ⟨k, hk⟩ := hf
    have hq : 0 ≤ Int.tdiv o.fft_size 4 := by
      have : (0 : Int) ≤ o.fft_size := by rw [hk]; positivity
      rw [Int.tdiv_eq_ediv this (by decide)]
      omega
    simp only [applySetter, callSetter, waon_options_set_hop_size]
    split_ifs <;> simp only [Option.getD_some] <;> omega
  | set_window window =>
    simp only [applySetter, callSetter, waon_options_set_window]
    split_ifs <;> exact h
  | set_cutoff cutoff => exact h
  | set_note_range bottom top =>
    simp only [applySetter, callSetter, waon_options_set_note_range]
    split_ifs <;> exact h
  | set_phase_vocoder enable => exact h
  | set_drum_removal bins factor =>
    simp only [applySetter, callSetter, waon_options_set_drum_removal]
    split_ifs <;> exact h
  | set_octave_removal factor =>
    simp only [applySetter, callSetter, waon_options_set_octave_removal]
    split_ifs <;> exact h

/-- A setter call, other than one that sets a frame size of 1 or 2, keeps the frame
size at least 4 and the hop positive. -/
theorem applySetter_hop_pos [LinearOrderedField R] (o : waon_options R) (c : SetterCall R)
    (hc : ∀ size, c = SetterCall.set_fft_size size → size ≠ 1 ∧ size ≠ 2)
    (hf : 4 ≤ o.fft_size) (h : 0 < o.hop_size) :
    4 ≤ (applySetter o c).fft_size ∧ 0 < (applySetter o c).hop_size := by
  cases c with
  | set_fft_size size =>
    obtain ⟨o', ho', hh⟩ := set_fft_size_hop o size
    refine ⟨?_, by simp only [applySetter, callSetter, ho', Option.getD_some, hh]; exact h⟩
    by_cases hg : size ≤ 0 ∨ Int.land size (size - 1) ≠ 0
    · simpa only [applySetter, callSetter, waon_options_set_fft_size, if_pos hg,
        Option.getD_some] using hf
    · obtain ⟨k, hk⟩ : ∃ k : Nat, size = 2 ^ k :=
        not_not.mp (mt (fft_size_guard_iff size).mpr hg)
      have hne := hc size rfl
      have h4 : 4 ≤ size := by
        rcases k with _ | _ | k
        · simp only [pow_zero] at hk; omega
        · simp only [zero_add, pow_one] at hk; omega
        · rw [hk, pow_succ, pow_succ]
          have : (1 : Int) ≤ 2 ^ k := one_le_pow₀ (by decide)
          omega
      simp only [applySetter, callSetter, waon_options_set_fft_size, if_neg hg, Option.getD_some]
      split_ifs <;> exact h4
  | set_hop_size size =>
    have hq : 0 < Int.tdiv o.fft_size 4 := by
      rw [Int.tdiv_eq_ediv (by omega) (by decide)]
      omega
    simp only [applySetter, callSetter, waon_options_set_hop_size]
    split_ifs <;> simp only [Option.getD_some] <;> refine ⟨hf, ?_⟩ <;> omega
  | set_window window =>
    simp only [applySetter, callSetter, waon_options_set_window]
    split_ifs <;> exact ⟨hf, h⟩
  | set_cutoff cutoff => exact ⟨hf, h⟩
  | set_note_range bottom top =>
    simp only [applySetter, callSetter, waon_options_set_note_range]
    split_ifs <;> exact ⟨hf, h⟩
  | set_phase_vocoder enable => exact ⟨hf, h⟩
  | set_drum_removal bins factor =>
    simp only [applySetter, callSetter, waon_options_set_drum_removal]
    split_ifs <;> exact ⟨hf, h⟩
  | set_octave_removal factor =>
    simp only [applySetter, callSetter, waon_options_set_octave_removal]
    split_ifs <;> exact ⟨hf, h⟩

theorem foldl_applySetter_hop_nonneg [LinearOrderedField R] (calls : List (SetterCall R)) :
    ∀ o : waon_options R, (∃ k : Nat, o.fft_size = 2 ^ k) → 0 ≤ o.hop_size →
      0 ≤ (calls.foldl applySetter o).hop_size := by
  induction calls with
  | nil => exact fun o _ h => h
  | cons c cs ih =>
    exact fun o hf h => ih (applySetter o c) (applySetter_fft_size o c hf)
      (applySetter_hop_nonneg o c hf h)

theorem foldl_applySetter_hop_pos [LinearOrderedField R] (calls : List (SetterCall R)) :
    ∀ o : waon_options R,
      (∀ size, SetterCall.set_fft_size size ∈ calls → size ≠ 1 ∧ size ≠ 2) →
      4 ≤ o.fft_size → 0 < o.hop_size →
      0 < (calls.foldl applySetter o).hop_size := by
  induction calls with
  | nil => exact fun o _ _ h => h
  | cons c cs ih =>
    intro o hc hf h
    obtain ⟨hf', h'⟩ := applySetter_hop_pos o c
      (fun size e => hc size (by rw [e]; exact List.mem_cons_self _ _)) hf h
    exact ih (applySetter o c) (fun size hm => hc size (List.mem_cons_of_mem _ hm)) hf' h'

/-- C12 (as amended): every options value obtained from `waon_options_create` by a
sequence of library setter calls has `0 ≤ hop_size`, and `0 < hop_size` when no
call of the sequence sets a frame size of 1 or 2; no setter bounds the hop by the
frame size. -/
theorem C12_hop_nonneg [LinearOrderedField R] (calls : List (SetterCall R)) :
    0 ≤ (builtOptions calls).hop_size ∧
    ((∀ size, SetterCall.set_fft_size size ∈ calls → size ≠ 1 ∧ size ≠ 2) →
      0 < (builtOptions calls).hop_size) := by
  refine ⟨foldl_applySetter_hop_nonneg calls waon_options_create ⟨11, ?_⟩ ?_, fun hc =>
    foldl_applySetter_hop_pos calls waon_options_create hc ?_ ?_⟩
  · simp only [waon_options_create]; norm_num
  · simp only [waon_options_create]; decide
  · simp only [waon_options_create]; decide
  · simp only [waon_options_create]; decide

/-- C13: `waon_options_set_hop_size(opts, size)` on an options value rejects every
negative size with `WAON_ERROR_INVALID_PARAM` and leaves the options unchanged,
stores `fft_size / 4` (integer division) when `size` is 0, and stores `size` itself
when `size` is positive. -/
theorem C13_set_hop_size (o : waon_options R) (size : Int) :
    (size < 0 → waon_options_set_hop_size (some o) size
      = (waon_error_t.WAON_ERROR_INVALID_PARAM, some o)) ∧
    (size = 0 → waon_options_set_hop_size (some o) size
      = (waon_error_t.WAON_SUCCESS, some { o with hop_size := Int.tdiv o.fft_size 4 })) ∧
    (0 < size → waon_options_set_hop_size (some o) size
      = (waon_error_t.WAON_SUCCESS, some { o with hop_size := size })) := by
  refine ⟨fun h => ?_, fun h => ?_, fun h => ?_⟩
  · simp only [waon_options_set_hop_size, if_pos h]
  · have hn : ¬ size < 0 := by omega
    simp only [waon_options_set_hop_size, if_neg hn, if_pos h]
  · have hn : ¬ size < 0 := by omega
    have hz : ¬ size = 0 := by omega
    simp only [waon_options_set_hop_size, if_neg hn, if_neg hz]

/-- The guard of `waon_options_set_note_range` rejects exactly the ranges outside
`0 ≤ bottom ≤ top ≤ 127`. -/
theorem note_range_guard_iff (bottom top : Int) :
    (bottom < 0 ∨ bottom > 127 ∨ top < 0 ∨ top > 127 ∨ bottom > top)
      ↔ ¬ (0 ≤ bottom ∧ bottom ≤ top ∧ top ≤ 127) := by
  omega

/-- A setter call keeps the note range inside `0 ≤ bottom ≤ top ≤ 127`. -/
theorem applySetter_note_range [LinearOrderedField R] (o : waon_options R) (c : SetterCall R)
    (h : 0 ≤ o.note_bottom ∧ o.note_bottom ≤ o.note_top ∧ o.note_top ≤ 127) :
    0 ≤ (applySetter o c).note_bottom ∧
      (applySetter o c).note_bottom ≤ (applySetter o c).note_top ∧
      (applySetter o c).note_top ≤ 127 := by
  cases c with
  | set_fft_size size =>
    simp only [applySetter, callSetter, waon_options_set_fft_size]
    split_ifs <;> exact h
  | set_hop_size size =>
    simp only [applySetter, callSetter, waon_options_set_hop_size]
    split_ifs <;> exact h
  | set_window window =>
    simp only [applySetter, callSetter, waon_options_set_window]
    split_ifs <;> exact h
  | set_cutoff cutoff => exact h
  | set_note_range bottom top =>
    by_cases hg : bottom < 0 ∨ bottom > 127 ∨ top < 0 ∨ top > 127 ∨ bottom > top
    · simpa only [applySetter, callSetter, waon_options_set_note_range, if_pos hg,
        Option.getD_some] using h
    · simp only [applySetter, callSetter, waon_options_set_note_range, if_neg hg,
        Option.getD_some]
      omega
  | set_phase_vocoder enable => exact h
  | set_drum_removal bins factor =>
    simp only [applySetter, callSetter, waon_options_set_drum_removal]
    split_ifs <;> exact h
  | set_octave_removal factor =>
    simp only [applySetter, callSetter, waon_options_set_octave_removal]
    split_ifs <;> exact h

theorem foldl_applySetter_note_range [LinearOrderedField R] (calls : List (SetterCall R)) :
    ∀ o : waon_options R, (0 ≤ o.note_bottom ∧ o.note_bottom ≤ o.note_top ∧ o.note_top ≤ 127) →
      0 ≤ (calls.foldl applySetter o).note_bottom ∧
      (calls.foldl applySetter o).note_bottom ≤ (calls.foldl applySetter o).note_top ∧
      (calls.foldl applySetter o).note_top ≤ 127 := by
  induction calls with
  | nil => exact fun o h => h
  | cons c cs ih => exact fun o h => ih (applySetter o c) (applySetter_note_range o c h)

/-- C14: `waon_options_set_note_range(opts, bottom, top)` on an options value
succeeds, storing both notes, if and only if `0 ≤ bottom ≤ top ≤ 127`; otherwise it
returns `WAON_ERROR_INVALID_PARAM` and leaves the options unchanged; hence every
options value built through the library has `0 ≤ note_bottom ≤ note_top ≤ 127`. -/
theorem C14_set_note_range [LinearOrderedField R] (o : waon_options R) (bottom top : Int) :
    ((waon_options_set_note_range (some o) bottom top).1 = waon_error_t.WAON_SUCCESS
      ↔ (0 ≤ bottom ∧ bottom ≤ top ∧ top ≤ 127)) ∧
    ((0 ≤ bottom ∧ bottom ≤ top ∧ top ≤ 127) →
      waon_options_set_note_range (some o) bottom top
        = (waon_error_t.WAON_SUCCESS, some { o with note_bottom := bottom, note_top := top })) ∧
    (¬ (0 ≤ bottom ∧ bottom ≤ top ∧ top ≤ 127) →
      waon_options_set_note_range (some o) bottom top
        = (waon_error_t.WAON_ERROR_INVALID_PARAM, some o)) ∧
    ∀ calls : List (SetterCall R),
      0 ≤ (builtOptions calls).note_bottom ∧
      (builtOptions calls).note_bottom ≤ (builtOptions calls).note_top ∧
      (builtOptions calls).note_top ≤ 127 := by
  have hok : (0 ≤ bottom ∧ bottom ≤ top ∧ top ≤ 127) →
      waon_options_set_note_range (some o) bottom top
        = (waon_error_t.WAON_SUCCESS, some { o with note_bottom := bottom, note_top := top }) := by
    intro h
    have hg := mt (note_range_guard_iff bottom top).mp (not_not.mpr h)
    simp only [waon_options_set_note_range, if_neg hg]
  have hbad : ¬ (0 ≤ bottom ∧ bottom ≤ top ∧ top ≤ 127) →
      waon_options_set_note_range (some o) bottom top
        = (waon_error_t.WAON_ERROR_INVALID_PARAM, some o) := by
    intro h
    have hg := (note_range_guard_iff bottom top).mpr h
    simp only [waon_options_set_note_range, if_pos hg]
  refine ⟨⟨fun h => ?_, fun h => by rw [hok h]⟩, hok, hbad, fun calls => ?_⟩
  · by_contra hno
    rw [hbad hno] at h
    cases h
  · exact foldl_applySetter_note_range calls waon_options_create (by
      simp only [waon_options_create]
      decide)

end HopClaims

/-! ## Option validation of the command line and artifact suppression -/

section SuppressionClaims

theorem validateHop_fields {R : Type} (o : waon_options_t R) :
    (validateHop o).fft_size = o.fft_size ∧ (validateHop o).bottom_note = o.bottom_note ∧
    (validateHop o).top_note = o.top_note ∧
    (validateHop o).drum_removal_bins = o.drum_removal_bins ∧
    (validateHop o).drum_removal_factor = o.drum_removal_factor ∧
    (validateHop o).hop_size = (if o.hop_size = 0 then Int.tdiv o.fft_size 4 else o.hop_size) := by
  unfold validateHop
  split_ifs <;> exact ⟨rfl, rfl, rfl, rfl, rfl, rfl⟩

theorem validateWindow_fields {R : Type} (o : waon_options_t R) :
    (validateWindow o).fft_size = o.fft_size ∧ (validateWindow o).bottom_note = o.bottom_note ∧
    (validateWindow o).top_note = o.top_note ∧
    (validateWindow o).drum_removal_bins = o.drum_removal_bins ∧
    (validateWindow o).drum_removal_factor = o.drum_removal_factor ∧
    (validateWindow o).hop_size = o.hop_size := by
  unfold validateWindow
  split_ifs <;> exact ⟨rfl, rfl, rfl, rfl, rfl, rfl⟩

theorem validateDrumFactor_fields {R : Type} [LinearOrderedField R] (o : waon_options_t R) :
    (validateDrumFactor o).fft_size = o.fft_size ∧
    (validateDrumFactor o).bottom_note = o.bottom_note ∧
    (validateDrumFactor o).top_note = o.top_note ∧
    (validateDrumFactor o).drum_removal_bins = o.drum_removal_bins ∧
    (validateDrumFactor o).drum_removal_factor
      = (if o.drum_removal_bins = 0 then 0.0 else o.drum_removal_factor) ∧
    (validateDrumFactor o).hop_size = o.hop_size := by
  unfold validateDrumFactor
  split_ifs <;> exact ⟨rfl, rfl, rfl, rfl, rfl, rfl⟩

theorem validateDrumBins_fields {R : Type} [LinearOrderedField R] (o : waon_options_t R) :
    (validateDrumBins o).fft_size = o.fft_size ∧
    (validateDrumBins o).bottom_note = o.bottom_note ∧
    (validateDrumBins o).top_note = o.top_note ∧
    (validateDrumBins o).drum_removal_bins
      = (if o.drum_removal_factor = 0.0 then 0 else o.drum_removal_bins) ∧
    (validateDrumBins o).drum_removal_factor = o.drum_removal_factor ∧
    (validateDrumBins o).hop_size = o.hop_size := by
  unfold validateDrumBins
  split_ifs <;> exact ⟨rfl, rfl, rfl, rfl, rfl, rfl⟩

theorem validateOutput_fields {R : Type} (o : waon_options_t R) :
    (validateOutput o).fft_size = o.fft_size ∧ (validateOutput o).bottom_note = o.bottom_note ∧
    (validateOutput o).top_note = o.top_note ∧
    (validateOutput o).drum_removal_bins = o.drum_removal_bins ∧
    (validateOutput o).drum_removal_factor = o.drum_removal_factor ∧
    (validateOutput o).hop_size = o.hop_size := by
  unfold validateOutput
  split_ifs <;> exact ⟨rfl, rfl, rfl, rfl, rfl, rfl⟩

theorem validateInput_fields {R : Type} (o : waon_options_t R) :
    (validateInput o).fft_size = o.fft_size ∧ (validateInput o).bottom_note = o.bottom_note ∧
    (validateInput o).top_note = o.top_note ∧
    (validateInput o).drum_removal_bins = o.drum_removal_bins ∧
    (validateInput o).drum_removal_factor = o.drum_removal_factor ∧
    (validateInput o).hop_size = o.hop_size := by
  unfold validateInput
  split_ifs <;> exact ⟨rfl, rfl, rfl, rfl, rfl, rfl⟩

/-- The validation of the command line leaves frame size and note range as they
are, and the hop too unless it is zero. -/
theorem waon_options_validate_keeps {R : Type} [LinearOrderedField R] (opts : waon_options_t R) :
    (waon_options_validate opts).fft_size = opts.fft_size ∧
    (waon_options_validate opts).bottom_note = opts.bottom_note ∧
    (waon_options_validate opts).top_note = opts.top_note ∧
    (waon_options_validate opts).hop_size
      = (if opts.hop_size = 0 then Int.tdiv opts.fft_size 4 else opts.hop_size) := by
  unfold waon_options_validate
  obtain ⟨a1, a2, a3, _, _, a6⟩ := validateInput_fields
    (validateOutput (validateDrumBins (validateDrumFactor (validateWindow (validateHop opts)))))
  obtain ⟨b1, b2, b3, _, _, b6⟩ := validateOutput_fields
    (validateDrumBins (validateDrumFactor (validateWindow (validateHop opts))))
  obtain ⟨c1, c2, c3, _, _, c6⟩ := validateDrumBins_fields
    (validateDrumFactor (validateWindow (validateHop opts)))
  obtain ⟨d1, d2, d3, _, _, d6⟩ := validateDrumFactor_fields (validateWindow (validateHop opts))
  obtain ⟨e1, e2, e3, _, _, e6⟩ := validateWindow_fields (validateHop opts)
  obtain ⟨f1, f2, f3, _, _, f6⟩ := validateHop_fields opts
  exact ⟨by rw [a1, b1, c1, d1, e1, f1], by rw [a2, b2, c2, d2, e2, f2],
    by rw [a3, b3, c3, d3, e3, f3], by rw [a6, b6, c6, d6, e6, f6]⟩

/-- After the validation of the command line a zero drum-removal factor comes with
a zero bin radius. -/
theorem waon_options_validate_drum {R : Type} [LinearOrderedField R] (opts : waon_options_t R)
    (h : opts.drum_removal_factor = 0) :
    (waon_options_validate opts).drum_removal_bins = 0 ∧
    (waon_options_validate opts).drum_removal_factor = 0 := by
  unfold waon_options_validate
  obtain ⟨_, _, _, a4, a5, _⟩ := validateInput_fields
    (validateOutput (validateDrumBins (validateDrumFactor (validateWindow (validateHop opts)))))
  obtain ⟨_, _, _, b4, b5, _⟩ := validateOutput_fields
    (validateDrumBins (validateDrumFactor (validateWindow (validateHop opts))))
  obtain ⟨_, _, _, c4, c5, _⟩ := validateDrumBins_fields
    (validateDrumFactor (validateWindow (validateHop opts)))
  obtain ⟨_, _, _, d4, d5, _⟩ := validateDrumFactor_fields (validateWindow (validateHop opts))
  obtain ⟨_, _, _, e4, e5, _⟩ := validateWindow_fields (validateHop opts)
  obtain ⟨_, _, _, f4, f5, _⟩ := validateHop_fields opts
  have hfac : (validateDrumFactor (validateWindow (validateHop opts))).drum_removal_factor
      = 0 := by
    rw [d5, e5, f5, h]
    split_ifs <;> norm_num
  refine ⟨?_, by rw [a5, b5, c5, hfac]⟩
  rw [a4, b4, c4, hfac]
  norm_num

/-- C15 (evaluation of the code at the failing input): with frame size 1000 (not a
power of two), hop −5 and note range 80..40 (inverted) left by the parser, `main`
goes through `waon_options_validate` and on to its allocations with exactly these
values; and for every options value that asks for neither help nor version,
`main` reaches its allocations with the frame size and note range unchanged:
`waon_options_validate` returns nothing and rejects nothing. -/
theorem C15_validation_rejects_nothing :
    mainAfterParse
      ({ (waon_options_init : waon_options_t ℚ) with
          fft_size := 1000, hop_size := -5, bottom_note := 80, top_note := 40 })
      = MainStage.allocates 1000 (-5) 80 40 ∧
    ∀ opts : waon_options_t ℚ, opts.show_help = 0 → opts.show_version = 0 →
      mainAfterParse opts = MainStage.allocates opts.fft_size
        (if opts.hop_size = 0 then Int.tdiv opts.fft_size 4 else opts.hop_size)
        opts.bottom_note opts.top_note := by
  have hgen : ∀ opts : waon_options_t ℚ, opts.show_help = 0 → opts.show_version = 0 →
      mainAfterParse opts = MainStage.allocates opts.fft_size
        (if opts.hop_size = 0 then Int.tdiv opts.fft_size 4 else opts.hop_size)
        opts.bottom_note opts.top_note := by
    intro opts hh hv
    obtain ⟨e1, e2, e3, e4⟩ := waon_options_validate_keeps opts
    simp only [mainAfterParse, hh, hv, ne_eq, not_true_eq_false, if_false, e1, e2, e3, e4]
  refine ⟨?_, hgen⟩
  rw [hgen _ rfl rfl]
  rfl

/-- C16: a run configured with octave-removal factor 0 skips the octave pass, a run
configured with drum-removal bin radius 0 skips the drum pass, and with both the
power array handed to note detection is the array left by power extraction (phase
vocoder off) or by the vocoder correction (phase vocoder on). -/
theorem C16_zero_settings_skip_passes {R : Type} [LinearOrderedField R]
    (sqrt : R → R) (pi : R) (fuel : Nat)
    (psa : Int → (Int → R) → Int → R → (Int → R)) (pso : Int → (Int → R) → R → (Int → R))
    (len hop samplerate flag_phase psub_n : Int) (psub_f oct_f : R) (icnt : Int)
    (s : Spectral R) (p : Int → R) :
    artifactSuppress psa pso len psub_n psub_f 0 p
      = (if psub_n ≠ 0 then psa len p psub_n psub_f else p) ∧
    artifactSuppress psa pso len 0 psub_f oct_f p
      = (if oct_f ≠ 0 then pso len p oct_f else p) ∧
    artifactSuppress psa pso len 0 psub_f 0 p = p ∧
    ∀ out, analyseFrame sqrt pi fuel psa pso len hop samplerate flag_phase 0 psub_f 0 icnt s
        = some out →
      ∃ t, (if flag_phase = 0 then some s else phaseVocoder sqrt pi fuel len hop icnt s) = some t ∧
        out.2.power = t.p := by
  refine ⟨?_, ?_, ?_, fun out hout => ?_⟩
  · simp only [artifactSuppress, ne_eq, not_true_eq_false, if_false]
  · simp only [artifactSuppress, ne_eq, not_true_eq_false, if_false]
  · simp only [artifactSuppress, ne_eq, not_true_eq_false, if_false]
  · have hsup : ∀ q : Int → R, artifactSuppress psa pso len 0 psub_f 0 q = q := fun q => by
      simp only [artifactSuppress, ne_eq, not_true_eq_false, if_false]
    by_cases hflag : flag_phase = 0
    · simp only [analyseFrame, if_pos hflag, Option.map_some', hsup, Option.some.injEq] at hout
      exact ⟨s, by rw [if_pos hflag], by rw [← hout]⟩
    · simp only [analyseFrame, if_neg hflag, hsup] at hout
      cases ht : phaseVocoder sqrt pi fuel len hop icnt s with
      | none => rw [ht] at hout; cases hout
      | some t =>
        rw [ht] at hout
        simp only [Option.map_some', Option.some.injEq] at hout
        refine ⟨t, by rw [if_neg hflag], ?_⟩
        rw [← hout]
        exact (frequency_fold len samplerate (Int.tdiv len 2 + 1).toNat { t with p := t.p }).1

/-- C17: with drum-removal factor 0 the drum pass leaves every power array (an
array of non-negative reals) unchanged, whatever the bin radius. On the library
path the pass runs for a non-zero radius and returns its argument; on the
command-line path `waon_options_validate` has set the radius to 0, so the pass is
skipped. In both cases suppression gives what it gives with the drum pass off. -/
theorem C17_zero_factor_drum_pass
    (pso : Int → (Int → ℝ) → ℝ → (Int → ℝ)) (len psub_n : Int) (oct_f : ℝ) (p : Int → ℝ)
    (hp : ∀ i, 0 ≤ i → i ≤ Int.tdiv len 2 → 0 ≤ p i) :
    power_subtract_ave Real.sqrt len p psub_n 0 = p ∧
    artifactSuppress (power_subtract_ave Real.sqrt) pso len psub_n 0 oct_f p
      = artifactSuppress (power_subtract_ave Real.sqrt) pso len 0 0 oct_f p ∧
    ∀ (psa : Int → (Int → ℝ) → Int → ℝ → (Int → ℝ)) (opts : waon_options_t ℝ),
      opts.drum_removal_factor = 0 →
      (waon_options_validate opts).drum_removal_bins = 0 ∧
      (waon_options_validate opts).drum_removal_factor = 0 ∧
      artifactSuppress psa pso len (waon_options_validate opts).drum_removal_bins
          (waon_options_validate opts).drum_removal_factor oct_f p
        = artifactSuppress psa pso len 0 0 oct_f p := by
  have hpass : power_subtract_ave Real.sqrt len p psub_n 0 = p := by
    funext i
    by_cases hi : 0 ≤ i ∧ i ≤ Int.tdiv len 2
    · simp only [power_subtract_ave, if_pos hi, zero_mul, sub_zero]
      rw [max_eq_right (Real.sqrt_nonneg _), Real.sq_sqrt (hp i hi.1 hi.2)]
    · simp only [power_subtract_ave, if_neg hi]
  refine ⟨hpass, ?_, fun psa opts hf => ?_⟩
  · by_cases hn : psub_n = 0
    · rw [hn]
    · simp only [artifactSuppress, ne_eq, hn, not_false_eq_true, if_true, hpass,
        not_true_eq_false, if_false]
  · obtain ⟨hb, hfac⟩ := waon_options_validate_drum opts hf
    exact ⟨hb, hfac, by rw [hb, hfac]⟩

/-- Witness of C17: frame size 8, radius 3, the power array `i ↦ i²`. -/
theorem C17_zero_factor_drum_pass_witness :
    power_subtract_ave Real.sqrt 8 (fun i : Int => ((i : ℝ)) ^ 2) 3 0
      = (fun i : Int => ((i : ℝ)) ^ 2) ∧
    artifactSuppress (power_subtract_ave Real.sqrt) (fun _ q _ => q) 8 3 0 0
        (fun i : Int => ((i : ℝ)) ^ 2)
      = artifactSuppress (power_subtract_ave Real.sqrt) (fun _ q _ => q) 8 0 0 0
        (fun i : Int => ((i : ℝ)) ^ 2) ∧
    ∀ (psa : Int → (Int → ℝ) → Int → ℝ → (Int → ℝ)) (opts : waon_options_t ℝ),
      opts.drum_removal_factor = 0 →
      (waon_options_validate opts).drum_removal_bins = 0 ∧
      (waon_options_validate opts).drum_removal_factor = 0 ∧
      artifactSuppress psa (fun _ q _ => q) 8 (waon_options_validate opts).drum_removal_bins
          (waon_options_validate opts).drum_removal_factor 0 (fun i : Int => ((i : ℝ)) ^ 2)
        = artifactSuppress psa (fun _ q _ => q) 8 0 0 0 (fun i : Int => ((i : ℝ)) ^ 2) :=
  C17_zero_factor_drum_pass (fun _ q _ => q) 8 3 0 (fun i : Int => ((i : ℝ)) ^ 2)
    (fun _ _ _ => sq_nonneg _)

end SuppressionClaims

/-! ## The function `waon_transcribe_internal`: return codes and progress -/

section TranscribeClaims

variable {R : Type}

/-- When every allocation succeeds, the allocation stage acquires every buffer and
releases none. -/
theorem allocateBuffers_ok (failed : Resource → Bool) (hfail : ∀ res, failed res = false)
    (flag_phase : Int) :
    allocateBuffers failed flag_phase
      = (true, ([Resource.notes, Resource.left, Resource.right, Resource.x, Resource.y,
          Resource.p] ++ phaseArrays flag_phase ++ [Resource.pmidi]).map Event.acquire) := by
  simp only [allocateBuffers, acquired, hfail, Bool.false_eq_true, if_false, or_self,
    and_false, List.map_cons, List.map_nil, List.cons_append, List.nil_append,
    List.append_assoc, Bool.not_false, List.filter_true, List.map_append]

/-- The frame loop returns only with the source exhausted. -/
theorem frameLoop_exhausts [LinearOrderedField R] (len hop : Int) (hhop : 0 ≤ hop) :
    ∀ (fuel : Nat) (st fin : LoopState R), frameLoop len hop fuel st = some fin →
      fin.src.total - fin.src.pos = 0 := by
  intro fuel
  induction fuel with
  | zero =>
    intro st fin h
    simp only [frameLoop] at h
    cases h
  | succ f ih =>
    intro st fin h
    rw [frameLoop] at h
    by_cases hc : (shiftAndRefill len hop st.src st.buf).1 ≠ hop
    · rw [if_pos hc] at h
      simp only [Option.some.injEq] at h
      rw [← h]
      show (shiftAndRefill len hop st.src st.buf).2.1.total
        - (shiftAndRefill len hop st.src st.buf).2.1.pos = 0
      rw [shiftAndRefill] at hc ⊢
      rw [(sndfile_read_count _ _ _ _).1] at hc
      rw [(sndfile_read_count _ _ _ _).2.1, (sndfile_read_count _ _ _ _).2.2.1]
      omega
    · rw [if_neg hc] at h
      exact ih _ fin h

/-- The value returned is the error stored in the context. -/
theorem returnWith_code (ctx : waon_context) (e : waon_error_t) (events : List Event)
    (processed : List (Frame R)) (progress : List R) (src : Source R) (r : RunResult R)
    (h : returnWith ctx e events processed progress src = Outcome.returned r) :
    r.code = r.ctx.last_error ∧ r.code = e ∧ r.events = events ∧ r.processed = processed ∧
      r.progress = progress ∧ r.src = src := by
  simp only [returnWith, Outcome.returned.injEq] at h
  subst h
  exact ⟨rfl, rfl, rfl, rfl, rfl, rfl⟩

/-- The five ways the function can go once the options are fixed: wrong channel
count; a failed allocation; a short priming read; a division by zero
(`hop == 0`); or the frame loop, followed, if the loop returns, by the return of
`WAON_SUCCESS` with the frames processed. -/
theorem transcribeWith_cases [LinearOrderedField R] [FloorRing R] (fuel : Nat)
    (failed : Resource → Bool) (ctx : waon_context) (src : Source R) (samplerate : Int)
    (o : waon_options R) (ev0 : List Event) (b : Buffers R) (x : Int → R) :
    ((src.channels ≠ 2 ∧ src.channels ≠ 1) ∧
      transcribeWith fuel failed ctx src samplerate o ev0 b x
        = some (returnWith ctx waon_error_t.WAON_ERROR_FILE_FORMAT ev0 [] [] src)) ∨
    (¬ (src.channels ≠ 2 ∧ src.channels ≠ 1) ∧
      (allocateBuffers failed o.use_phase_vocoder).1 = false ∧
      transcribeWith fuel failed ctx src samplerate o ev0 b x
        = some (returnWith ctx waon_error_t.WAON_ERROR_MEMORY
            (ev0 ++ (allocateBuffers failed o.use_phase_vocoder).2) [] [] src)) ∨
    (¬ (src.channels ≠ 2 ∧ src.channels ≠ 1) ∧
      (allocateBuffers failed o.use_phase_vocoder).1 = true ∧
      (primingRead o.fft_size o.hop_size src b).1 = false ∧
      transcribeWith fuel failed ctx src samplerate o ev0 b x
        = some (returnWith ctx waon_error_t.WAON_ERROR_IO
            (ev0 ++ (allocateBuffers failed o.use_phase_vocoder).2
              ++ [Event.acquire Resource.plan] ++ cleanupEvents o.use_phase_vocoder)
            [] [] (primingRead o.fft_size o.hop_size src b).2.1)) ∨
    (¬ (src.channels ≠ 2 ∧ src.channels ≠ 1) ∧
      (allocateBuffers failed o.use_phase_vocoder).1 = true ∧
      (primingRead o.fft_size o.hop_size src b).1 = true ∧ o.hop_size = 0 ∧
      transcribeWith fuel failed ctx src samplerate o ev0 b x = some Outcome.divisionByZero) ∨
    (¬ (src.channels ≠ 2 ∧ src.channels ≠ 1) ∧
      (allocateBuffers failed o.use_phase_vocoder).1 = true ∧
      (primingRead o.fft_size o.hop_size src b).1 = true ∧ o.hop_size ≠ 0 ∧
      transcribeWith fuel failed ctx src samplerate o ev0 b x
        = (frameLoop o.fft_size o.hop_size fuel
              { src := (primingRead o.fft_size o.hop_size src b).2.1
                buf := (primingRead o.fft_size o.hop_size src b).2.2
                x := x, icnt := 0, processed := [] }).map
            fun st =>
              returnWith ctx waon_error_t.WAON_SUCCESS
                (ev0 ++ (allocateBuffers failed o.use_phase_vocoder).2
                  ++ [Event.acquire Resource.plan]
                  ++ postProcessing (R := R) samplerate o.hop_size
                  ++ cleanupEvents o.use_phase_vocoder)
                st.processed
                (if ctx.progress_callback then
                  st.processed.map (fun f => progressValue
                    (Int.tdiv src.frames o.hop_size) f.icnt)
                else [])
                st.src) := by
  by_cases hch : src.channels ≠ 2 ∧ src.channels ≠ 1
  · exact Or.inl ⟨hch, by simp only [transcribeWith, if_pos hch]⟩
  · by_cases ha : (allocateBuffers failed o.use_phase_vocoder).1 = false
    · exact Or.inr (Or.inl ⟨hch, ha, by simp only [transcribeWith, if_neg hch, if_pos ha]⟩)
    · have ha1 : (allocateBuffers failed o.use_phase_vocoder).1 = true := by simpa using ha
      by_cases hp : (primingRead o.fft_size o.hop_size src b).1 = false
      · exact Or.inr (Or.inr (Or.inl ⟨hch, ha1, hp, by
          simp only [transcribeWith, if_neg hch, if_neg ha, if_pos hp]⟩))
      · have hp1 : (primingRead o.fft_size o.hop_size src b).1 = true := by simpa using hp
        by_cases hz : o.hop_size = 0
        · exact Or.inr (Or.inr (Or.inr (Or.inl ⟨hch, ha1, hp1, hz, by
            simp only [transcribeWith, if_neg hch, if_neg ha, if_neg hp, if_pos hz]⟩)))
        · exact Or.inr (Or.inr (Or.inr (Or.inr ⟨hch, ha1, hp1, hz, by
            simp only [transcribeWith, if_neg hch, if_neg ha, if_neg hp, if_neg hz]⟩)))

/-- The options a call works with and the events that precede its channel check. -/
theorem transcribe_unfold [LinearOrderedField R] [FloorRing R] (fuel : Nat)
    (failed : Resource → Bool) (ctx : waon_context) (src : Source R) (samplerate : Int)
    (opts : Option (waon_options R)) (b : Buffers R) (x : Int → R) :
    (opts = none ∧ failed Resource.default_options = true ∧
      waon_transcribe_internal fuel failed ctx src samplerate opts b x
        = some (returnWith ctx waon_error_t.WAON_ERROR_MEMORY [] [] [] src)) ∨
    (∃ ev0 : List Event,
      (∀ e ∈ ev0, e = Event.acquire Resource.default_options
        ∨ e = Event.release Resource.default_options) ∧
      waon_transcribe_internal fuel failed ctx src samplerate opts b x
        = transcribeWith fuel failed ctx src samplerate (opts.getD waon_options_create)
            ev0 b x) := by
  cases opts with
  | some o =>
    exact Or.inr ⟨[], fun e he => absurd he (List.not_mem_nil e), rfl⟩
  | none =>
    by_cases hd : failed Resource.default_options = true
    · exact Or.inl ⟨rfl, hd, by simp only [waon_transcribe_internal, hd, if_true]⟩
    · refine Or.inr ⟨[Event.acquire Resource.default_options,
        Event.release Resource.default_options], fun e he => ?_, by
        simp only [waon_transcribe_internal, hd, Bool.false_eq_true, if_false,
          Option.getD_none]⟩
      simp only [List.mem_cons, List.mem_singleton, List.mem_nil_iff, or_false] at he
      exact he

/-- A priming read that finds fewer than `len - hop` samples is incomplete. -/
theorem primingRead_short (len hop : Int) (src : Source R) (b : Buffers R) (hne : hop ≠ len)
    (hshort : ((src.total - src.pos : Nat) : Int) < len - hop) :
    (primingRead len hop src b).1 = false := by
  have hc : (sndfile_read src b hop (len - hop)).1 ≠ len - hop := by
    rw [(sndfile_read_count _ _ _ _).1]
    omega
  simp only [primingRead, if_pos hne, hc, decide_False]

/-- A hop above the frame length asks the priming read for a negative count, which
no read delivers. -/
theorem primingRead_long_hop (len hop : Int) (src : Source R) (b : Buffers R) (h : len < hop) :
    (primingRead len hop src b).1 = false := by
  have hne : hop ≠ len := by omega
  have hc : (sndfile_read src b hop (len - hop)).1 ≠ len - hop := by
    rw [(sndfile_read_count _ _ _ _).1]
    omega
  simp only [primingRead, if_pos hne, hc, decide_False]

/-- A priming read that finds `len - hop` samples is complete and consumes them. -/
theorem primingRead_ok (len hop : Int) (src : Source R) (b : Buffers R) (hle : hop ≤ len)
    (henough : len - hop ≤ ((src.total - src.pos : Nat) : Int)) :
    (primingRead len hop src b).1 = true ∧
    (primingRead len hop src b).2.1.pos = src.pos + (len - hop).toNat ∧
    (primingRead len hop src b).2.1.total = src.total ∧
    (primingRead len hop src b).2.1.channels = src.channels ∧
    (primingRead len hop src b).2.1.left = src.left ∧
    (primingRead len hop src b).2.1.right = src.right := by
  by_cases hne : hop ≠ len
  · have hmin : min (len - hop).toNat (src.total - src.pos) = (len - hop).toNat := by omega
    have hc : (sndfile_read src b hop (len - hop)).1 = len - hop := by
      rw [(sndfile_read_count _ _ _ _).1, hmin]
      omega
    refine ⟨by simp only [primingRead, if_pos hne, hc, decide_True], ?_, ?_, ?_, ?_, ?_⟩
    · simp only [primingRead, if_pos hne, (sndfile_read_count _ _ _ _).2.1, hmin]
    · simp only [primingRead, if_pos hne, (sndfile_read_count _ _ _ _).2.2.1]
    · simp only [primingRead, if_pos hne, (sndfile_read_count _ _ _ _).2.2.2]
    · simp only [primingRead, if_pos hne, sndfile_read]
    · simp only [primingRead, if_pos hne, sndfile_read]
  · have he : hop = len := not_not.mp hne
    have hz : (len - hop).toNat = 0 := by omega
    simp only [primingRead, if_neg hne, hz, Nat.add_zero, and_self]

/-- Whatever the allocations do, a call that returns returns the error stored in
the context, and has given the callback no value unless it returns `WAON_SUCCESS`. -/
theorem transcribe_code [LinearOrderedField R] [FloorRing R] (fuel : Nat)
    (failed : Resource → Bool) (ctx : waon_context) (src : Source R) (samplerate : Int)
    (opts : Option (waon_options R)) (b : Buffers R) (x : Int → R) (r : RunResult R)
    (h : waon_transcribe_internal fuel failed ctx src samplerate opts b x
      = some (Outcome.returned r)) :
    r.code = r.ctx.last_error := by
  rcases transcribe_unfold fuel failed ctx src samplerate opts b x with ⟨_, _, e⟩ | ⟨ev0, _, e⟩
  · rw [e, Option.some.injEq] at h
    exact (returnWith_code _ _ _ _ _ _ r h).1
  · rw [e] at h
    rcases transcribeWith_cases fuel failed ctx src samplerate (opts.getD waon_options_create)
      ev0 b x with ⟨_, e1⟩ | ⟨_, _, e1⟩ | ⟨_, _, _, e1⟩ | ⟨_, _, _, _, e1⟩ | ⟨_, _, _, _, e1⟩
    · rw [e1, Option.some.injEq] at h
      exact (returnWith_code _ _ _ _ _ _ r h).1
    · rw [e1, Option.some.injEq] at h
      exact (returnWith_code _ _ _ _ _ _ r h).1
    · rw [e1, Option.some.injEq] at h
      exact (returnWith_code _ _ _ _ _ _ r h).1
    · rw [e1] at h
      cases h
    · rw [e1] at h
      obtain ⟨st, _, hst⟩ := Option.map_eq_some'.mp h
      exact (returnWith_code _ _ _ _ _ _ r hst).1

/-- C20 (counterexample): every allocation succeeds, the source is mono and holds 10
samples. With frame size 2 and hop 0 (as left by `waon_options_set_fft_size(opts, 2)`
and `waon_options_set_hop_size(opts, 0)`) the priming read is complete, and the call
divides by zero in `sfinfo->frames / hop` instead of returning `WAON_SUCCESS`. With
frame size 2048 and hop 4096 the priming read is asked for `len − hop = −2048`
samples and delivers 0, which is not shorter, yet the call returns `WAON_ERROR_IO`. -/
theorem C20_hop_outside_the_frame :
    (sndfile_read (rampSource 10) zeroBuffers 0 (2 - 0)).1 = 2 - 0 ∧
    (∀ fuel, waon_transcribe_internal fuel (fun _ => false) callbackContext (rampSource 10)
        44100 (some (optionsWith 2 0)) zeroBuffers (fun _ => 0)
      = some Outcome.divisionByZero) ∧
    ¬ ((sndfile_read (rampSource 10) zeroBuffers 4096 (2048 - 4096)).1 < 2048 - 4096) ∧
    (∀ fuel, ∃ r, waon_transcribe_internal fuel (fun _ => false) callbackContext
        (rampSource 10) 44100 (some (optionsWith 2048 4096)) zeroBuffers (fun _ => 0)
      = some (Outcome.returned r) ∧ r.code = waon_error_t.WAON_ERROR_IO) := by
  refine ⟨by decide, fun fuel => ?_, by decide, fun fuel => ?_⟩
  · rcases transcribeWith_cases fuel (fun _ => false) callbackContext (rampSource 10) 44100
      (optionsWith 2 0) [] zeroBuffers (fun _ => 0)
      with ⟨h, _⟩ | ⟨_, h, _⟩ | ⟨_, _, h, _⟩ | ⟨_, _, _, _, e⟩ | ⟨_, _, _, h, _⟩
    · exact absurd h (by decide)
    · rw [allocateBuffers_ok _ (fun _ => rfl)] at h
      cases h
    · exact absurd h (by decide)
    · exact e
    · exact absurd rfl h
  · rcases transcribeWith_cases fuel (fun _ => false) callbackContext (rampSource 10) 44100
      (optionsWith 2048 4096) [] zeroBuffers (fun _ => 0)
      with ⟨h, _⟩ | ⟨_, h, _⟩ | ⟨_, _, _, e⟩ | ⟨_, _, h, _⟩ | ⟨_, _, h, _⟩
    · exact absurd h (by decide)
    · rw [allocateBuffers_ok _ (fun _ => rfl)] at h
      cases h
    · exact ⟨_, e, rfl⟩
    · rw [primingRead_long_hop _ _ _ _ (by decide)] at h
      cases h
    · rw [primingRead_long_hop _ _ _ _ (by decide)] at h
      cases h

/-- C20 (as amended): in every call of `waon_transcribe_internal` in which all
allocations succeed, a source with a channel count other than 1 or 2 yields
`WAON_ERROR_FILE_FORMAT` before any buffer is allocated; a priming read that finds
fewer than `len − hop` samples yields `WAON_ERROR_IO` with no frame processed, no
post-processing and no MIDI output; in every other case with `1 ≤ hop ≤ len` the
loop ends (for every fuel from some bound on) with the source exhausted and the
result is `WAON_SUCCESS`, after the MIDI output; the code returned always equals
the last error of the context. -/
theorem C20_return_codes [LinearOrderedField R] [FloorRing R]
    (failed : Resource → Bool) (ctx : waon_context) (src : Source R) (samplerate : Int)
    (opts : Option (waon_options R)) (b : Buffers R) (x : Int → R)
    (hfail : ∀ res, failed res = false) :
    ((src.channels ≠ 2 ∧ src.channels ≠ 1) → ∀ fuel, ∃ r,
      waon_transcribe_internal fuel failed ctx src samplerate opts b x
        = some (Outcome.returned r) ∧
      r.code = waon_error_t.WAON_ERROR_FILE_FORMAT ∧
      ∀ res, res ≠ Resource.default_options → Event.acquire res ∉ r.events) ∧
    (¬ (src.channels ≠ 2 ∧ src.channels ≠ 1) →
      (opts.getD waon_options_create).hop_size ≠ (opts.getD waon_options_create).fft_size →
      ((src.total - src.pos : Nat) : Int)
        < (opts.getD waon_options_create).fft_size - (opts.getD waon_options_create).hop_size →
      ∀ fuel, ∃ r,
        waon_transcribe_internal fuel failed ctx src samplerate opts b x
          = some (Outcome.returned r) ∧
        r.code = waon_error_t.WAON_ERROR_IO ∧ r.processed = [] ∧
        ∀ e ∈ r.events, ∃ res, e = Event.acquire res ∨ e = Event.release res) ∧
    (¬ (src.channels ≠ 2 ∧ src.channels ≠ 1) →
      1 ≤ (opts.getD waon_options_create).hop_size →
      (opts.getD waon_options_create).hop_size ≤ (opts.getD waon_options_create).fft_size →
      (opts.getD waon_options_create).fft_size - (opts.getD waon_options_create).hop_size
        ≤ ((src.total - src.pos : Nat) : Int) →
      ∃ F : Nat, ∀ fuel, F ≤ fuel → ∃ r,
        waon_transcribe_internal fuel failed ctx src samplerate opts b x
          = some (Outcome.returned r) ∧
        r.code = waon_error_t.WAON_SUCCESS ∧ r.src.total - r.src.pos = 0 ∧
        Event.WAON_notes_output_midi (truncToInt ((0.5 : R) * (samplerate : R)
          / ((opts.getD waon_options_create).hop_size : R))) ∈ r.events) ∧
    (∀ fuel r, waon_transcribe_internal fuel failed ctx src samplerate opts b x
        = some (Outcome.returned r) → r.code = r.ctx.last_error) := by
  have hnd : ¬ (failed Resource.default_options = true) := by rw [hfail]; decide
  have halloc := allocateBuffers_ok failed hfail (opts.getD waon_options_create).use_phase_vocoder
  have hacq : ∀ rs : List Resource, ∀ e ∈ rs.map Event.acquire,
      ∃ res, e = Event.acquire res ∨ e = Event.release res := by
    intro rs e he
    obtain ⟨res, _, rfl⟩ := List.mem_map.mp he
    exact ⟨res, Or.inl rfl⟩
  have hrel : ∀ e ∈ cleanupEvents (opts.getD waon_options_create).use_phase_vocoder,
      ∃ res, e = Event.acquire res ∨ e = Event.release res := by
    intro e he
    simp only [cleanupEvents, List.mem_append, List.mem_cons, List.mem_singleton,
      List.mem_nil_iff, or_false, List.mem_map] at he
    rcases he with ((h | h | h | h | h | h | h) | ⟨res, _, h⟩) | h
    all_goals first | exact ⟨_, Or.inr h⟩ | exact ⟨_, Or.inr h.symm⟩
  refine ⟨fun hch fuel => ?_, fun hch hne hshort fuel => ?_, fun hch h1 h2 henough => ?_,
    fun fuel r h => transcribe_code fuel failed ctx src samplerate opts b x r h⟩
  · rcases transcribe_unfold fuel failed ctx src samplerate opts b x with
      ⟨_, hd, _⟩ | ⟨ev0, hev0, e⟩
    · exact absurd hd hnd
    · rcases transcribeWith_cases fuel failed ctx src samplerate
        (opts.getD waon_options_create) ev0 b x with
        ⟨_, e1⟩ | ⟨h, _⟩ | ⟨h, _⟩ | ⟨h, _⟩ | ⟨h, _⟩
      · refine ⟨_, by rw [e, e1]; rfl, rfl, fun res hres hmem => ?_⟩
        rcases hev0 _ hmem with h | h
        · exact hres (Event.acquire.inj h)
        · cases h
      all_goals exact absurd hch h
  · rcases transcribe_unfold fuel failed ctx src samplerate opts b x with
      ⟨_, hd, _⟩ | ⟨ev0, hev0, e⟩
    · exact absurd hd hnd
    · have hp := primingRead_short _ _ src b hne hshort
      rcases transcribeWith_cases fuel failed ctx src samplerate
        (opts.getD waon_options_create) ev0 b x with
        ⟨h, _⟩ | ⟨_, h, _⟩ | ⟨_, _, _, e1⟩ | ⟨_, _, h, _⟩ | ⟨_, _, h, _⟩
      · exact absurd h hch
      · rw [halloc] at h
        cases h
      · refine ⟨_, by rw [e, e1]; rfl, rfl, rfl, fun ev hev => ?_⟩
        rw [halloc] at hev
        simp only [List.mem_append, List.mem_singleton] at hev
        rcases hev with ((hev | hev) | hev) | hev
        · rcases hev0 ev hev with h | h
          · exact ⟨_, Or.inl h⟩
          · exact ⟨_, Or.inr h⟩
        · exact hacq _ ev hev
        · exact ⟨_, Or.inl hev⟩
        · exact hrel ev hev
      · rw [hp] at h
        cases h
      · rw [hp] at h
        cases h
  · obtain ⟨hp1, hpos, htot, _⟩ := primingRead_ok (opts.getD waon_options_create).fft_size
      (opts.getD waon_options_create).hop_size src b h2 henough
    obtain ⟨hn, hhn⟩ : ∃ hn : Nat, (opts.getD waon_options_create).hop_size = (hn : Int) :=
      ⟨(opts.getD waon_options_create).hop_size.toNat, by omega⟩
    refine ⟨((primingRead (opts.getD waon_options_create).fft_size
        (opts.getD waon_options_create).hop_size src b).2.1.total
      - (primingRead (opts.getD waon_options_create).fft_size
        (opts.getD waon_options_create).hop_size src b).2.1.pos) / hn + 1, fun fuel hfuel => ?_⟩
    rcases transcribe_unfold fuel failed ctx src samplerate opts b x with
      ⟨_, hd, _⟩ | ⟨ev0, hev0, e⟩
    · exact absurd hd hnd
    · rcases transcribeWith_cases fuel failed ctx src samplerate
        (opts.getD waon_options_create) ev0 b x with
        ⟨h, _⟩ | ⟨_, h, _⟩ | ⟨_, _, h, _⟩ | ⟨_, _, _, h, _⟩ | ⟨_, _, _, _, e1⟩
      · exact absurd h hch
      · rw [halloc] at h
        cases h
      · rw [hp1] at h
        cases h
      · omega
      · obtain ⟨fin, hfin, _⟩ := frameLoop_count (opts.getD waon_options_create).fft_size hn
          (by omega) _
          { src := (primingRead (opts.getD waon_options_create).fft_size
              (opts.getD waon_options_create).hop_size src b).2.1
            buf := (primingRead (opts.getD waon_options_create).fft_size
              (opts.getD waon_options_create).hop_size src b).2.2
            x := x, icnt := 0, processed := [] } fuel rfl (Nat.lt_of_succ_le hfuel)
        rw [← hhn] at hfin
        have hex := frameLoop_exhausts (opts.getD waon_options_create).fft_size
          (opts.getD waon_options_create).hop_size (by omega) fuel _ fin hfin
        refine ⟨_, by rw [e, e1, hfin]; rfl, rfl, hex, ?_⟩
        show _ ∈ ev0 ++ _ ++ _ ++ postProcessing (R := R) samplerate _ ++ _
        simp only [postProcessing, List.mem_append, List.mem_cons, List.mem_singleton,
          true_or, or_true]

/-- Witness of C20 as amended: every allocation succeeds, a mono source of 9
samples, the default options with frame size 4 and hop 3. -/
theorem C20_return_codes_witness :
    ∃ F : Nat, ∀ fuel, F ≤ fuel → ∃ r,
      waon_transcribe_internal fuel (fun _ => false) callbackContext (rampSource 9) 44100
          (some (optionsWith 4 3)) zeroBuffers (fun _ => 0)
        = some (Outcome.returned r) ∧
      r.code = waon_error_t.WAON_SUCCESS ∧ r.src.total - r.src.pos = 0 ∧
      Event.WAON_notes_output_midi (truncToInt ((0.5 : ℚ) * ((44100 : Int) : ℚ)
        / ((3 : Int) : ℚ))) ∈ r.events :=
  (C20_return_codes (fun _ => false) callbackContext (rampSource 9) 44100
    (some (optionsWith 4 3)) zeroBuffers (fun _ => 0) (fun _ => rfl)).2.2.1
    (by decide) (by decide) (by decide) (by decide)

end TranscribeClaims

/-! ## Determinism of the power sequence -/

section Determinism

variable {R : Type}

/-- A loop that assigns `g i` to cell `i` for `i = 0, …, m−1`. -/
theorem fold_update (g : Int → R) (m : Nat) (x0 : Int → R) (i : Int) :
    ((List.range m).foldl (fun acc (k : Nat) => Function.update acc (k : Int) (g k)) x0) i
      = (if 0 ≤ i ∧ i < m then g i else x0 i) := by
  induction m with
  | zero =>
    have : ¬ (0 ≤ i ∧ i < (0 : Int)) := by omega
    simp [this]
  | succ m ih =>
    rw [List.range_succ, List.foldl_append]
    simp only [List.foldl_cons, List.foldl_nil]
    by_cases hi : i = (m : Int)
    · subst hi
      have hin : (0 : Int) ≤ (m : Int) ∧ (m : Int) < ((m + 1 : Nat) : Int) := by omega
      rw [Function.update_same, if_pos hin]
    · have hiff : (0 ≤ i ∧ i < ((m + 1 : Nat) : Int)) ↔ (0 ≤ i ∧ i < (m : Int)) := by omega
      rw [Function.update_noteq hi, ih]
      simp only [hiff]

/-- The table `x[]` set for the FFT: the mixdown in the cells `0 .. len−1`, the old
contents elsewhere. -/
theorem mixdown_apply [LinearOrderedField R] (channels len : Int) (b : Buffers R)
    (x0 : Int → R) (i : Int) :
    mixdown channels len b x0 i
      = (if 0 ≤ i ∧ i < len then
          (if channels = 2 then 0.5 * (b.left i + b.right i) else b.left i)
        else x0 i) := by
  have hbody : (fun (acc : Int → R) (k : Nat) =>
        if channels = 2 then Function.update acc (k : Int) (0.5 * (b.left k + b.right k))
        else Function.update acc (k : Int) (b.left k))
      = (fun (acc : Int → R) (k : Nat) => Function.update acc (k : Int)
          ((fun j : Int => if channels = 2 then 0.5 * (b.left j + b.right j) else b.left j) k)) := by
    funext acc k
    split_ifs <;> rfl
  have h := fold_update
    (fun j : Int => if channels = 2 then 0.5 * (b.left j + b.right j) else b.left j)
    len.toNat x0 i
  have hiff : (0 ≤ i ∧ i < ((len.toNat : Nat) : Int)) ↔ (0 ≤ i ∧ i < len) := by omega
  simp only [hiff] at h
  rw [← h]
  simp only [mixdown, forLoop, hbody]

/-- The history arrays after a shift-and-refill step, cell by cell. -/
theorem shiftAndRefill_apply (len hop : Int) (hhop : 0 ≤ hop) (src : Source R)
    (b : Buffers R) (i : Int) :
    (shiftAndRefill len hop src b).2.2.left i
      = (if len - hop ≤ i
            ∧ i < len - hop + ((min hop.toNat (src.total - src.pos) : Nat) : Int) then
          src.left (src.pos + (i - (len - hop)).toNat)
        else if 0 ≤ i ∧ i < len - hop then b.left (i + hop) else b.left i) ∧
    (shiftAndRefill len hop src b).2.2.right i
      = (if src.channels = 2 then
          (if len - hop ≤ i
              ∧ i < len - hop + ((min hop.toNat (src.total - src.pos) : Nat) : Int) then
            src.right (src.pos + (i - (len - hop)).toNat)
          else if 0 ≤ i ∧ i < len - hop then b.right (i + hop) else b.right i)
        else b.right i) := by
  constructor
  · simp only [shiftAndRefill, sndfile_read]
    rw [shiftBuffers_left _ _ _ hhop]
  · simp only [shiftAndRefill, sndfile_read]
    by_cases hc : src.channels = 2
    · simp only [if_pos hc]
      rw [shiftBuffers_right _ _ _ hhop]
      simp only [hc, true_and]
    · simp only [if_neg hc]
      rw [shiftBuffers_right _ _ _ hhop]
      simp only [hc, false_and, if_false]

/-- After a shift-and-refill step with a full read, two runs whose history arrays
agreed in the cells `hop .. len−1` agree in the cells `0 .. len−1`. -/
theorem shiftAndRefill_agree (len hop : Int) (src : Source R) (b b' : Buffers R)
    (hfull : (shiftAndRefill len hop src b).1 = hop)
    (hl : AgreeOn hop len b.left b'.left)
    (hr : src.channels = 2 → AgreeOn hop len b.right b'.right) :
    AgreeOn 0 len (shiftAndRefill len hop src b).2.2.left
      (shiftAndRefill len hop src b').2.2.left ∧
    (src.channels = 2 → AgreeOn 0 len (shiftAndRefill len hop src b).2.2.right
      (shiftAndRefill len hop src b').2.2.right) := by
  have hcount : ((min hop.toNat (src.total - src.pos) : Nat) : Int) = hop := by
    rw [shiftAndRefill, (sndfile_read_count _ _ _ _).1] at hfull
    exact hfull
  have hhop : 0 ≤ hop := by omega
  constructor
  · intro i h0 h1
    rw [(shiftAndRefill_apply len hop hhop src b i).1,
      (shiftAndRefill_apply len hop hhop src b' i).1, hcount]
    by_cases hin : len - hop ≤ i ∧ i < len - hop + hop
    · rw [if_pos hin, if_pos hin]
    · have hlow : 0 ≤ i ∧ i < len - hop := by omega
      rw [if_neg hin, if_neg hin, if_pos hlow, if_pos hlow]
      exact hl (i + hop) (by omega) (by omega)
  · intro hc i h0 h1
    rw [(shiftAndRefill_apply len hop hhop src b i).2,
      (shiftAndRefill_apply len hop hhop src b' i).2, hcount, if_pos hc, if_pos hc]
    by_cases hin : len - hop ≤ i ∧ i < len - hop + hop
    · rw [if_pos hin, if_pos hin]
    · have hlow : 0 ≤ i ∧ i < len - hop := by omega
      rw [if_neg hin, if_neg hin, if_pos hlow, if_pos hlow]
      exact hr hc (i + hop) (by omega) (by omega)

theorem FramesAgree_append (len : Int) (fs fs' gs gs' : List (Frame R))
    (h1 : FramesAgree len fs fs') (h2 : FramesAgree len gs gs') :
    FramesAgree len (fs ++ gs) (fs' ++ gs') :=
  List.rel_append h1 h2

/-- Two runs of the frame loop on the same source whose history arrays agree in the
cells `hop .. len−1` either both run out of fuel or both return, with the same
counters and the same tables `x[0 .. len−1]`. -/
theorem frameLoop_agree [LinearOrderedField R] (len hop : Int) :
    ∀ (fuel : Nat) (st st' : LoopState R), st.src = st'.src → st.icnt = st'.icnt →
      AgreeOn hop len st.buf.left st'.buf.left →
      (st.src.channels = 2 → AgreeOn hop len st.buf.right st'.buf.right) →
      FramesAgree len st.processed st'.processed →
      (frameLoop len hop fuel st = none ∧ frameLoop len hop fuel st' = none) ∨
      (∃ fin fin', frameLoop len hop fuel st = some fin ∧ frameLoop len hop fuel st' = some fin' ∧
        FramesAgree len fin.processed fin'.processed) := by
  intro fuel
  induction fuel with
  | zero => exact fun st st' _ _ _ _ _ => Or.inl ⟨rfl, rfl⟩
  | succ f ih =>
    intro st st' hsrc hicnt hl hr hpr
    have hsame1 : (shiftAndRefill len hop st'.src st'.buf).1
        = (shiftAndRefill len hop st.src st.buf).1 := by rw [hsrc]; rfl
    have hsame2 : (shiftAndRefill len hop st'.src st'.buf).2.1
        = (shiftAndRefill len hop st.src st.buf).2.1 := by rw [hsrc]; rfl
    by_cases hc : (shiftAndRefill len hop st.src st.buf).1 ≠ hop
    · have hc' : (shiftAndRefill len hop st'.src st'.buf).1 ≠ hop := by rw [hsame1]; exact hc
      exact Or.inr ⟨{ st with src := (shiftAndRefill len hop st.src st.buf).2.1,
                              buf := (shiftAndRefill len hop st.src st.buf).2.2 },
        { st' with src := (shiftAndRefill len hop st'.src st'.buf).2.1,
                   buf := (shiftAndRefill len hop st'.src st'.buf).2.2 },
        by rw [frameLoop, if_pos hc], by rw [frameLoop, if_pos hc'], hpr⟩
    · have hfull : (shiftAndRefill len hop st.src st.buf).1 = hop := not_not.mp hc
      obtain ⟨hl2, hr2⟩ := shiftAndRefill_agree len hop st.src st.buf st'.buf hfull hl hr
      have hhop : 0 ≤ hop := by
        rw [shiftAndRefill, (sndfile_read_count _ _ _ _).1] at hfull
        omega
      have hch : (shiftAndRefill len hop st.src st.buf).2.1.channels = st.src.channels := by
        rw [shiftAndRefill, (sndfile_read_count _ _ _ _).2.2.2]
      have hx : AgreeOn 0 len
          (mixdown (shiftAndRefill len hop st.src st.buf).2.1.channels len
            (shiftAndRefill len hop st.src st.buf).2.2 st.x)
          (mixdown (shiftAndRefill len hop st.src st.buf).2.1.channels len
            (shiftAndRefill len hop st.src st'.buf).2.2 st'.x) := by
        intro i h0 h1
        have hin : 0 ≤ i ∧ i < len := ⟨h0, h1⟩
        simp only [mixdown_apply, if_pos hin]
        by_cases h2 : (shiftAndRefill len hop st.src st.buf).2.1.channels = 2
        · simp only [if_pos h2, hl2 i h0 h1, hr2 (by rw [← hch]; exact h2) i h0 h1]
        · simp only [if_neg h2, hl2 i h0 h1]
      have hrec := ih
        { src := (shiftAndRefill len hop st.src st.buf).2.1
          buf := (shiftAndRefill len hop st.src st.buf).2.2
          x := mixdown (shiftAndRefill len hop st.src st.buf).2.1.channels len
            (shiftAndRefill len hop st.src st.buf).2.2 st.x
          icnt := st.icnt + 1
          processed := st.processed ++
            [{ icnt := st.icnt
               x := mixdown (shiftAndRefill len hop st.src st.buf).2.1.channels len
                (shiftAndRefill len hop st.src st.buf).2.2 st.x }] }
        { src := (shiftAndRefill len hop st.src st.buf).2.1
          buf := (shiftAndRefill len hop st.src st'.buf).2.2
          x := mixdown (shiftAndRefill len hop st.src st.buf).2.1.channels len
            (shiftAndRefill len hop st.src st'.buf).2.2 st'.x
          icnt := st'.icnt + 1
          processed := st'.processed ++
            [{ icnt := st'.icnt
               x := mixdown (shiftAndRefill len hop st.src st.buf).2.1.channels len
                (shiftAndRefill len hop st.src st'.buf).2.2 st'.x }] }
        rfl (by show st.icnt + 1 = st'.icnt + 1; rw [hicnt])
        (fun i h0 h1 => hl2 i (by omega) h1)
        (fun h2 i h0 h1 => hr2 (by rw [← hch]; exact h2) i (by omega) h1)
        (FramesAgree_append len _ _ _ _ hpr
          (List.Forall₂.cons ⟨hicnt, hx⟩ List.Forall₂.nil))
      have e1 : frameLoop len hop (f + 1) st = frameLoop len hop f
          { src := (shiftAndRefill len hop st.src st.buf).2.1
            buf := (shiftAndRefill len hop st.src st.buf).2.2
            x := mixdown (shiftAndRefill len hop st.src st.buf).2.1.channels len
              (shiftAndRefill len hop st.src st.buf).2.2 st.x
            icnt := st.icnt + 1
            processed := st.processed ++
              [{ icnt := st.icnt
                 x := mixdown (shiftAndRefill len hop st.src st.buf).2.1.channels len
                  (shiftAndRefill len hop st.src st.buf).2.2 st.x }] } := by
        rw [frameLoop, if_neg hc]
      have e2 : frameLoop len hop (f + 1) st' = frameLoop len hop f
          { src := (shiftAndRefill len hop st.src st.buf).2.1
            buf := (shiftAndRefill len hop st.src st'.buf).2.2
            x := mixdown (shiftAndRefill len hop st.src st.buf).2.1.channels len
              (shiftAndRefill len hop st.src st'.buf).2.2 st'.x
            icnt := st'.icnt + 1
            processed := st'.processed ++
              [{ icnt := st'.icnt
                 x := mixdown (shiftAndRefill len hop st.src st.buf).2.1.channels len
                  (shiftAndRefill len hop st.src st'.buf).2.2 st'.x }] } := by
        rw [frameLoop, if_neg (by rw [hsame1]; exact hc)]
        simp only [← hsrc]
        rfl
      rw [e1, e2]
      exact hrec

/-- Two runs of a loop whose body may fail stay related when every round keeps
them related. -/
theorem foldlM_rel {S : Type} (Rel : S → S → Prop) (body : S → Nat → Option S) :
    ∀ (l : List Nat),
      (∀ s s' k, k ∈ l → Rel s s' →
        (body s k = none ∧ body s' k = none) ∨
        ∃ t t', body s k = some t ∧ body s' k = some t' ∧ Rel t t') →
      ∀ s s', Rel s s' →
        (l.foldlM body s = none ∧ l.foldlM body s' = none) ∨
        ∃ t t', l.foldlM body s = some t ∧ l.foldlM body s' = some t' ∧ Rel t t' := by
  intro l
  induction l with
  | nil =>
    intro _ s s' h
    exact Or.inr ⟨s, s', rfl, rfl, h⟩
  | cons a l ih =>
    intro hstep s s' h
    rcases hstep s s' a (List.mem_cons_self a l) h with ⟨h1, h2⟩ | ⟨t, t', h1, h2, h3⟩
    · left
      simp only [List.foldlM_cons, h1, h2, Option.bind_eq_bind, Option.none_bind, and_self]
    · have hrec := ih (fun s s' k hk => hstep s s' k (List.mem_cons_of_mem a hk)) t t' h3
      simp only [List.foldlM_cons, h1, h2, Option.bind_eq_bind, Option.some_bind]
      exact hrec

theorem steadyBin_none [LinearOrderedField R] (sqrt : R → R) (pi : R) (fuel : Nat)
    (len hop : Int) (t : Spectral R) (i : Int)
    (hw : wrapPhase pi fuel (t.ph1 i - t.ph0 i - 2 * pi * (i : R) / (len : R) * (hop : R))
      = none) :
    steadyBin sqrt pi fuel len hop t i = none := by
  simp only [steadyBin, Function.update_same, hw, Option.map_none']

/-- One round of the steady loop on two states with the same `p` and `ph1` and the
same `ph0[0 .. m−1]`: both fail or both succeed, with the same `p` and `ph1` and the
same `ph0[0 .. m−1]` again. -/
theorem steadyBin_agree [LinearOrderedField R] (sqrt : R → R) (pi : R) (fuel : Nat)
    (len hop m : Int) (s s' : Spectral R) (i : Int) (h0 : 0 ≤ i) (h1 : i < m)
    (h : s.p = s'.p ∧ s.ph1 = s'.ph1 ∧ AgreeOn 0 m s.ph0 s'.ph0) :
    (steadyBin sqrt pi fuel len hop s i = none ∧ steadyBin sqrt pi fuel len hop s' i = none) ∨
    ∃ t t', steadyBin sqrt pi fuel len hop s i = some t ∧
      steadyBin sqrt pi fuel len hop s' i = some t' ∧
      (t.p = t'.p ∧ t.ph1 = t'.ph1 ∧ AgreeOn 0 m t.ph0 t'.ph0) := by
  obtain ⟨hp, hph, hag⟩ := h
  have hd : s.ph1 i - s.ph0 i - 2 * pi * (i : R) / (len : R) * (hop : R)
      = s'.ph1 i - s'.ph0 i - 2 * pi * (i : R) / (len : R) * (hop : R) := by
    rw [hph, hag i h0 h1]
  cases hw : wrapPhase pi fuel (s.ph1 i - s.ph0 i - 2 * pi * (i : R) / (len : R) * (hop : R)) with
  | none =>
    exact Or.inl ⟨steadyBin_none sqrt pi fuel len hop s i hw,
      steadyBin_none sqrt pi fuel len hop s' i (by rw [← hd]; exact hw)⟩
  | some w =>
    refine Or.inr ⟨_, _, steadyBin_eq sqrt pi fuel len hop s i w hw,
      steadyBin_eq sqrt pi fuel len hop s' i w (by rw [← hd]; exact hw), ?_, hph, ?_⟩
    · show Function.update s.p i _ = Function.update s'.p i _
      rw [hp]
    · intro j hj0 hj1
      show Function.update s.ph0 i (s.ph1 i) j = Function.update s'.ph0 i (s'.ph1 i) j
      by_cases hj : j = i
      · subst hj
        rw [Function.update_same, Function.update_same, hph]
      · rw [Function.update_noteq hj, Function.update_noteq hj]
        exact hag j hj0 hj1

theorem frequency_fold_ph0 [LinearOrderedField R] (len samplerate : Int) (m : Nat)
    (s : Spectral R) :
    ((List.range m).foldl (fun acc (k : Nat) => frequencyBin len samplerate acc (k : Int)) s).ph0
      = s.ph0 := by
  induction m with
  | zero => rfl
  | succ m ih =>
    rw [List.range_succ, List.foldl_append]
    simp only [List.foldl_cons, List.foldl_nil]
    exact ih

/-- The corrector on two states with the same extracted power and phase: on the
first frame, or when the states hold the same previous phases, both runs fail or
both succeed with the same power and the same previous phases for the next frame. -/
theorem phaseVocoder_agree [LinearOrderedField R] (sqrt : R → R) (pi : R) (fuel : Nat)
    (len hop icnt : Int) (s s' : Spectral R) (hp : s.p = s'.p) (hph : s.ph1 = s'.ph1)
    (h : icnt = 0 ∨ AgreeOn 0 (Int.tdiv len 2 + 1) s.ph0 s'.ph0) :
    (phaseVocoder sqrt pi fuel len hop icnt s = none
      ∧ phaseVocoder sqrt pi fuel len hop icnt s' = none) ∨
    ∃ t t', phaseVocoder sqrt pi fuel len hop icnt s = some t ∧
      phaseVocoder sqrt pi fuel len hop icnt s' = some t' ∧
      (t.p = t'.p ∧ t.ph1 = t'.ph1 ∧ AgreeOn 0 (Int.tdiv len 2 + 1) t.ph0 t'.ph0) := by
  by_cases hi : icnt = 0
  · refine Or.inr ⟨_, _, by rw [phaseVocoder, if_pos hi], by rw [phaseVocoder, if_pos hi], ?_⟩
    obtain ⟨a1, a2, a3⟩ := bootstrap_fold (Int.tdiv len 2 + 1).toNat s
    obtain ⟨b1, b2, b3⟩ := bootstrap_fold (Int.tdiv len 2 + 1).toNat s'
    refine ⟨?_, ?_, ?_⟩
    · show (forLoop (Int.tdiv len 2 + 1) bootstrapBin s).p
        = (forLoop (Int.tdiv len 2 + 1) bootstrapBin s').p
      simp only [forLoop]
      rw [a1, b1, hp]
    · show (forLoop (Int.tdiv len 2 + 1) bootstrapBin s).ph1
        = (forLoop (Int.tdiv len 2 + 1) bootstrapBin s').ph1
      simp only [forLoop]
      rw [a2, b2, hph]
    · intro j hj0 hj1
      show (forLoop (Int.tdiv len 2 + 1) bootstrapBin s).ph0 j
        = (forLoop (Int.tdiv len 2 + 1) bootstrapBin s').ph0 j
      have hin : 0 ≤ j ∧ j < (((Int.tdiv len 2 + 1).toNat : Nat) : Int) := by omega
      simp only [forLoop]
      rw [(a3 j).2.2, (b3 j).2.2, if_pos hin, if_pos hin, hph]
  · have hag : AgreeOn 0 (Int.tdiv len 2 + 1) s.ph0 s'.ph0 := h.resolve_left hi
    have hrel := foldlM_rel
      (fun (t t' : Spectral R) =>
        t.p = t'.p ∧ t.ph1 = t'.ph1 ∧ AgreeOn 0 (Int.tdiv len 2 + 1) t.ph0 t'.ph0)
      (fun acc (k : Nat) => steadyBin sqrt pi fuel len hop acc (k : Int))
      (List.range (Int.tdiv len 2 + 1).toNat)
      (fun t t' k hk hr => steadyBin_agree sqrt pi fuel len hop (Int.tdiv len 2 + 1) t t'
        (k : Int) (by omega) (by have := List.mem_range.mp hk; omega) hr)
      s s' ⟨hp, hph, hag⟩
    simp only [phaseVocoder, if_neg hi, forLoopM]
    exact hrel

/-- The analysis of one frame in two runs whose tables agree in `x[0 .. len−1]`:
when no corrector runs, or the frame is the first one, or the runs hold the same
previous phases, both fail or both succeed, with the same power array handed on and
the same previous phases for the next frame. -/
theorem analyseOne_agree [LinearOrderedField R] [FloorRing R] (A : Routines R)
    (sqrt : R → R) (pi : R) (fuel : Nat) (mid2freq : Int → R) (options : waon_options R)
    (samplerate : Int) (st st' : AnalysisState R) (f f' : Frame R)
    (hread : ∀ (w : Int) (y y' : Int → R), AgreeOn 0 options.fft_size y y' →
      A.windowing options.fft_size y w 1.0 = A.windowing options.fft_size y' w 1.0)
    (hicnt : f.icnt = f'.icnt) (hx : AgreeOn 0 options.fft_size f.x f'.x)
    (h : options.use_phase_vocoder = 0 ∨ f.icnt = 0
      ∨ AgreeOn 0 (Int.tdiv options.fft_size 2 + 1) st.spec.ph0 st'.spec.ph0) :
    (analyseOne A sqrt pi fuel mid2freq options samplerate st f = none ∧
      analyseOne A sqrt pi fuel mid2freq options samplerate st' f' = none) ∨
    ∃ r r', analyseOne A sqrt pi fuel mid2freq options samplerate st f = some r ∧
      analyseOne A sqrt pi fuel mid2freq options samplerate st' f' = some r' ∧
      r.2.power = r'.2.power ∧
      (options.use_phase_vocoder ≠ 0 →
        AgreeOn 0 (Int.tdiv options.fft_size 2 + 1) r.1.spec.ph0 r'.1.spec.ph0) := by
  have hxw := hread options.window_type f.x f'.x hx
  by_cases hflag : options.use_phase_vocoder = 0
  · refine Or.inr ⟨_, _, by
      simp only [analyseOne, analyseFrame, if_pos hflag, Option.map_some']
      rfl, by
      simp only [analyseOne, analyseFrame, if_pos hflag, Option.map_some']
      rfl, ?_,
      fun hne => absurd hflag hne⟩
    show artifactSuppress _ _ _ _ _ _ _ = artifactSuppress _ _ _ _ _ _ _
    rw [hxw]
  · have hpre : f.icnt = 0
        ∨ AgreeOn 0 (Int.tdiv options.fft_size 2 + 1) st.spec.ph0 st'.spec.ph0 :=
      h.resolve_left hflag
    rcases phaseVocoder_agree sqrt pi fuel options.fft_size options.hop_size f.icnt
        { st.spec with
          p := (A.HC_to_polar2 options.fft_size (A.fftw_execute options.fft_size
            (A.windowing options.fft_size f.x options.window_type 1.0)) 0
            (A.init_den options.fft_size options.window_type)).1
          ph1 := (A.HC_to_polar2 options.fft_size (A.fftw_execute options.fft_size
            (A.windowing options.fft_size f.x options.window_type 1.0)) 0
            (A.init_den options.fft_size options.window_type)).2 }
        { st'.spec with
          p := (A.HC_to_polar2 options.fft_size (A.fftw_execute options.fft_size
            (A.windowing options.fft_size f'.x options.window_type 1.0)) 0
            (A.init_den options.fft_size options.window_type)).1
          ph1 := (A.HC_to_polar2 options.fft_size (A.fftw_execute options.fft_size
            (A.windowing options.fft_size f'.x options.window_type 1.0)) 0
            (A.init_den options.fft_size options.window_type)).2 }
        (by show (A.HC_to_polar2 _ _ _ _).1 = (A.HC_to_polar2 _ _ _ _).1; rw [hxw])
        (by show (A.HC_to_polar2 _ _ _ _).2 = (A.HC_to_polar2 _ _ _ _).2; rw [hxw])
        hpre with ⟨h1, h2⟩ | ⟨t, t', h1, h2, hp, _, hag⟩
    · left
      rw [hicnt] at h2
      simp only [analyseOne, analyseFrame, if_neg hflag, h1, h2, Option.map_none', and_self]
    · rw [hicnt] at h2
      refine Or.inr ⟨_, _, by
        simp only [analyseOne, analyseFrame, if_neg hflag, h1, Option.map_some']
        rfl, by
        simp only [analyseOne, analyseFrame, if_neg hflag, h2, Option.map_some']
        rfl, ?_, fun _ => ?_⟩
      · show (forLoop _ (frequencyBin _ _) _).p = (forLoop _ (frequencyBin _ _) _).p
        simp only [forLoop]
        rw [(frequency_fold _ _ _ _).1, (frequency_fold _ _ _ _).1, hp]
      · show AgreeOn _ _ (forLoop _ (frequencyBin _ _) _).ph0 (forLoop _ (frequencyBin _ _) _).ph0
        simp only [forLoop]
        rw [frequency_fold_ph0, frequency_fold_ph0]
        exact hag

/-- The analysis of the frames of two runs whose tables agree frame by frame: the
power arrays handed on are the same. -/
theorem analyseRun_agree [LinearOrderedField R] [FloorRing R] (A : Routines R)
    (sqrt : R → R) (pi : R) (fuel : Nat) (mid2freq : Int → R) (options : waon_options R)
    (samplerate : Int)
    (hread : ∀ (w : Int) (y y' : Int → R), AgreeOn 0 options.fft_size y y' →
      A.windowing options.fft_size y w 1.0 = A.windowing options.fft_size y' w 1.0)
    (fs fs' : List (Frame R)) (hfs : FramesAgree options.fft_size fs fs') :
    ∀ (st st' : AnalysisState R),
      (options.use_phase_vocoder = 0
        ∨ AgreeOn 0 (Int.tdiv options.fft_size 2 + 1) st.spec.ph0 st'.spec.ph0
        ∨ ∃ f tl, fs = f :: tl ∧ f.icnt = 0) →
      (analyseRun A sqrt pi fuel mid2freq options samplerate st fs).map
          (fun hs => hs.map Handoff.power)
        = (analyseRun A sqrt pi fuel mid2freq options samplerate st' fs').map
          (fun hs => hs.map Handoff.power) := by
  have hfs' : List.Forall₂
      (fun (f f' : Frame R) => f.icnt = f'.icnt ∧ AgreeOn 0 options.fft_size f.x f'.x)
      fs fs' := hfs
  induction hfs' with
  | nil =>
    intro _ _ _
    rfl
  | @cons f f' tl tl' hff htl ih =>
    intro st st' hpre
    have hpre1 : options.use_phase_vocoder = 0 ∨ f.icnt = 0
        ∨ AgreeOn 0 (Int.tdiv options.fft_size 2 + 1) st.spec.ph0 st'.spec.ph0 := by
      rcases hpre with h | h | ⟨g, tl0, hg, hg0⟩
      · exact Or.inl h
      · exact Or.inr (Or.inr h)
      · have hfg : f = g := (List.cons.inj hg).1
        exact Or.inr (Or.inl (by rw [hfg]; exact hg0))
    rcases analyseOne_agree A sqrt pi fuel mid2freq options samplerate st st' f f' hread
        hff.1 hff.2 hpre1 with ⟨h1, h2⟩ | ⟨r, r', h1, h2, hpow, hph0⟩
    · simp only [analyseRun, h1, h2, Option.none_bind, Option.map_none']
    · have hnext := ih htl r.1 r'.1 (by
        by_cases hflag : options.use_phase_vocoder = 0
        · exact Or.inl hflag
        · exact Or.inr (Or.inl (hph0 hflag)))
      simp only [analyseRun, h1, h2, Option.some_bind, Option.map_map]
      cases ha : analyseRun A sqrt pi fuel mid2freq options samplerate r.1 tl with
      | none =>
        cases hb : analyseRun A sqrt pi fuel mid2freq options samplerate r'.1 tl' with
        | none => rfl
        | some ys =>
          rw [ha, hb] at hnext
          cases hnext
      | some xs =>
        cases hb : analyseRun A sqrt pi fuel mid2freq options samplerate r'.1 tl' with
        | none =>
          rw [ha, hb] at hnext
          cases hnext
        | some ys =>
          rw [ha, hb] at hnext
          simp only [Option.map_some', Option.some.injEq] at hnext
          simp only [Option.map_some', Function.comp_apply, List.map_cons, hpow, hnext]

/-- The frames recorded by the loop extend the list it started with, and the first
frame added carries the counter the loop started with. -/
theorem frameLoop_head [LinearOrderedField R] (len hop : Int) :
    ∀ (fuel : Nat) (st fin : LoopState R), frameLoop len hop fuel st = some fin →
      ∃ rest, fin.processed = st.processed ++ rest ∧
        (rest = [] ∨ ∃ f tl, rest = f :: tl ∧ f.icnt = st.icnt) := by
  intro fuel
  induction fuel with
  | zero =>
    intro st fin h
    simp only [frameLoop] at h
    cases h
  | succ n ih =>
    intro st fin h
    rw [frameLoop] at h
    by_cases hc : (shiftAndRefill len hop st.src st.buf).1 ≠ hop
    · rw [if_pos hc] at h
      simp only [Option.some.injEq] at h
      rw [← h]
      exact ⟨[], (List.append_nil _).symm, Or.inl rfl⟩
    · rw [if_neg hc] at h
      obtain ⟨rest, hrest, _⟩ := ih _ fin h
      refine ⟨{ icnt := st.icnt
                x := mixdown (shiftAndRefill len hop st.src st.buf).2.1.channels len
                  (shiftAndRefill len hop st.src st.buf).2.2 st.x } :: rest, ?_,
        Or.inr ⟨_, rest, rfl, rfl⟩⟩
      rw [hrest]
      exact List.append_assoc _ _ _

/-- The priming read of two runs on the same source: the same flag and the same
source afterwards, and, when the read is complete, history arrays that agree in the
cells `hop .. len−1`. -/
theorem primingRead_agree (len hop : Int) (src : Source R) (b b' : Buffers R) :
    (primingRead len hop src b').1 = (primingRead len hop src b).1 ∧
    (primingRead len hop src b').2.1 = (primingRead len hop src b).2.1 ∧
    (primingRead len hop src b).2.1.channels = src.channels ∧
    ((primingRead len hop src b).1 = true →
      AgreeOn hop len (primingRead len hop src b).2.2.left (primingRead len hop src b').2.2.left ∧
      (src.channels = 2 →
        AgreeOn hop len (primingRead len hop src b).2.2.right
          (primingRead len hop src b').2.2.right)) := by
  by_cases hne : hop ≠ len
  · refine ⟨by simp only [primingRead, if_pos hne]; rfl,
      by simp only [primingRead, if_pos hne]; rfl,
      by simp only [primingRead, if_pos hne]; rfl, fun hflag => ?_⟩
    simp only [primingRead, if_pos hne] at hflag ⊢
    have hcount : ((min (len - hop).toNat (src.total - src.pos) : Nat) : Int) = len - hop := by
      have := of_decide_eq_true hflag
      rw [(sndfile_read_count _ _ _ _).1] at this
      exact this
    constructor
    · intro i h0 h1
      have hin : hop ≤ i
          ∧ i < hop + ((min (len - hop).toNat (src.total - src.pos) : Nat) : Int) := by
        rw [hcount]
        omega
      simp only [sndfile_read, if_pos hin]
    · intro hc i h0 h1
      have hin : hop ≤ i
          ∧ i < hop + ((min (len - hop).toNat (src.total - src.pos) : Nat) : Int) := by
        rw [hcount]
        omega
      simp only [sndfile_read, if_pos hc, if_pos hin]
  · have heq : hop = len := not_not.mp hne
    exact ⟨by simp only [primingRead, if_neg hne], by simp only [primingRead, if_neg hne],
      by simp only [primingRead, if_neg hne],
      fun _ => ⟨fun i h0 h1 => by omega, fun _ i h0 h1 => by omega⟩⟩

/-- Two runs on the same source and options, from whatever the history arrays and
the table held: both fail to return, or both divide by zero, or both return, with
the same counters and the same tables `x[0 .. len−1]` frame by frame, the first
frame (if any) carrying the counter 0. -/
theorem transcribeWith_agree [LinearOrderedField R] [FloorRing R] (fuel : Nat)
    (failed : Resource → Bool) (ctx : waon_context) (src : Source R) (samplerate : Int)
    (o : waon_options R) (ev0 : List Event) (b b' : Buffers R) (x x' : Int → R) :
    (transcribeWith fuel failed ctx src samplerate o ev0 b x = none ∧
      transcribeWith fuel failed ctx src samplerate o ev0 b' x' = none) ∨
    (transcribeWith fuel failed ctx src samplerate o ev0 b x = some Outcome.divisionByZero ∧
      transcribeWith fuel failed ctx src samplerate o ev0 b' x' = some Outcome.divisionByZero) ∨
    ∃ r r', transcribeWith fuel failed ctx src samplerate o ev0 b x = some (Outcome.returned r) ∧
      transcribeWith fuel failed ctx src samplerate o ev0 b' x' = some (Outcome.returned r') ∧
      FramesAgree o.fft_size r.processed r'.processed ∧
      (r.processed = [] ∨ ∃ f tl, r.processed = f :: tl ∧ f.icnt = 0) := by
  obtain ⟨hflag, hsrc, hch, hag⟩ := primingRead_agree o.fft_size o.hop_size src b b'
  by_cases hc : src.channels ≠ 2 ∧ src.channels ≠ 1
  · have e1 : transcribeWith fuel failed ctx src samplerate o ev0 b x
        = some (returnWith ctx waon_error_t.WAON_ERROR_FILE_FORMAT ev0 [] [] src) := by
      simp only [transcribeWith, if_pos hc]
    have e2 : transcribeWith fuel failed ctx src samplerate o ev0 b' x'
        = some (returnWith ctx waon_error_t.WAON_ERROR_FILE_FORMAT ev0 [] [] src) := by
      simp only [transcribeWith, if_pos hc]
    rw [e1, e2]
    exact Or.inr (Or.inr ⟨_, _, rfl, rfl, List.Forall₂.nil, Or.inl rfl⟩)
  · by_cases ha : (allocateBuffers failed o.use_phase_vocoder).1 = false
    · have e1 : transcribeWith fuel failed ctx src samplerate o ev0 b x
          = some (returnWith ctx waon_error_t.WAON_ERROR_MEMORY
              (ev0 ++ (allocateBuffers failed o.use_phase_vocoder).2) [] [] src) := by
        simp only [transcribeWith, if_neg hc, if_pos ha]
      have e2 : transcribeWith fuel failed ctx src samplerate o ev0 b' x'
          = some (returnWith ctx waon_error_t.WAON_ERROR_MEMORY
              (ev0 ++ (allocateBuffers failed o.use_phase_vocoder).2) [] [] src) := by
        simp only [transcribeWith, if_neg hc, if_pos ha]
      rw [e1, e2]
      exact Or.inr (Or.inr ⟨_, _, rfl, rfl, List.Forall₂.nil, Or.inl rfl⟩)
    · by_cases hp : (primingRead o.fft_size o.hop_size src b).1 = false
      · have hp' : (primingRead o.fft_size o.hop_size src b').1 = false := by rw [hflag, hp]
        have e1 : transcribeWith fuel failed ctx src samplerate o ev0 b x
            = some (returnWith ctx waon_error_t.WAON_ERROR_IO
                (ev0 ++ (allocateBuffers failed o.use_phase_vocoder).2
                  ++ [Event.acquire Resource.plan] ++ cleanupEvents o.use_phase_vocoder)
                [] [] (primingRead o.fft_size o.hop_size src b).2.1) := by
          simp only [transcribeWith, if_neg hc, if_neg ha, if_pos hp]
        have e2 : transcribeWith fuel failed ctx src samplerate o ev0 b' x'
            = some (returnWith ctx waon_error_t.WAON_ERROR_IO
                (ev0 ++ (allocateBuffers failed o.use_phase_vocoder).2
                  ++ [Event.acquire Resource.plan] ++ cleanupEvents o.use_phase_vocoder)
                [] [] (primingRead o.fft_size o.hop_size src b').2.1) := by
          simp only [transcribeWith, if_neg hc, if_neg ha, if_pos hp']
        rw [e1, e2]
        exact Or.inr (Or.inr ⟨_, _, rfl, rfl, List.Forall₂.nil, Or.inl rfl⟩)
      · have hp' : ¬ (primingRead o.fft_size o.hop_size src b').1 = false := by
          rw [hflag]
          exact hp
        have hp1 : (primingRead o.fft_size o.hop_size src b).1 = true := by simpa using hp
        by_cases hz : o.hop_size = 0
        · exact Or.inr (Or.inl
            ⟨by simp only [transcribeWith, if_neg hc, if_neg ha, if_neg hp, if_pos hz],
             by simp only [transcribeWith, if_neg hc, if_neg ha, if_neg hp', if_pos hz]⟩)
        · obtain ⟨hl, hr⟩ := hag hp1
          have e1 : transcribeWith fuel failed ctx src samplerate o ev0 b x
              = (frameLoop o.fft_size o.hop_size fuel
                  { src := (primingRead o.fft_size o.hop_size src b).2.1
                    buf := (primingRead o.fft_size o.hop_size src b).2.2
                    x := x, icnt := 0, processed := [] }).map (fun st =>
                  returnWith ctx waon_error_t.WAON_SUCCESS
                    (ev0 ++ (allocateBuffers failed o.use_phase_vocoder).2
                      ++ [Event.acquire Resource.plan]
                      ++ postProcessing (R := R) samplerate o.hop_size
                      ++ cleanupEvents o.use_phase_vocoder)
                    st.processed
                    (if ctx.progress_callback then
                      st.processed.map (fun f => progressValue
                        (Int.tdiv src.frames o.hop_size) f.icnt)
                    else [])
                    st.src) := by
            simp only [transcribeWith, if_neg hc, if_neg ha, if_neg hp, if_neg hz]
          have e2 : transcribeWith fuel failed ctx src samplerate o ev0 b' x'
              = (frameLoop o.fft_size o.hop_size fuel
                  { src := (primingRead o.fft_size o.hop_size src b').2.1
                    buf := (primingRead o.fft_size o.hop_size src b').2.2
                    x := x', icnt := 0, processed := [] }).map (fun st =>
                  returnWith ctx waon_error_t.WAON_SUCCESS
                    (ev0 ++ (allocateBuffers failed o.use_phase_vocoder).2
                      ++ [Event.acquire Resource.plan]
                      ++ postProcessing (R := R) samplerate o.hop_size
                      ++ cleanupEvents o.use_phase_vocoder)
                    st.processed
                    (if ctx.progress_callback then
                      st.processed.map (fun f => progressValue
                        (Int.tdiv src.frames o.hop_size) f.icnt)
                    else [])
                    st.src) := by
            simp only [transcribeWith, if_neg hc, if_neg ha, if_neg hp', if_neg hz]
          rcases frameLoop_agree o.fft_size o.hop_size fuel
              { src := (primingRead o.fft_size o.hop_size src b).2.1
                buf := (primingRead o.fft_size o.hop_size src b).2.2
                x := x, icnt := 0, processed := [] }
              { src := (primingRead o.fft_size o.hop_size src b').2.1
                buf := (primingRead o.fft_size o.hop_size src b').2.2
                x := x', icnt := 0, processed := [] }
              hsrc.symm rfl hl (fun h2 => hr (by rw [← hch]; exact h2)) List.Forall₂.nil
            with ⟨h1, h2⟩ | ⟨fin, fin', h1, h2, hfr⟩
          · exact Or.inl ⟨by rw [e1, h1]; rfl, by rw [e2, h2]; rfl⟩
          · obtain ⟨rest, hrest, hhead⟩ := frameLoop_head o.fft_size o.hop_size fuel _ fin h1
            rw [e1, e2, h1, h2]
            refine Or.inr (Or.inr ⟨_, _, rfl, rfl, hfr, ?_⟩)
            show fin.processed = [] ∨ ∃ f tl, fin.processed = f :: tl ∧ f.icnt = 0
            rw [hrest]
            rcases hhead with h | ⟨f, tl, h, hf⟩
            · exact Or.inl (by rw [h]; rfl)
            · exact Or.inr ⟨f, tl, by rw [h]; rfl, hf⟩

/-- More fuel does not change what the frame loop returns. -/
theorem frameLoop_mono [LinearOrderedField R] (len hop : Int) :
    ∀ (fuel : Nat) (st fin : LoopState R), frameLoop len hop fuel st = some fin →
      ∀ k, frameLoop len hop (fuel + k) st = some fin := by
  intro fuel
  induction fuel with
  | zero =>
    intro st fin h
    simp only [frameLoop] at h
    cases h
  | succ n ih =>
    intro st fin h k
    have e : n + 1 + k = (n + k) + 1 := by omega
    rw [e, frameLoop]
    rw [frameLoop] at h
    by_cases hc : (shiftAndRefill len hop st.src st.buf).1 ≠ hop
    · rw [if_pos hc] at h ⊢
      exact h
    · rw [if_neg hc] at h ⊢
      exact ih _ fin h k

/-- For a hop other than zero the frame loop returns, with the same final state for
every fuel from some bound on. -/
theorem frameLoop_total [LinearOrderedField R] (len hop : Int) (hhop : hop ≠ 0)
    (st : LoopState R) :
    ∃ (F : Nat) (fin : LoopState R), ∀ fuel, F ≤ fuel →
      frameLoop len hop fuel st = some fin := by
  have hsome : ∃ (F : Nat) (fin : LoopState R), frameLoop len hop F st = some fin := by
    rcases lt_or_gt_of_ne hhop with hneg | hpos
    · have hc : (shiftAndRefill len hop st.src st.buf).1 ≠ hop := by
        rw [shiftAndRefill, (sndfile_read_count _ _ _ _).1]
        omega
      exact ⟨1, _, by rw [frameLoop, if_pos hc]⟩
    · obtain ⟨n, rfl⟩ : ∃ n : Nat, hop = (n : Int) := ⟨hop.toNat, by omega⟩
      obtain ⟨fin, hfin, _⟩ := frameLoop_count len n (by omega)
        ((st.src.total - st.src.pos) / n) st ((st.src.total - st.src.pos) / n + 1) rfl
        (Nat.lt_succ_self _)
      exact ⟨_, fin, hfin⟩
  obtain ⟨F, fin, h⟩ := hsome
  refine ⟨F, fin, fun fuel hf => ?_⟩
  obtain ⟨k, rfl⟩ : ∃ k, fuel = F + k := ⟨fuel - F, by omega⟩
  exact frameLoop_mono len hop F st fin h k

/-- The steady loop returns, with the same arrays for every fuel from some bound on. -/
theorem steady_total [LinearOrderedField R] [FloorRing R] (sqrt : R → R) (pi : R)
    (hpi : 0 < pi) (len hop : Int) (m : Nat) (s : Spectral R) :
    ∃ (F : Nat) (t : Spectral R), ∀ fuel, F ≤ fuel →
      (List.range m).foldlM
        (fun acc (k : Nat) => steadyBin sqrt pi fuel len hop acc (k : Int)) s = some t := by
  induction m with
  | zero => exact ⟨0, s, fun _ _ => rfl⟩
  | succ m ih =>
    obtain ⟨F, t, h⟩ := ih
    refine ⟨max F ((⌊(t.ph1 (m : Int) - t.ph0 (m : Int)
          - 2 * pi * (((m : Int) : R)) / (len : R) * (hop : R) + pi) / (2 * pi)⌋).natAbs + 1),
      { p := Function.update t.p (m : Int)
          (0.5 * (sqrt (t.p (m : Int)) + sqrt (t.p (m : Int)))
            * (0.5 * (sqrt (t.p (m : Int)) + sqrt (t.p (m : Int)))))
        p0 := Function.update t.p0 (m : Int) (t.p (m : Int))
        dphi := Function.update t.dphi (m : Int)
          ((t.ph1 (m : Int) - t.ph0 (m : Int)
              - 2 * pi * (((m : Int) : R)) / (len : R) * (hop : R)
              - 2 * pi * (⌊(t.ph1 (m : Int) - t.ph0 (m : Int)
                  - 2 * pi * (((m : Int) : R)) / (len : R) * (hop : R) + pi) / (2 * pi)⌋ : R))
            / (2 * pi) / (hop : R))
        ph0 := Function.update t.ph0 (m : Int) (t.ph1 (m : Int))
        ph1 := t.ph1 },
      fun fuel hf => ?_⟩
    have hw := wrapPhase_eq pi hpi (t.ph1 (m : Int) - t.ph0 (m : Int)
      - 2 * pi * (((m : Int) : R)) / (len : R) * (hop : R)) fuel
      (lt_of_lt_of_le (Nat.lt_succ_self _) (le_trans (le_max_right _ _) hf))
    rw [List.range_succ, List.foldlM_append, h fuel (le_trans (le_max_left _ _) hf)]
    simp only [List.foldlM_cons, List.foldlM_nil, Option.bind_eq_bind, Option.some_bind]
    rw [steadyBin_eq sqrt pi fuel len hop t (m : Int) _ hw]
    rfl

/-- The corrector returns, with the same arrays for every fuel from some bound on. -/
theorem phaseVocoder_total [LinearOrderedField R] [FloorRing R] (sqrt : R → R) (pi : R)
    (hpi : 0 < pi) (len hop icnt : Int) (s : Spectral R) :
    ∃ (F : Nat) (t : Spectral R), ∀ fuel, F ≤ fuel →
      phaseVocoder sqrt pi fuel len hop icnt s = some t := by
  by_cases hi : icnt = 0
  · exact ⟨0, forLoop (Int.tdiv len 2 + 1) bootstrapBin s, fun fuel _ => by
      rw [phaseVocoder, if_pos hi]⟩
  · obtain ⟨F, t, h⟩ := steady_total sqrt pi hpi len hop (Int.tdiv len 2 + 1).toNat s
    exact ⟨F, t, fun fuel hf => by
      rw [phaseVocoder, if_neg hi, forLoopM]
      exact h fuel hf⟩

/-- The analysis of one frame depends on the fuel through the corrector only. -/
theorem analyseOne_fuel [LinearOrderedField R] [FloorRing R] (A : Routines R)
    (sqrt : R → R) (pi : R) (fuel fuel' : Nat) (mid2freq : Int → R) (options : waon_options R)
    (samplerate : Int) (st : AnalysisState R) (f : Frame R)
    (h : options.use_phase_vocoder ≠ 0 →
      phaseVocoder sqrt pi fuel options.fft_size options.hop_size f.icnt
        { st.spec with
          p := (A.HC_to_polar2 options.fft_size (A.fftw_execute options.fft_size
            (A.windowing options.fft_size f.x options.window_type 1.0)) 0
            (A.init_den options.fft_size options.window_type)).1
          ph1 := (A.HC_to_polar2 options.fft_size (A.fftw_execute options.fft_size
            (A.windowing options.fft_size f.x options.window_type 1.0)) 0
            (A.init_den options.fft_size options.window_type)).2 }
        = phaseVocoder sqrt pi fuel' options.fft_size options.hop_size f.icnt
        { st.spec with
          p := (A.HC_to_polar2 options.fft_size (A.fftw_execute options.fft_size
            (A.windowing options.fft_size f.x options.window_type 1.0)) 0
            (A.init_den options.fft_size options.window_type)).1
          ph1 := (A.HC_to_polar2 options.fft_size (A.fftw_execute options.fft_size
            (A.windowing options.fft_size f.x options.window_type 1.0)) 0
            (A.init_den options.fft_size options.window_type)).2 }) :
    analyseOne A sqrt pi fuel mid2freq options samplerate st f
      = analyseOne A sqrt pi fuel' mid2freq options samplerate st f := by
  by_cases hflag : options.use_phase_vocoder = 0
  · simp only [analyseOne, analyseFrame, if_pos hflag]
  · simp only [analyseOne, analyseFrame, if_neg hflag, h hflag]

/-- The analysis of one frame returns, with the same result for every fuel from some
bound on. -/
theorem analyseOne_total [LinearOrderedField R] [FloorRing R] (A : Routines R)
    (sqrt : R → R) (pi : R) (hpi : 0 < pi) (mid2freq : Int → R) (options : waon_options R)
    (samplerate : Int) (st : AnalysisState R) (f : Frame R) :
    ∃ (F : Nat) (r : AnalysisState R × Handoff R), ∀ fuel, F ≤ fuel →
      analyseOne A sqrt pi fuel mid2freq options samplerate st f = some r := by
  obtain ⟨F, t, h⟩ := phaseVocoder_total sqrt pi hpi options.fft_size options.hop_size f.icnt
        { st.spec with
          p := (A.HC_to_polar2 options.fft_size (A.fftw_execute options.fft_size
            (A.windowing options.fft_size f.x options.window_type 1.0)) 0
            (A.init_den options.fft_size options.window_type)).1
          ph1 := (A.HC_to_polar2 options.fft_size (A.fftw_execute options.fft_size
            (A.windowing options.fft_size f.x options.window_type 1.0)) 0
            (A.init_den options.fft_size options.window_type)).2 }
  cases hr : analyseOne A sqrt pi F mid2freq options samplerate st f with
  | none =>
    exfalso
    by_cases hflag : options.use_phase_vocoder = 0
    · simp [analyseOne, analyseFrame, hflag] at hr
    · simp [analyseOne, analyseFrame, hflag, h F le_rfl] at hr
  | some r =>
    refine ⟨F, r, fun fuel hf => ?_⟩
    rw [analyseOne_fuel A sqrt pi fuel F mid2freq options samplerate st f
      (fun _ => by rw [h fuel hf, h F le_rfl]), hr]

/-- The analysis of the frames of a run returns, with the same result for every fuel
from some bound on. -/
theorem analyseRun_total [LinearOrderedField R] [FloorRing R] (A : Routines R)
    (sqrt : R → R) (pi : R) (hpi : 0 < pi) (mid2freq : Int → R) (options : waon_options R)
    (samplerate : Int) :
    ∀ (fs : List (Frame R)) (st : AnalysisState R),
      ∃ (F : Nat) (hs : List (Handoff R)), ∀ fuel, F ≤ fuel →
        analyseRun A sqrt pi fuel mid2freq options samplerate st fs = some hs := by
  intro fs
  induction fs with
  | nil => exact fun _ => ⟨0, [], fun _ _ => rfl⟩
  | cons f fs ih =>
    intro st
    obtain ⟨F1, r, h1⟩ := analyseOne_total A sqrt pi hpi mid2freq options samplerate st f
    obtain ⟨F2, hs, h2⟩ := ih r.1
    refine ⟨max F1 F2, r.2 :: hs, fun fuel hf => ?_⟩
    simp only [analyseRun, h1 fuel (le_trans (le_max_left _ _) hf),
      h2 fuel (le_trans (le_max_right _ _) hf), Option.some_bind, Option.map_some']

/-- With a hop other than zero a call returns, with the same result for every fuel
from some bound on. -/
theorem transcribeWith_total [LinearOrderedField R] [FloorRing R]
    (failed : Resource → Bool) (ctx : waon_context) (src : Source R) (samplerate : Int)
    (o : waon_options R) (ev0 : List Event) (b : Buffers R) (x : Int → R)
    (hhop : o.hop_size ≠ 0) :
    ∃ (F : Nat) (r : RunResult R), ∀ fuel, F ≤ fuel →
      transcribeWith fuel failed ctx src samplerate o ev0 b x = some (Outcome.returned r) := by
  obtain ⟨F, fin, hfin⟩ := frameLoop_total o.fft_size o.hop_size hhop
    { src := (primingRead o.fft_size o.hop_size src b).2.1
      buf := (primingRead o.fft_size o.hop_size src b).2.2
      x := x, icnt := 0, processed := [] }
  cases hr : transcribeWith F failed ctx src samplerate o ev0 b x with
  | none =>
    exfalso
    rcases transcribeWith_cases F failed ctx src samplerate o ev0 b x with
      ⟨_, h⟩ | ⟨_, _, h⟩ | ⟨_, _, _, h⟩ | ⟨_, _, _, hz, _⟩ | ⟨_, _, _, _, h⟩
    · rw [h] at hr; cases hr
    · rw [h] at hr; cases hr
    · rw [h] at hr; cases hr
    · exact hhop hz
    · rw [h, hfin F le_rfl] at hr; cases hr
  | some out =>
    cases out with
    | divisionByZero =>
      exfalso
      rcases transcribeWith_cases F failed ctx src samplerate o ev0 b x with
        ⟨_, h⟩ | ⟨_, _, h⟩ | ⟨_, _, _, h⟩ | ⟨_, _, _, hz, _⟩ | ⟨_, _, _, _, h⟩
      · rw [h] at hr; cases hr
      · rw [h] at hr; cases hr
      · rw [h] at hr; cases hr
      · exact hhop hz
      · rw [h, hfin F le_rfl] at hr; cases hr
    | returned r =>
      refine ⟨F, r, fun fuel hf => ?_⟩
      rw [← hr]
      rcases transcribeWith_cases fuel failed ctx src samplerate o ev0 b x with
        ⟨h0, h⟩ | ⟨h0, h1, h⟩ | ⟨h0, h1, h2, h⟩ | ⟨_, _, _, hz, _⟩ | ⟨h0, h1, h2, h3, h⟩
      · rw [h]; simp only [transcribeWith, if_pos h0]
      · rw [h]; simp only [transcribeWith, if_neg h0, if_pos h1]
      · have h1' : ¬ (allocateBuffers failed o.use_phase_vocoder).1 = false := by simp [h1]
        rw [h]; simp only [transcribeWith, if_neg h0, if_neg h1', if_pos h2]
      · exact absurd hz hhop
      · have h1' : ¬ (allocateBuffers failed o.use_phase_vocoder).1 = false := by simp [h1]
        have h2' : ¬ (primingRead o.fft_size o.hop_size src b).1 = false := by simp [h2]
        rw [h, hfin fuel hf]
        simp only [transcribeWith, if_neg h0, if_neg h1', if_neg h2', if_neg h3,
          hfin F le_rfl]

/-- Two calls on the same source and options, from whatever the history arrays and
the table held, end the same way and process the same frames. -/
theorem transcribe_agree [LinearOrderedField R] [FloorRing R] (fuel : Nat)
    (failed : Resource → Bool) (ctx : waon_context) (src : Source R) (samplerate : Int)
    (opts : Option (waon_options R)) (b b' : Buffers R) (x x' : Int → R) :
    (waon_transcribe_internal fuel failed ctx src samplerate opts b x = none ∧
      waon_transcribe_internal fuel failed ctx src samplerate opts b' x' = none) ∨
    (waon_transcribe_internal fuel failed ctx src samplerate opts b x
        = some Outcome.divisionByZero ∧
      waon_transcribe_internal fuel failed ctx src samplerate opts b' x'
        = some Outcome.divisionByZero) ∨
    ∃ r r', waon_transcribe_internal fuel failed ctx src samplerate opts b x
        = some (Outcome.returned r) ∧
      waon_transcribe_internal fuel failed ctx src samplerate opts b' x'
        = some (Outcome.returned r') ∧
      FramesAgree (opts.getD waon_options_create).fft_size r.processed r'.processed ∧
      (r.processed = [] ∨ ∃ f tl, r.processed = f :: tl ∧ f.icnt = 0) := by
  cases opts with
  | some o => exact transcribeWith_agree fuel failed ctx src samplerate o [] b b' x x'
  | none =>
    by_cases hd : failed Resource.default_options = true
    · have e1 : waon_transcribe_internal fuel failed ctx src samplerate none b x
          = some (returnWith ctx waon_error_t.WAON_ERROR_MEMORY [] [] [] src) := by
        simp only [waon_transcribe_internal, hd, if_true]
      have e2 : waon_transcribe_internal fuel failed ctx src samplerate none b' x'
          = some (returnWith ctx waon_error_t.WAON_ERROR_MEMORY [] [] [] src) := by
        simp only [waon_transcribe_internal, hd, if_true]
      rw [e1, e2]
      exact Or.inr (Or.inr ⟨_, _, rfl, rfl, List.Forall₂.nil, Or.inl rfl⟩)
    · have e1 : waon_transcribe_internal fuel failed ctx src samplerate none b x
          = transcribeWith fuel failed ctx src samplerate waon_options_create
              [Event.acquire Resource.default_options, Event.release Resource.default_options]
              b x := by
        simp only [waon_transcribe_internal, hd, Bool.false_eq_true, if_false]
      have e2 : waon_transcribe_internal fuel failed ctx src samplerate none b' x'
          = transcribeWith fuel failed ctx src samplerate waon_options_create
              [Event.acquire Resource.default_options, Event.release Resource.default_options]
              b' x' := by
        simp only [waon_transcribe_internal, hd, Bool.false_eq_true, if_false]
      rw [e1, e2]
      exact transcribeWith_agree fuel failed ctx src samplerate waon_options_create _ b b' x x'

/-- With a hop other than zero a call returns, with the same result for every fuel
from some bound on. -/
theorem transcribe_total [LinearOrderedField R] [FloorRing R]
    (failed : Resource → Bool) (ctx : waon_context) (src : Source R) (samplerate : Int)
    (opts : Option (waon_options R)) (b : Buffers R) (x : Int → R)
    (hhop : (opts.getD waon_options_create).hop_size ≠ 0) :
    ∃ (F : Nat) (r : RunResult R), ∀ fuel, F ≤ fuel →
      waon_transcribe_internal fuel failed ctx src samplerate opts b x
        = some (Outcome.returned r) := by
  cases opts with
  | some o => exact transcribeWith_total failed ctx src samplerate o [] b x hhop
  | none =>
    by_cases hd : failed Resource.default_options = true
    · exact ⟨0, { code := waon_error_t.WAON_ERROR_MEMORY
                  ctx := { ctx with last_error := waon_error_t.WAON_ERROR_MEMORY }
                  events := [], processed := [], progress := [], src := src },
        fun fuel _ => by simp only [waon_transcribe_internal, hd, if_true, returnWith]⟩
    · obtain ⟨F, r, h⟩ := transcribeWith_total failed ctx src samplerate waon_options_create
        [Event.acquire Resource.default_options, Event.release Resource.default_options]
        b x hhop
      exact ⟨F, r, fun fuel hf => by
        simp only [waon_transcribe_internal, hd, Bool.false_eq_true, if_false]
        exact h fuel hf⟩

/-- C19 (determinism of the power sequence): for every source, sample rate, options
and allocation outcome, two runs of the engine hand the same power arrays to note
detection, frame by frame, whatever the shared variables `abs_flg`, `adj_pitch`,
`pitch_shift`, `n_pitch` held before (`g0`, `g0'`) and whatever the arrays of the run
held when allocated (`b`, `x`, `s0`, `vel0` against `b'`, `x'`, `s0'`, `vel0'`): the
two sequences are the same for every fuel, and with `π > 0` and a hop other than
zero both runs produce the same sequence for every fuel from some bound on. The
routines of `fft.c`, `hc.c` and `analyse.c` are arbitrary; of the windowing it is
assumed that it reads the cells `0 .. len−1` of its input only. -/
theorem C19_power_sequence_deterministic [LinearOrderedField R] [FloorRing R]
    (A : Routines R) (sqrt : R → R) (pi : R) (mid2freq : Int → R)
    (failed : Resource → Bool) (ctx : waon_context) (src : Source R) (samplerate : Int)
    (opts : Option (waon_options R)) (b b' : Buffers R) (x x' : Int → R)
    (s0 s0' : Spectral R) (g0 g0' : Globals R) (vel0 vel0' : Int → Int)
    (hread : ∀ (w : Int) (y y' : Int → R),
      AgreeOn 0 (opts.getD waon_options_create).fft_size y y' →
      A.windowing (opts.getD waon_options_create).fft_size y w 1.0
        = A.windowing (opts.getD waon_options_create).fft_size y' w 1.0) :
    (∀ fuel : Nat,
      powerSequence A sqrt pi fuel mid2freq failed ctx src samplerate opts b x s0 g0 vel0
        = powerSequence A sqrt pi fuel mid2freq failed ctx src samplerate opts b' x' s0' g0'
            vel0') ∧
    (0 < pi → (opts.getD waon_options_create).hop_size ≠ 0 →
      ∃ (F : Nat) (ps : List (Int → R)), ∀ fuel, F ≤ fuel →
        powerSequence A sqrt pi fuel mid2freq failed ctx src samplerate opts b x s0 g0 vel0
          = some ps ∧
        powerSequence A sqrt pi fuel mid2freq failed ctx src samplerate opts b' x' s0' g0'
          vel0' = some ps) := by
  have heq : ∀ fuel : Nat,
      powerSequence A sqrt pi fuel mid2freq failed ctx src samplerate opts b x s0 g0 vel0
        = powerSequence A sqrt pi fuel mid2freq failed ctx src samplerate opts b' x' s0' g0'
            vel0' := by
    intro fuel
    rcases transcribe_agree fuel failed ctx src samplerate opts b b' x x' with
      ⟨h1, h2⟩ | ⟨h1, h2⟩ | ⟨r, r', h1, h2, hfr, hhead⟩
    · simp only [powerSequence, h1, h2]
    · simp only [powerSequence, h1, h2]
    · simp only [powerSequence, h1, h2]
      rcases hhead with hnil | hcons
      · have hnil' : r'.processed = [] := by
          have hfr' : List.Forall₂ _ r.processed r'.processed := hfr
          rw [hnil] at hfr'
          exact List.forall₂_nil_left_iff.mp hfr'
        rw [hnil, hnil']
        rfl
      · exact analyseRun_agree A sqrt pi fuel mid2freq (opts.getD waon_options_create)
          samplerate hread r.processed r'.processed hfr _ _ (Or.inr (Or.inr hcons))
  refine ⟨heq, fun hpi hhop => ?_⟩
  obtain ⟨F1, r, h1⟩ := transcribe_total failed ctx src samplerate opts b x hhop
  obtain ⟨F2, hs, h2⟩ := analyseRun_total A sqrt pi hpi mid2freq
    (opts.getD waon_options_create) samplerate r.processed
    (startAnalysis (opts.getD waon_options_create) g0 s0 vel0)
  refine ⟨max F1 F2, hs.map Handoff.power, fun fuel hf => ?_⟩
  have hrun : powerSequence A sqrt pi fuel mid2freq failed ctx src samplerate opts b x s0 g0
      vel0 = some (hs.map Handoff.power) := by
    simp only [powerSequence, h1 fuel (le_trans (le_max_left _ _) hf),
      h2 fuel (le_trans (le_max_right _ _) hf), Option.map_some']
  exact ⟨hrun, by rw [← heq fuel]; exact hrun⟩

/-- Witness of C19: a mono ramp of 9 samples, frame size 4, hop 3, analysed once from
cleared arrays and once from arrays and shared variables holding other values. -/
theorem C19_power_sequence_deterministic_witness :
    ∃ (F : Nat) (ps : List (Int → ℚ)), ∀ fuel, F ≤ fuel →
      powerSequence sampleRoutines (fun q => q) 3 fuel (fun n => (n : ℚ)) (fun _ => false)
          callbackContext (rampSource 9) 44100 (some (optionsWith 4 3)) zeroBuffers
          (fun _ => 0) (constSpectral 0) (constGlobals 0 0) (fun _ => 0) = some ps ∧
      powerSequence sampleRoutines (fun q => q) 3 fuel (fun n => (n : ℚ)) (fun _ => false)
          callbackContext (rampSource 9) 44100 (some (optionsWith 4 3)) (constBuffers 7)
          (fun _ => 5) (constSpectral 2) (constGlobals 1 9) (fun _ => 64) = some ps :=
  (C19_power_sequence_deterministic sampleRoutines (fun q => q) 3 (fun n => (n : ℚ))
    (fun _ => false) callbackContext (rampSource 9) 44100 (some (optionsWith 4 3))
    zeroBuffers (constBuffers 7) (fun _ => 0) (fun _ => 5) (constSpectral 0) (constSpectral 2)
    (constGlobals 0 0) (constGlobals 1 9) (fun _ => 0) (fun _ => 64)
    (fun _ y y' hy => funext fun i => by
      show (if 0 ≤ i ∧ i < _ then y i * 1.0 else 0) = (if 0 ≤ i ∧ i < _ then y' i * 1.0 else 0)
      by_cases hi : 0 ≤ i ∧ i < (Option.getD (some (optionsWith 4 3)) waon_options_create).fft_size
      · rw [if_pos hi, if_pos hi, hy i hi.1 hi.2]
      · rw [if_neg hi, if_neg hi])).2 (by norm_num) (by decide)

end Determinism

/-! ## Stub, defaults and frame conditions of the options -/

section OptionsFrame

variable {R : Type}

/-- C22: `waon_transcribe_data` never returns `WAON_SUCCESS`: it returns
`WAON_ERROR_INVALID_PARAM` when the context, the data or the output name is null,
`num_samples ≤ 0`, `sample_rate ≤ 0` or `channels` is neither 1 nor 2, and
`WAON_ERROR_INTERNAL` otherwise; whenever the context is not null the code returned
is stored as its last error and nothing else of the context changes. -/
theorem C22_transcribe_data_unimplemented (ctx : Option waon_context)
    (audio_data : Option (Int → R)) (num_samples sample_rate channels : Int)
    (output_file : Option String) (opts : Option (waon_options R)) :
    (waon_transcribe_data ctx audio_data num_samples sample_rate channels output_file opts).1
      ≠ waon_error_t.WAON_SUCCESS ∧
    ((ctx = none ∨ audio_data = none ∨ output_file = none ∨ num_samples ≤ 0 ∨ sample_rate ≤ 0
        ∨ (channels ≠ 1 ∧ channels ≠ 2)) →
      (waon_transcribe_data ctx audio_data num_samples sample_rate channels output_file opts).1
        = waon_error_t.WAON_ERROR_INVALID_PARAM) ∧
    (¬ (ctx = none ∨ audio_data = none ∨ output_file = none ∨ num_samples ≤ 0
        ∨ sample_rate ≤ 0 ∨ (channels ≠ 1 ∧ channels ≠ 2)) →
      (waon_transcribe_data ctx audio_data num_samples sample_rate channels output_file opts).1
        = waon_error_t.WAON_ERROR_INTERNAL) ∧
    (ctx = none →
      (waon_transcribe_data ctx audio_data num_samples sample_rate channels output_file opts).2
        = none) ∧
    (∀ c, ctx = some c →
      (waon_transcribe_data ctx audio_data num_samples sample_rate channels output_file opts).2
        = some { c with last_error :=
            (waon_transcribe_data ctx audio_data num_samples sample_rate channels output_file
              opts).1 }) := by
  cases ctx with
  | none =>
    refine ⟨by simp [waon_transcribe_data], fun _ => rfl, fun h => absurd (Or.inl rfl) h,
      fun _ => rfl, fun c hc => by cases hc⟩
  | some c =>
    by_cases hbad : audio_data.isNone = true ∨ output_file.isNone = true ∨ num_samples ≤ 0
        ∨ sample_rate ≤ 0 ∨ (channels ≠ 1 ∧ channels ≠ 2)
    · have e : waon_transcribe_data (some c) audio_data num_samples sample_rate channels
          output_file opts
          = (waon_error_t.WAON_ERROR_INVALID_PARAM,
              some { c with last_error := waon_error_t.WAON_ERROR_INVALID_PARAM }) := by
        simp only [waon_transcribe_data, if_pos hbad]
      rw [e]
      refine ⟨(fun h => by cases h), fun _ => rfl, fun h => ?_, (fun h => by cases h),
        fun c' hc => ?_⟩
      · exfalso
        apply h
        simp only [Option.isNone_iff_eq_none] at hbad
        exact Or.inr hbad
      · cases hc
        rfl
    · have e : waon_transcribe_data (some c) audio_data num_samples sample_rate channels
          output_file opts
          = (waon_error_t.WAON_ERROR_INTERNAL,
              some { c with last_error := waon_error_t.WAON_ERROR_INTERNAL }) := by
        simp only [waon_transcribe_data, if_neg hbad]
      rw [e]
      refine ⟨(fun h => by cases h), fun h => ?_, fun _ => rfl, (fun h => by cases h),
        fun c' hc => ?_⟩
      · exfalso
        apply hbad
        simp only [Option.isNone_iff_eq_none]
        rcases h with h | h
        · cases h
        · exact h
      · cases hc
        rfl

/-- C23 (evaluation of the code): the defaults written by `waon_options_create` and
those left by `waon_options_init` followed by `waon_options_validate` agree on
frame size, hop, window, cutoff, phase-vocoder flag, drum bins and factor, octave
factor, pitch adjust, peak threshold, relative-cutoff flag and ratio, but not on the
note range: the library starts from notes 48..72, the command line from 28..103. -/
theorem C23_default_note_range_differs :
    (waon_options_create : waon_options ℚ).fft_size
      = (waon_options_validate (waon_options_init : waon_options_t ℚ)).fft_size ∧
    (waon_options_create : waon_options ℚ).hop_size
      = (waon_options_validate (waon_options_init : waon_options_t ℚ)).hop_size ∧
    (waon_options_create : waon_options ℚ).window_type
      = (waon_options_validate (waon_options_init : waon_options_t ℚ)).window_type ∧
    (waon_options_create : waon_options ℚ).cutoff_ratio
      = (waon_options_validate (waon_options_init : waon_options_t ℚ)).cutoff_ratio ∧
    (waon_options_create : waon_options ℚ).use_phase_vocoder
      = (waon_options_validate (waon_options_init : waon_options_t ℚ)).use_phase_vocoder ∧
    (waon_options_create : waon_options ℚ).drum_removal_bins
      = (waon_options_validate (waon_options_init : waon_options_t ℚ)).drum_removal_bins ∧
    (waon_options_create : waon_options ℚ).drum_removal_factor
      = (waon_options_validate (waon_options_init : waon_options_t ℚ)).drum_removal_factor ∧
    (waon_options_create : waon_options ℚ).octave_removal_factor
      = (waon_options_validate (waon_options_init : waon_options_t ℚ)).octave_removal_factor ∧
    (waon_options_create : waon_options ℚ).pitch_adjust
      = (waon_options_validate (waon_options_init : waon_options_t ℚ)).pitch_adjust ∧
    (waon_options_create : waon_options ℚ).peak_threshold
      = (waon_options_validate (waon_options_init : waon_options_t ℚ)).peak_threshold ∧
    (waon_options_create : waon_options ℚ).use_relative_cutoff
      = (waon_options_validate (waon_options_init : waon_options_t ℚ)).use_relative_cutoff ∧
    (waon_options_create : waon_options ℚ).relative_cutoff_ratio
      = (waon_options_validate (waon_options_init : waon_options_t ℚ)).relative_cutoff_ratio ∧
    (waon_options_create : waon_options ℚ).note_bottom = 48 ∧
    (waon_options_validate (waon_options_init : waon_options_t ℚ)).bottom_note = 28 ∧
    (waon_options_create : waon_options ℚ).note_top = 72 ∧
    (waon_options_validate (waon_options_init : waon_options_t ℚ)).top_note = 103 := by
  have hq : Int.tdiv 2048 4 = 512 := by decide
  refine ⟨?_, ?_, ?_, ?_, ?_, ?_, ?_, ?_, ?_, ?_, ?_, ?_, ?_, ?_, ?_, ?_⟩ <;>
    simp [waon_options_create, waon_options_validate, waon_options_init, validateHop,
      validateWindow, validateDrumFactor, validateDrumBins, validateOutput, validateInput, hq]

/-- C28: on an options value `o`, every setter of the library leaves all fields
other than the ones it is named for as they are (the options after the call, with
the named fields put back, are `o`): `set_fft_size` frame size and hop,
`set_hop_size` the hop, `set_window` the window, `set_cutoff` the cutoff ratio and
the relative-cutoff flag, which it clears, `set_note_range` bottom and top,
`set_phase_vocoder` the flag, stored as 0 or 1, `set_drum_removal` bins and factor,
`set_octave_removal` the factor; a call that returns `WAON_ERROR_INVALID_PARAM`
leaves `o` as it is, and a call on a null pointer returns that code. -/
theorem C28_setters_change_named_fields_only [LinearOrderedField R] (o : waon_options R) :
    (∀ size, { applySetter o (SetterCall.set_fft_size size) with
        fft_size := o.fft_size, hop_size := o.hop_size } = o) ∧
    (∀ size, { applySetter o (SetterCall.set_hop_size size) with hop_size := o.hop_size } = o) ∧
    (∀ window, { applySetter o (SetterCall.set_window window) with
        window_type := o.window_type } = o) ∧
    (∀ cutoff, { applySetter o (SetterCall.set_cutoff cutoff) with
        cutoff_ratio := o.cutoff_ratio, use_relative_cutoff := o.use_relative_cutoff } = o ∧
      (applySetter o (SetterCall.set_cutoff cutoff)).cutoff_ratio = cutoff ∧
      (applySetter o (SetterCall.set_cutoff cutoff)).use_relative_cutoff = 0) ∧
    (∀ bottom top, { applySetter o (SetterCall.set_note_range bottom top) with
        note_bottom := o.note_bottom, note_top := o.note_top } = o) ∧
    (∀ enable, { applySetter o (SetterCall.set_phase_vocoder enable) with
        use_phase_vocoder := o.use_phase_vocoder } = o ∧
      (applySetter o (SetterCall.set_phase_vocoder enable)).use_phase_vocoder
        = (if enable ≠ 0 then 1 else 0)) ∧
    (∀ bins factor, { applySetter o (SetterCall.set_drum_removal bins factor) with
        drum_removal_bins := o.drum_removal_bins,
        drum_removal_factor := o.drum_removal_factor } = o) ∧
    (∀ factor, { applySetter o (SetterCall.set_octave_removal factor) with
        octave_removal_factor := o.octave_removal_factor } = o) ∧
    (∀ c, (callSetter o c).1 = waon_error_t.WAON_ERROR_INVALID_PARAM →
      (callSetter o c).2 = some o) ∧
    (∀ c, (callSetter o c).1 = waon_error_t.WAON_SUCCESS
      ∨ (callSetter o c).1 = waon_error_t.WAON_ERROR_INVALID_PARAM) ∧
    (∀ size, waon_options_set_fft_size (none : Option (waon_options R)) size
        = (waon_error_t.WAON_ERROR_INVALID_PARAM, none)) ∧
    (∀ size, waon_options_set_hop_size (none : Option (waon_options R)) size
        = (waon_error_t.WAON_ERROR_INVALID_PARAM, none)) ∧
    (∀ window, waon_options_set_window (none : Option (waon_options R)) window
        = (waon_error_t.WAON_ERROR_INVALID_PARAM, none)) ∧
    (∀ cutoff, waon_options_set_cutoff (none : Option (waon_options R)) cutoff
        = (waon_error_t.WAON_ERROR_INVALID_PARAM, none)) ∧
    (∀ bottom top, waon_options_set_note_range (none : Option (waon_options R)) bottom top
        = (waon_error_t.WAON_ERROR_INVALID_PARAM, none)) ∧
    (∀ enable, waon_options_set_phase_vocoder (none : Option (waon_options R)) enable
        = (waon_error_t.WAON_ERROR_INVALID_PARAM, none)) ∧
    (∀ bins factor, waon_options_set_drum_removal (none : Option (waon_options R)) bins factor
        = (waon_error_t.WAON_ERROR_INVALID_PARAM, none)) ∧
    (∀ factor, waon_options_set_octave_removal (none : Option (waon_options R)) factor
        = (waon_error_t.WAON_ERROR_INVALID_PARAM, none)) := by
  refine ⟨?_, ?_, ?_, ?_, ?_, ?_, ?_, ?_, ?_, ?_, fun _ => rfl, fun _ => rfl, fun _ => rfl,
    fun _ => rfl, fun _ _ => rfl, fun _ => rfl, fun _ _ => rfl, fun _ => rfl⟩
  · intro size
    simp only [applySetter, callSetter, waon_options_set_fft_size]
    split_ifs <;> rfl
  · intro size
    simp only [applySetter, callSetter, waon_options_set_hop_size]
    split_ifs <;> rfl
  · intro window
    simp only [applySetter, callSetter, waon_options_set_window]
    split_ifs <;> rfl
  · intro cutoff
    exact ⟨rfl, rfl, rfl⟩
  · intro bottom top
    simp only [applySetter, callSetter, waon_options_set_note_range]
    split_ifs <;> rfl
  · intro enable
    exact ⟨rfl, rfl⟩
  · intro bins factor
    simp only [applySetter, callSetter, waon_options_set_drum_removal]
    split_ifs <;> rfl
  · intro factor
    simp only [applySetter, callSetter, waon_options_set_octave_removal]
    split_ifs <;> rfl
  · intro c h
    cases c <;>
      simp only [callSetter, waon_options_set_fft_size, waon_options_set_hop_size,
        waon_options_set_window, waon_options_set_cutoff, waon_options_set_note_range,
        waon_options_set_phase_vocoder, waon_options_set_drum_removal,
        waon_options_set_octave_removal] at h ⊢ <;>
      (try split_ifs at h ⊢) <;> first | rfl | cases h
  · intro c
    cases c <;>
      simp only [callSetter, waon_options_set_fft_size, waon_options_set_hop_size,
        waon_options_set_window, waon_options_set_cutoff, waon_options_set_note_range,
        waon_options_set_phase_vocoder, waon_options_set_drum_removal,
        waon_options_set_octave_removal] <;>
      (try split_ifs) <;> simp

/-- The six statements of `waon_options_validate` as one update of the options. -/
theorem waon_options_validate_eq [LinearOrderedField R] (o : waon_options_t R) :
    waon_options_validate o
      = { o with
          hop_size := if o.hop_size = 0 then Int.tdiv o.fft_size 4 else o.hop_size
          window_type := if o.window_type < 0 ∨ o.window_type > 6 then 0 else o.window_type
          drum_removal_factor :=
            if o.drum_removal_bins = 0 then 0.0 else o.drum_removal_factor
          drum_removal_bins :=
            if (if o.drum_removal_bins = 0 then (0.0 : R) else o.drum_removal_factor) = 0.0
            then 0 else o.drum_removal_bins
          output_file :=
            if o.output_file = none ∧ o.dry_run = 0 then some "output.mid" else o.output_file
          input_file := if o.input_file = none then some "-" else o.input_file } := by
  have h1 : validateHop o
      = { o with hop_size := if o.hop_size = 0 then Int.tdiv o.fft_size 4 else o.hop_size } := by
    unfold validateHop
    split_ifs <;> rfl
  have h2 : ∀ a : waon_options_t R, validateWindow a
      = { a with window_type :=
          if a.window_type < 0 ∨ a.window_type > 6 then 0 else a.window_type } := by
    intro a
    unfold validateWindow
    split_ifs <;> rfl
  have h3 : ∀ a : waon_options_t R, validateDrumFactor a
      = { a with drum_removal_factor :=
          if a.drum_removal_bins = 0 then 0.0 else a.drum_removal_factor } := by
    intro a
    unfold validateDrumFactor
    split_ifs <;> rfl
  have h4 : ∀ a : waon_options_t R, validateDrumBins a
      = { a with drum_removal_bins :=
          if a.drum_removal_factor = 0.0 then 0 else a.drum_removal_bins } := by
    intro a
    unfold validateDrumBins
    split_ifs <;> rfl
  have h5 : ∀ a : waon_options_t R, validateOutput a
      = { a with output_file :=
          if a.output_file = none ∧ a.dry_run = 0 then some "output.mid"
          else a.output_file } := by
    intro a
    unfold validateOutput
    split_ifs <;> rfl
  have h6 : ∀ a : waon_options_t R, validateInput a
      = { a with input_file := if a.input_file = none then some "-" else a.input_file } := by
    intro a
    unfold validateInput
    split_ifs <;> rfl
  unfold waon_options_validate
  rw [h1, h2, h3, h4, h5, h6]

/-- C29: for every options value `o`, `waon_options_validate` leaves a window type
in `0 .. 6` (a type outside that range becomes 0, any other is kept), a hop equal to
`o.hop_size` when that is not zero and to `fft_size / 4` otherwise, and drum
settings with `drum_removal_bins = 0` exactly when `drum_removal_factor = 0`; a
second application changes nothing. -/
theorem C29_validate_normalises [LinearOrderedField R] (o : waon_options_t R) :
    (0 ≤ (waon_options_validate o).window_type ∧ (waon_options_validate o).window_type ≤ 6) ∧
    (waon_options_validate o).window_type
      = (if o.window_type < 0 ∨ o.window_type > 6 then 0 else o.window_type) ∧
    (waon_options_validate o).hop_size
      = (if o.hop_size ≠ 0 then o.hop_size else Int.tdiv o.fft_size 4) ∧
    ((waon_options_validate o).drum_removal_bins = 0
      ↔ (waon_options_validate o).drum_removal_factor = 0) ∧
    waon_options_validate (waon_options_validate o) = waon_options_validate o := by
  have e0 : (0.0 : R) = 0 := by norm_num
  have hw : (waon_options_validate o).window_type
      = (if o.window_type < 0 ∨ o.window_type > 6 then 0 else o.window_type) := by
    rw [waon_options_validate_eq]
  have hh : (waon_options_validate o).hop_size
      = (if o.hop_size = 0 then Int.tdiv o.fft_size 4 else o.hop_size) := by
    rw [waon_options_validate_eq]
  have hfft : (waon_options_validate o).fft_size = o.fft_size := by
    rw [waon_options_validate_eq]
  have hf : (waon_options_validate o).drum_removal_factor
      = (if o.drum_removal_bins = 0 then 0 else o.drum_removal_factor) := by
    rw [waon_options_validate_eq, e0]
  have hb : (waon_options_validate o).drum_removal_bins
      = (if (if o.drum_removal_bins = 0 then (0 : R) else o.drum_removal_factor) = 0
          then 0 else o.drum_removal_bins) := by
    rw [waon_options_validate_eq, e0]
  have hout : (waon_options_validate o).output_file
      = (if o.output_file = none ∧ o.dry_run = 0 then some "output.mid" else o.output_file) := by
    rw [waon_options_validate_eq]
  have hdry : (waon_options_validate o).dry_run = o.dry_run := by
    rw [waon_options_validate_eq]
  have hin : (waon_options_validate o).input_file
      = (if o.input_file = none then some "-" else o.input_file) := by
    rw [waon_options_validate_eq]
  have hiff : (waon_options_validate o).drum_removal_bins = 0
      ↔ (waon_options_validate o).drum_removal_factor = 0 := by
    rw [hb, hf]
    split_ifs <;> simp_all
  refine ⟨?_, hw, ?_, hiff, ?_⟩
  · rw [hw]
    split_ifs with h
    · exact ⟨le_refl _, by norm_num⟩
    · omega
  · rw [hh]
    split_ifs <;> simp_all
  · generalize hv : waon_options_validate o = v at hw hh hfft hf hb hout hdry hin hiff
    rw [waon_options_validate_eq v]
    have k1 : (if v.hop_size = 0 then Int.tdiv v.fft_size 4 else v.hop_size) = v.hop_size := by
      rw [hh, hfft]
      split_ifs <;> simp_all
    have k2 : (if v.window_type < 0 ∨ v.window_type > 6 then 0 else v.window_type)
        = v.window_type := by
      rw [hw]
      split_ifs <;> rfl
    have k3 : (if v.drum_removal_bins = 0 then (0.0 : R) else v.drum_removal_factor)
        = v.drum_removal_factor := by
      rw [e0]
      split_ifs with h
      · exact (hiff.mp h).symm
      · rfl
    have k4 : (if (if v.drum_removal_bins = 0 then (0.0 : R) else v.drum_removal_factor) = 0.0
        then 0 else v.drum_removal_bins) = v.drum_removal_bins := by
      rw [k3, e0]
      split_ifs with h
      · exact (hiff.mpr h).symm
      · rfl
    have k5 : (if v.output_file = none ∧ v.dry_run = 0 then some "output.mid"
        else v.output_file) = v.output_file := by
      rw [hout, hdry]
      by_cases hc : o.output_file = none ∧ o.dry_run = 0
      · have hn : ¬ ((some "output.mid" : Option String) = none ∧ o.dry_run = 0) :=
          fun h => Option.some_ne_none _ h.1
        rw [if_pos hc, if_neg hn]
      · rw [if_neg hc, if_neg hc]
    have k6 : (if v.input_file = none then some "-" else v.input_file) = v.input_file := by
      rw [hin]
      by_cases hc : o.input_file = none
      · rw [if_pos hc, if_neg (Option.some_ne_none _)]
      · rw [if_neg hc, if_neg hc]
    rw [k1, k2, k4, k3, k5, k6]

end OptionsFrame

/-! ## Release of the resources of a call -/

section Resources

variable {R : Type}

theorem ledger_append (a b : List Event) :
    ∀ held : List Resource, ledger held (a ++ b) = (ledger held a).bind (fun h => ledger h b) := by
  induction a with
  | nil => intro held; rfl
  | cons e es ih =>
    intro held
    cases e with
    | acquire r =>
      simp only [List.cons_append, ledger]
      split_ifs
      · rfl
      · exact ih _
    | release r =>
      simp only [List.cons_append, ledger]
      split_ifs
      · exact ih _
      · rfl
    | WAON_notes_regulate => simpa only [List.cons_append, ledger] using ih held
    | WAON_notes_remove_shortnotes a b => simpa only [List.cons_append, ledger] using ih held
    | WAON_notes_remove_octaves => simpa only [List.cons_append, ledger] using ih held
    | WAON_notes_output_midi d => simpa only [List.cons_append, ledger] using ih held

/-- The allocation stage: when an allocation fails, everything acquired up to there
has been released, once; when none fails, every buffer is held. -/
theorem allocateBuffers_ledger (failed : Resource → Bool) (flag_phase : Int) :
    ((allocateBuffers failed flag_phase).1 = false →
      ledger [] (allocateBuffers failed flag_phase).2 = some []) ∧
    ((allocateBuffers failed flag_phase).1 = true →
      (allocateBuffers failed flag_phase).2
        = ([Resource.notes, Resource.left, Resource.right, Resource.x, Resource.y,
            Resource.p] ++ phaseArrays flag_phase ++ [Resource.pmidi]).map Event.acquire) := by
  by_cases h1 : failed Resource.notes = true
  · simp [allocateBuffers, h1, ledger]
  by_cases h2 : failed Resource.left = true
  · by_cases h3 : failed Resource.right = true <;>
      simp [allocateBuffers, acquired, rollback, ledger, h1, h2, h3]
  by_cases h3 : failed Resource.right = true
  · simp [allocateBuffers, acquired, rollback, ledger, h1, h2, h3]
  by_cases h4 : failed Resource.x = true
  · by_cases h5 : failed Resource.y = true <;>
      simp [allocateBuffers, acquired, rollback, ledger, h1, h2, h3, h4, h5]
  by_cases h5 : failed Resource.y = true
  · simp [allocateBuffers, acquired, rollback, ledger, h1, h2, h3, h4, h5]
  by_cases h6 : failed Resource.p = true
  · simp [allocateBuffers, acquired, rollback, ledger, h1, h2, h3, h4, h5, h6]
  by_cases hflag : flag_phase = 0
  · by_cases h11 : failed Resource.pmidi = true <;>
      simp [allocateBuffers, acquired, rollback, phaseArrays, ledger, h1, h2, h3, h4, h5, h6,
        hflag, h11]
  · by_cases h7 : failed Resource.p0 = true <;> by_cases h8 : failed Resource.dphi = true <;>
      by_cases h9 : failed Resource.ph0 = true <;> by_cases h10 : failed Resource.ph1 = true <;>
      by_cases h11 : failed Resource.pmidi = true <;>
      simp [allocateBuffers, acquired, rollback, phaseArrays, ledger, h1, h2, h3, h4, h5, h6,
        hflag, h7, h8, h9, h10, h11]

/-- Once every buffer is held, the creation of the plan, the calls after the frame
loop (if any) and the releases after `cleanup:` leave nothing held. -/
theorem cleanup_ledger (flag_phase : Int) (post : List Event)
    (hpost : ∀ held, ledger held post = some held) :
    ledger [] (([Resource.notes, Resource.left, Resource.right, Resource.x, Resource.y,
        Resource.p] ++ phaseArrays flag_phase ++ [Resource.pmidi]).map Event.acquire
      ++ [Event.acquire Resource.plan] ++ post ++ cleanupEvents flag_phase) = some [] := by
  rw [ledger_append, ledger_append]
  by_cases hflag : flag_phase = 0
  · have e : ledger [] (([Resource.notes, Resource.left, Resource.right, Resource.x,
          Resource.y, Resource.p] ++ phaseArrays flag_phase ++ [Resource.pmidi]).map
          Event.acquire ++ [Event.acquire Resource.plan])
        = some [Resource.plan, Resource.pmidi, Resource.p, Resource.y, Resource.x,
            Resource.right, Resource.left, Resource.notes] := by
      simp [phaseArrays, hflag, ledger]
    rw [e]
    simp only [Option.some_bind, hpost]
    simp [cleanupEvents, phaseArrays, hflag, ledger]
  · have e : ledger [] (([Resource.notes, Resource.left, Resource.right, Resource.x,
          Resource.y, Resource.p] ++ phaseArrays flag_phase ++ [Resource.pmidi]).map
          Event.acquire ++ [Event.acquire Resource.plan])
        = some [Resource.plan, Resource.pmidi, Resource.ph1, Resource.ph0, Resource.dphi,
            Resource.p0, Resource.p, Resource.y, Resource.x, Resource.right, Resource.left,
            Resource.notes] := by
      simp [phaseArrays, hflag, ledger]
    rw [e]
    simp only [Option.some_bind, hpost]
    simp [cleanupEvents, phaseArrays, hflag, ledger]

theorem postProcessing_ledger [LinearOrderedField R] [FloorRing R] (samplerate hop : Int)
    (held : List Resource) :
    ledger held (postProcessing (R := R) samplerate hop) = some held := rfl

/-- Every return of the function once the options are fixed leaves nothing held,
when nothing was held before. -/
theorem transcribeWith_ledger [LinearOrderedField R] [FloorRing R] (fuel : Nat)
    (failed : Resource → Bool) (ctx : waon_context) (src : Source R) (samplerate : Int)
    (o : waon_options R) (ev0 : List Event) (b : Buffers R) (x : Int → R)
    (h0 : ledger [] ev0 = some []) (r : RunResult R)
    (h : transcribeWith fuel failed ctx src samplerate o ev0 b x = some (Outcome.returned r)) :
    ledger [] r.events = some [] := by
  obtain ⟨hfail, hok⟩ := allocateBuffers_ledger failed o.use_phase_vocoder
  rcases transcribeWith_cases fuel failed ctx src samplerate o ev0 b x with
    ⟨_, e⟩ | ⟨_, ha, e⟩ | ⟨_, ha, _, e⟩ | ⟨_, _, _, _, e⟩ | ⟨_, ha, _, _, e⟩
  · rw [e] at h
    obtain ⟨_, _, hev, _⟩ := returnWith_code _ _ _ _ _ _ r (Option.some.inj h)
    rw [hev, h0]
  · rw [e] at h
    obtain ⟨_, _, hev, _⟩ := returnWith_code _ _ _ _ _ _ r (Option.some.inj h)
    rw [hev, ledger_append, h0]
    exact hfail ha
  · rw [e] at h
    obtain ⟨_, _, hev, _⟩ := returnWith_code _ _ _ _ _ _ r (Option.some.inj h)
    rw [hev, List.append_assoc, List.append_assoc, ledger_append, h0, hok ha]
    have := cleanup_ledger o.use_phase_vocoder [] (fun _ => rfl)
    simp only [List.append_nil, List.append_assoc] at this
    simpa only [Option.some_bind, List.append_assoc] using this
  · rw [e] at h
    cases h
  · rw [e] at h
    cases hloop : frameLoop o.fft_size o.hop_size fuel
        { src := (primingRead o.fft_size o.hop_size src b).2.1
          buf := (primingRead o.fft_size o.hop_size src b).2.2
          x := x, icnt := 0, processed := [] } with
    | none =>
      rw [hloop] at h
      cases h
    | some st =>
      rw [hloop] at h
      obtain ⟨_, _, hev, _⟩ := returnWith_code _ _ _ _ _ _ r (Option.some.inj h)
      rw [hev, List.append_assoc, List.append_assoc, List.append_assoc, ledger_append, h0,
        hok ha]
      have := cleanup_ledger o.use_phase_vocoder (postProcessing (R := R) samplerate o.hop_size)
        (postProcessing_ledger samplerate o.hop_size)
      simp only [List.append_assoc] at this
      simpa only [Option.some_bind, List.append_assoc] using this

/-- C21: every return of `waon_transcribe_internal` (wrong channel count, a failed
allocation at any stage, the short priming read, the end of the stream), whatever
allocations fail and whether or not the phase-vocoder arrays are allocated, leaves
a sequence of acquisitions and releases in which every resource acquired (the
temporary default options, the note collection, the buffers, the transform plan)
is released exactly once, after its acquisition, and nothing is released that is
not held; and with a hop other than zero the call does return (for every fuel from
some bound on). -/
theorem C21_resources_released_once [LinearOrderedField R] [FloorRing R]
    (failed : Resource → Bool) (ctx : waon_context) (src : Source R) (samplerate : Int)
    (opts : Option (waon_options R)) (b : Buffers R) (x : Int → R) :
    (∀ (fuel : Nat) (r : RunResult R),
      waon_transcribe_internal fuel failed ctx src samplerate opts b x
        = some (Outcome.returned r) →
      ledger [] r.events = some []) ∧
    ((opts.getD waon_options_create).hop_size ≠ 0 →
      ∃ (F : Nat) (r : RunResult R), ∀ fuel, F ≤ fuel →
        waon_transcribe_internal fuel failed ctx src samplerate opts b x
          = some (Outcome.returned r)) := by
  refine ⟨fun fuel r h => ?_, transcribe_total failed ctx src samplerate opts b x⟩
  cases opts with
  | some o => exact transcribeWith_ledger fuel failed ctx src samplerate o [] b x rfl r h
  | none =>
    by_cases hd : failed Resource.default_options = true
    · simp only [waon_transcribe_internal, hd, if_true] at h
      obtain ⟨_, _, hev, _⟩ := returnWith_code _ _ _ _ _ _ r (Option.some.inj h)
      rw [hev]
      rfl
    · simp only [waon_transcribe_internal, hd, Bool.false_eq_true, if_false] at h
      exact transcribeWith_ledger fuel failed ctx src samplerate waon_options_create
        [Event.acquire Resource.default_options, Event.release Resource.default_options] b x
        rfl r h

end Resources

/-! ## The table analysed at each frame -/

section Mixdown

variable {R : Type}

/-- The frame loop, started with the history arrays holding the input from sample
`k·hop` on in their cells `hop .. len−1`, records for every further frame `n` a table
with `x[i] = mix (n·hop + i)`. -/
theorem frameLoop_frames [LinearOrderedField R] (len : Int) (h : Nat) (src0 : Source R)
    (hle : (h : Int) ≤ len) :
    ∀ (fuel : Nat) (st fin : LoopState R) (k : Nat),
      frameLoop len (h : Int) fuel st = some fin →
      st.src.left = src0.left → st.src.right = src0.right →
      st.src.channels = src0.channels →
      st.src.pos = src0.pos + (len - (h : Int)).toNat + k * h →
      (∀ i, (h : Int) ≤ i → i < len →
        st.buf.left i = src0.left (src0.pos + k * h + (i - (h : Int)).toNat)) →
      (src0.channels = 2 → ∀ i, (h : Int) ≤ i → i < len →
        st.buf.right i = src0.right (src0.pos + k * h + (i - (h : Int)).toNat)) →
      st.icnt = (k : Int) → st.processed.length = k →
      (∀ (n : Nat) (f : Frame R), st.processed[n]? = some f →
        f.icnt = (n : Int) ∧
        ∀ i, 0 ≤ i → i < len → f.x i = mix src0 (src0.pos + n * h + i.toNat)) →
      ∀ (n : Nat) (f : Frame R), fin.processed[n]? = some f →
        f.icnt = (n : Int) ∧
        ∀ i, 0 ≤ i → i < len → f.x i = mix src0 (src0.pos + n * h + i.toNat) := by
  intro fuel
  induction fuel with
  | zero =>
    intro st fin k hloop
    simp only [frameLoop] at hloop
    cases hloop
  | succ m ih =>
    intro st fin k hloop hleft hright hch hpos hbl hbr hicnt hlen hQ
    rw [frameLoop] at hloop
    by_cases hc : (shiftAndRefill len (h : Int) st.src st.buf).1 ≠ (h : Int)
    · rw [if_pos hc] at hloop
      simp only [Option.some.injEq] at hloop
      rw [← hloop]
      exact hQ
    · rw [if_neg hc] at hloop
      have hfull : (shiftAndRefill len (h : Int) st.src st.buf).1 = (h : Int) := not_not.mp hc
      have hcount : ((min (h : Int).toNat (st.src.total - st.src.pos) : Nat) : Int) = (h : Int) := by
        rw [shiftAndRefill, (sndfile_read_count _ _ _ _).1] at hfull
        exact hfull
      have hmin : min (h : Int).toNat (st.src.total - st.src.pos) = h := by omega
      have hsucc : (k + 1) * h = k * h + h := by ring
      have hL : ∀ i, 0 ≤ i → i < len →
          (shiftAndRefill len (h : Int) st.src st.buf).2.2.left i
            = src0.left (src0.pos + k * h + i.toNat) := by
        intro i h0 h1
        rw [(shiftAndRefill_apply len (h : Int) (by omega) st.src st.buf i).1, hcount]
        by_cases hin : len - (h : Int) ≤ i ∧ i < len - (h : Int) + (h : Int)
        · rw [if_pos hin, hleft, hpos]
          exact congrArg src0.left (by omega)
        · have hlow : 0 ≤ i ∧ i < len - (h : Int) := by omega
          rw [if_neg hin, if_pos hlow, hbl (i + (h : Int)) (by omega) (by omega)]
          exact congrArg src0.left (by omega)
      have hRt : src0.channels = 2 → ∀ i, 0 ≤ i → i < len →
          (shiftAndRefill len (h : Int) st.src st.buf).2.2.right i
            = src0.right (src0.pos + k * h + i.toNat) := by
        intro h2 i h0 h1
        rw [(shiftAndRefill_apply len (h : Int) (by omega) st.src st.buf i).2, hcount,
          if_pos (by rw [hch]; exact h2)]
        by_cases hin : len - (h : Int) ≤ i ∧ i < len - (h : Int) + (h : Int)
        · rw [if_pos hin, hright, hpos]
          exact congrArg src0.right (by omega)
        · have hlow : 0 ≤ i ∧ i < len - (h : Int) := by omega
          rw [if_neg hin, if_pos hlow, hbr h2 (i + (h : Int)) (by omega) (by omega)]
          exact congrArg src0.right (by omega)
      have hch2 : (shiftAndRefill len (h : Int) st.src st.buf).2.1.channels = src0.channels := by
        rw [shiftAndRefill, (sndfile_read_count _ _ _ _).2.2.2, hch]
      have hx : ∀ i, 0 ≤ i → i < len →
          mixdown (shiftAndRefill len (h : Int) st.src st.buf).2.1.channels len
            (shiftAndRefill len (h : Int) st.src st.buf).2.2 st.x i
            = mix src0 (src0.pos + k * h + i.toNat) := by
        intro i h0 h1
        have hin : 0 ≤ i ∧ i < len := ⟨h0, h1⟩
        rw [mixdown_apply, if_pos hin, hch2]
        by_cases h2 : src0.channels = 2
        · rw [if_pos h2, hL i h0 h1, hRt h2 i h0 h1, mix, if_pos h2]
        · rw [if_neg h2, hL i h0 h1, mix, if_neg h2]
      refine ih _ fin (k + 1) hloop hleft hright hch2 ?_ ?_ ?_ ?_ ?_ ?_
      · show (shiftAndRefill len (h : Int) st.src st.buf).2.1.pos = _
        rw [shiftAndRefill, (sndfile_read_count _ _ _ _).2.1, hmin, hpos, hsucc]
        omega
      · intro i h0 h1
        show (shiftAndRefill len (h : Int) st.src st.buf).2.2.left i = _
        rw [hL i (by omega) h1, hsucc]
        exact congrArg src0.left (by omega)
      · intro h2 i h0 h1
        show (shiftAndRefill len (h : Int) st.src st.buf).2.2.right i = _
        rw [hRt h2 i (by omega) h1, hsucc]
        exact congrArg src0.right (by omega)
      · show st.icnt + 1 = ((k + 1 : Nat) : Int)
        rw [hicnt]
        push_cast
        rfl
      · show (st.processed ++ [_]).length = k + 1
        rw [List.length_append, hlen]
        rfl
      · intro n f hn
        rcases Nat.lt_or_ge n st.processed.length with hlt | hge
        · exact hQ n f (by
            rw [← hn]
            exact (List.getElem?_append_left hlt).symm)
        · have hn' : (st.processed ++
              [({ icnt := st.icnt
                  x := mixdown (shiftAndRefill len (h : Int) st.src st.buf).2.1.channels len
                    (shiftAndRefill len (h : Int) st.src st.buf).2.2 st.x } : Frame R)])[n]?
              = some f := hn
          rw [List.getElem?_append_right hge] at hn'
          have hidx : n - st.processed.length = 0 := by
            by_contra hne
            rw [List.getElem?_eq_none (by simp; omega)] at hn'
            cases hn'
          rw [hidx] at hn'
          simp only [List.getElem?_cons_zero, Option.some.injEq] at hn'
          have hnk : n = k := by omega
          subst hn'
          subst hnk
          exact ⟨hicnt, hx⟩

/-- A complete priming read leaves the history arrays holding the first `len − hop`
samples of the input in their cells `hop .. len−1`. -/
theorem primingRead_cells (len hop : Int) (src : Source R) (b : Buffers R)
    (hflag : (primingRead len hop src b).1 = true) (hle : hop ≤ len) :
    (primingRead len hop src b).2.1.left = src.left ∧
    (primingRead len hop src b).2.1.right = src.right ∧
    (primingRead len hop src b).2.1.channels = src.channels ∧
    (primingRead len hop src b).2.1.pos = src.pos + (len - hop).toNat ∧
    (∀ i, hop ≤ i → i < len →
      (primingRead len hop src b).2.2.left i = src.left (src.pos + (i - hop).toNat)) ∧
    (src.channels = 2 → ∀ i, hop ≤ i → i < len →
      (primingRead len hop src b).2.2.right i = src.right (src.pos + (i - hop).toNat)) := by
  by_cases hne : hop ≠ len
  · simp only [primingRead, if_pos hne] at hflag ⊢
    have hcount : ((min (len - hop).toNat (src.total - src.pos) : Nat) : Int) = len - hop := by
      have := of_decide_eq_true hflag
      rw [(sndfile_read_count _ _ _ _).1] at this
      exact this
    have hmin : min (len - hop).toNat (src.total - src.pos) = (len - hop).toNat := by omega
    refine ⟨rfl, rfl, rfl, ?_, ?_, ?_⟩
    · rw [(sndfile_read_count _ _ _ _).2.1, hmin]
    · intro i h0 h1
      have hin : hop ≤ i
          ∧ i < hop + ((min (len - hop).toNat (src.total - src.pos) : Nat) : Int) := by
        rw [hcount]
        omega
      simp only [sndfile_read, if_pos hin]
    · intro hc i h0 h1
      have hin : hop ≤ i
          ∧ i < hop + ((min (len - hop).toNat (src.total - src.pos) : Nat) : Int) := by
        rw [hcount]
        omega
      simp only [sndfile_read, if_pos hc, if_pos hin]
  · have heq : hop = len := not_not.mp hne
    have hz : (len - hop).toNat = 0 := by omega
    simp only [primingRead, if_neg hne, hz, Nat.add_zero, true_and]
    exact ⟨fun i h0 h1 => by omega, fun _ i h0 h1 => by omega⟩

/-- Every frame processed by a call with `1 ≤ hop ≤ len` has the table
`x[i] = mix (k·hop + i)`, `k` being its place in the sequence and its counter. -/
theorem transcribeWith_frames [LinearOrderedField R] [FloorRing R] (fuel : Nat)
    (failed : Resource → Bool) (ctx : waon_context) (src : Source R) (samplerate : Int)
    (o : waon_options R) (ev0 : List Event) (b : Buffers R) (x : Int → R)
    (h1 : 1 ≤ o.hop_size) (h2 : o.hop_size ≤ o.fft_size) (r : RunResult R)
    (h : transcribeWith fuel failed ctx src samplerate o ev0 b x = some (Outcome.returned r)) :
    ∀ (k : Nat) (f : Frame R), r.processed[k]? = some f →
      f.icnt = (k : Int) ∧
      ∀ i, 0 ≤ i → i < o.fft_size →
        f.x i = mix src (src.pos + k * o.hop_size.toNat + i.toNat) := by
  intro k f hk
  rcases transcribeWith_cases fuel failed ctx src samplerate o ev0 b x with
    ⟨_, e⟩ | ⟨_, _, e⟩ | ⟨_, _, _, e⟩ | ⟨_, _, _, _, e⟩ | ⟨_, _, hp, _, e⟩
  · rw [e] at h
    obtain ⟨_, _, _, hpr, _⟩ := returnWith_code _ _ _ _ _ _ r (Option.some.inj h)
    rw [hpr] at hk
    cases hk
  · rw [e] at h
    obtain ⟨_, _, _, hpr, _⟩ := returnWith_code _ _ _ _ _ _ r (Option.some.inj h)
    rw [hpr] at hk
    cases hk
  · rw [e] at h
    obtain ⟨_, _, _, hpr, _⟩ := returnWith_code _ _ _ _ _ _ r (Option.some.inj h)
    rw [hpr] at hk
    cases hk
  · rw [e] at h
    cases h
  · rw [e] at h
    cases hloop : frameLoop o.fft_size o.hop_size fuel
        { src := (primingRead o.fft_size o.hop_size src b).2.1
          buf := (primingRead o.fft_size o.hop_size src b).2.2
          x := x, icnt := 0, processed := [] } with
    | none =>
      rw [hloop] at h
      cases h
    | some st =>
      rw [hloop] at h
      obtain ⟨_, _, _, hpr, _⟩ := returnWith_code _ _ _ _ _ _ r (Option.some.inj h)
      rw [hpr] at hk
      obtain ⟨c1, c2, c3, c4, c5, c6⟩ := primingRead_cells o.fft_size o.hop_size src b hp h2
      obtain ⟨n, hn⟩ : ∃ n : Nat, o.hop_size = (n : Int) := ⟨o.hop_size.toNat, by omega⟩
      rw [hn] at hloop c1 c2 c3 c4 c5 c6 h2 ⊢
      rw [Int.toNat_ofNat]
      exact frameLoop_frames o.fft_size n src h2 fuel _ st 0 hloop c1 c2 c3
        (by rw [c4]; simp) (fun i h0 h1 => by rw [c5 i h0 h1]; simp)
        (fun hc i h0 h1 => by rw [c6 hc i h0 h1]; simp) rfl rfl
        (fun m g hm => by cases hm) k f hk

/-- A call in which every allocation succeeds, on a mono or stereo source that holds
at least `len − hop` samples, with `1 ≤ hop ≤ len`: if it returns, it returns
`WAON_SUCCESS` and has processed `(T − (len − hop)) / hop` frames, `T` being the
number of samples left in the source at the call. -/
theorem transcribeWith_frame_count [LinearOrderedField R] [FloorRing R] (fuel : Nat)
    (failed : Resource → Bool) (ctx : waon_context) (src : Source R) (samplerate : Int)
    (o : waon_options R) (ev0 : List Event) (b : Buffers R) (x : Int → R)
    (hfail : ∀ res, failed res = false) (hch : src.channels = 1 ∨ src.channels = 2)
    (h1 : 1 ≤ o.hop_size) (h2 : o.hop_size ≤ o.fft_size)
    (henough : o.fft_size - o.hop_size ≤ ((src.total - src.pos : Nat) : Int))
    (r : RunResult R)
    (h : transcribeWith fuel failed ctx src samplerate o ev0 b x = some (Outcome.returned r)) :
    r.code = waon_error_t.WAON_SUCCESS ∧
    r.processed.length
      = (src.total - src.pos - (o.fft_size - o.hop_size).toNat) / o.hop_size.toNat := by
  obtain ⟨hp1, hpos, htot, _⟩ := primingRead_ok o.fft_size o.hop_size src b h2 henough
  have halloc := allocateBuffers_ok failed hfail o.use_phase_vocoder
  obtain ⟨hn, hhn⟩ : ∃ hn : Nat, o.hop_size = (hn : Int) := ⟨o.hop_size.toNat, by omega⟩
  rcases transcribeWith_cases fuel failed ctx src samplerate o ev0 b x with
    ⟨hc, _⟩ | ⟨_, ha, _⟩ | ⟨_, _, hp, _⟩ | ⟨_, _, _, hz, _⟩ | ⟨_, _, _, _, e⟩
  · rcases hch with hc1 | hc2
    · exact absurd hc1 hc.2
    · exact absurd hc2 hc.1
  · rw [halloc] at ha
    cases ha
  · rw [hp1] at hp
    cases hp
  · omega
  · rw [e] at h
    obtain ⟨st, hst, hret⟩ := Option.map_eq_some'.mp h
    obtain ⟨_, hcode, _, hpr, _⟩ := returnWith_code _ _ _ _ _ _ r hret
    refine ⟨hcode, ?_⟩
    obtain ⟨fin, hfin, hmap⟩ := frameLoop_count o.fft_size hn (by omega)
      (((primingRead o.fft_size o.hop_size src b).2.1.total
        - (primingRead o.fft_size o.hop_size src b).2.1.pos) / hn)
      { src := (primingRead o.fft_size o.hop_size src b).2.1
        buf := (primingRead o.fft_size o.hop_size src b).2.2
        x := x, icnt := 0, processed := [] }
      (fuel + (((primingRead o.fft_size o.hop_size src b).2.1.total
        - (primingRead o.fft_size o.hop_size src b).2.1.pos) / hn + 1)) rfl (by omega)
    have hsame := frameLoop_mono o.fft_size o.hop_size fuel _ st hst
      (((primingRead o.fft_size o.hop_size src b).2.1.total
        - (primingRead o.fft_size o.hop_size src b).2.1.pos) / hn + 1)
    rw [← hhn] at hfin
    rw [hfin, Option.some.injEq] at hsame
    have hlen := congrArg List.length hmap
    simp only [List.length_map, List.map_nil, List.nil_append, List.length_range] at hlen
    rw [hpr, ← hsame, hlen, hpos, htot, hhn, Int.toNat_ofNat, Nat.sub_add_eq]

/-- C25: for every source and every `1 ≤ hop ≤ len`, whatever the history arrays
and the table held before and whatever allocations fail, the call returns (for
every fuel from some bound on), and the `k`-th frame it has processed carries the
counter `k` and the table `x[i] = mix (k·hop + i)` for all `0 ≤ i < len`, counted
from the position of the source at the call: `mix j` is sample `j` of the left
channel for a mono input and the mean of the samples `j` of both channels for a
stereo input. When every allocation succeeds and the source is mono or stereo and
holds at least `len − hop` samples, the call returns `WAON_SUCCESS` and the frames
it has processed are `(T − (len − hop)) / hop` in number, `T` being the number of
samples left in the source at the call: every `k` below that number has its
frame. -/
theorem C25_mixdown_of_frame [LinearOrderedField R] [FloorRing R]
    (failed : Resource → Bool) (ctx : waon_context) (src : Source R) (samplerate : Int)
    (opts : Option (waon_options R)) (b : Buffers R) (x : Int → R)
    (h1 : 1 ≤ (opts.getD waon_options_create).hop_size)
    (h2 : (opts.getD waon_options_create).hop_size ≤ (opts.getD waon_options_create).fft_size) :
    ∃ (F : Nat) (r : RunResult R),
      (∀ fuel, F ≤ fuel →
        waon_transcribe_internal fuel failed ctx src samplerate opts b x
          = some (Outcome.returned r)) ∧
      (∀ (k : Nat) (f : Frame R), r.processed[k]? = some f →
        f.icnt = (k : Int) ∧
        ∀ i, 0 ≤ i → i < (opts.getD waon_options_create).fft_size →
          f.x i = mix src
            (src.pos + k * (opts.getD waon_options_create).hop_size.toNat + i.toNat)) ∧
      ((∀ res, failed res = false) → (src.channels = 1 ∨ src.channels = 2) →
        (opts.getD waon_options_create).fft_size - (opts.getD waon_options_create).hop_size
          ≤ ((src.total - src.pos : Nat) : Int) →
        r.code = waon_error_t.WAON_SUCCESS ∧
        r.processed.length
          = (src.total - src.pos
              - ((opts.getD waon_options_create).fft_size
                  - (opts.getD waon_options_create).hop_size).toNat)
            / (opts.getD waon_options_create).hop_size.toNat ∧
        ∀ k : Nat, k < (src.total - src.pos
              - ((opts.getD waon_options_create).fft_size
                  - (opts.getD waon_options_create).hop_size).toNat)
            / (opts.getD waon_options_create).hop_size.toNat →
          ∃ f : Frame R, r.processed[k]? = some f ∧ f.icnt = (k : Int) ∧
            ∀ i, 0 ≤ i → i < (opts.getD waon_options_create).fft_size →
              f.x i = mix src
                (src.pos + k * (opts.getD waon_options_create).hop_size.toNat + i.toNat)) := by
  obtain ⟨F, r, hF⟩ := transcribe_total failed ctx src samplerate opts b x (by omega)
  have h := hF F le_rfl
  have hframes : ∀ (k : Nat) (f : Frame R), r.processed[k]? = some f →
      f.icnt = (k : Int) ∧
      ∀ i, 0 ≤ i → i < (opts.getD waon_options_create).fft_size →
        f.x i = mix src
          (src.pos + k * (opts.getD waon_options_create).hop_size.toNat + i.toNat) := by
    cases opts with
    | some o => exact transcribeWith_frames F failed ctx src samplerate o [] b x h1 h2 r h
    | none =>
      by_cases hd : failed Resource.default_options = true
      · simp only [waon_transcribe_internal, hd, if_true] at h
        obtain ⟨_, _, _, hpr, _⟩ := returnWith_code _ _ _ _ _ _ r (Option.some.inj h)
        intro k f hk
        rw [hpr] at hk
        cases hk
      · simp only [waon_transcribe_internal, hd, Bool.false_eq_true, if_false] at h
        exact transcribeWith_frames F failed ctx src samplerate waon_options_create
          [Event.acquire Resource.default_options, Event.release Resource.default_options] b x
          h1 h2 r h
  refine ⟨F, r, hF, hframes, fun hfail hch henough => ?_⟩
  have hcount : r.code = waon_error_t.WAON_SUCCESS ∧
      r.processed.length
        = (src.total - src.pos
            - ((opts.getD waon_options_create).fft_size
                - (opts.getD waon_options_create).hop_size).toNat)
          / (opts.getD waon_options_create).hop_size.toNat := by
    rcases transcribe_unfold F failed ctx src samplerate opts b x with
      ⟨_, hd, _⟩ | ⟨ev0, _, e⟩
    · rw [hfail] at hd
      cases hd
    · rw [e] at h
      exact transcribeWith_frame_count F failed ctx src samplerate
        (opts.getD waon_options_create) ev0 b x hfail hch h1 h2 henough r h
  refine ⟨hcount.1, hcount.2, fun k hk => ?_⟩
  have hlt : k < r.processed.length := by rw [hcount.2]; exact hk
  exact ⟨r.processed[k], List.getElem?_eq_getElem hlt,
    hframes k _ (List.getElem?_eq_getElem hlt)⟩

/-- Witness of C25: a mono ramp of 9 samples, frame size 4, hop 3, history arrays
and table holding other values before the call: two frames are processed, with the
tables `(0, 1, 2, 3)` and `(3, 4, 5, 6)`. -/
theorem C25_mixdown_of_frame_witness :
    ∃ (F : Nat) (r : RunResult ℚ),
      (∀ fuel, F ≤ fuel →
        waon_transcribe_internal fuel (fun _ => false) callbackContext (rampSource 9) 44100
          (some (optionsWith 4 3)) (constBuffers 7) (fun _ => 5)
          = some (Outcome.returned r)) ∧
      r.code = waon_error_t.WAON_SUCCESS ∧ r.processed.length = 2 ∧
      (∃ f : Frame ℚ, r.processed[0]? = some f ∧ f.icnt = 0 ∧
        f.x 0 = 0 ∧ f.x 1 = 1 ∧ f.x 2 = 2 ∧ f.x 3 = 3) ∧
      (∃ f : Frame ℚ, r.processed[1]? = some f ∧ f.icnt = 1 ∧
        f.x 0 = 3 ∧ f.x 1 = 4 ∧ f.x 2 = 5 ∧ f.x 3 = 6) := by
  obtain ⟨F, r, hF, _, hrest⟩ := C25_mixdown_of_frame (fun _ => false) callbackContext
    (rampSource 9) 44100 (some (optionsWith 4 3)) (constBuffers 7) (fun _ => 5)
    (by decide) (by decide)
  obtain ⟨hcode, hlen, hall⟩ := hrest (fun _ => rfl) (Or.inl rfl) (by decide)
  obtain ⟨f0, hf0, hi0, hx0⟩ := hall 0 (by decide)
  obtain ⟨f1, hf1, hi1, hx1⟩ := hall 1 (by decide)
  refine ⟨F, r, hF, hcode, hlen, ⟨f0, hf0, hi0, ?_, ?_, ?_, ?_⟩, ⟨f1, hf1, hi1, ?_, ?_, ?_, ?_⟩⟩
  · rw [hx0 0 (by decide) (by decide)]
    simp [mix, rampSource]
  · rw [hx0 1 (by decide) (by decide)]
    simp [mix, rampSource]
  · rw [hx0 2 (by decide) (by decide)]
    simp [mix, rampSource]
  · rw [hx0 3 (by decide) (by decide)]
    simp [mix, rampSource]
  · rw [hx1 0 (by decide) (by decide)]
    simp [mix, rampSource, optionsWith]
  · rw [hx1 1 (by decide) (by decide)]
    simp [mix, rampSource, optionsWith]
  · rw [hx1 2 (by decide) (by decide)]
    simp [mix, rampSource, optionsWith]
  · rw [hx1 3 (by decide) (by decide)]
    simp [mix, rampSource, optionsWith]

end Mixdown

/-! ## The previous-frame arrays of the corrector -/

section Snapshot

variable {R : Type}

theorem frequency_fold_p0 [LinearOrderedField R] (len samplerate : Int) (m : Nat)
    (s : Spectral R) :
    ((List.range m).foldl (fun acc (k : Nat) => frequencyBin len samplerate acc (k : Int)) s).p0
      = s.p0 := by
  induction m with
  | zero => rfl
  | succ m ih =>
    rw [List.range_succ, List.foldl_append]
    simp only [List.foldl_cons, List.foldl_nil]
    exact ih

/-- The corrector returns from some fuel on, and leaves in `p0` and `ph0` the power
and the phase it was given, on the full span; on a later frame the phase
difference it stores is the wrapped difference to the phase `ph0` held before. -/
theorem phaseVocoder_previous [LinearOrderedField R] [FloorRing R] (sqrt : R → R) (pi : R)
    (hpi : 0 < pi) (len hop icnt : Int) (s : Spectral R) :
    ∃ F : Nat, ∀ fuel, F ≤ fuel → ∃ t,
      phaseVocoder sqrt pi fuel len hop icnt s = some t ∧
      ∀ j : Int, 0 ≤ j → j ≤ Int.tdiv len 2 →
        t.p0 j = s.p j ∧ t.ph0 j = s.ph1 j ∧
        (icnt ≠ 0 →
          t.dphi j = (s.ph1 j - s.ph0 j - 2 * pi * (j : R) / (len : R) * (hop : R)
              - 2 * pi * (⌊(s.ph1 j - s.ph0 j - 2 * pi * (j : R) / (len : R) * (hop : R) + pi)
                  / (2 * pi)⌋ : R)) / (2 * pi) / (hop : R)) := by
  by_cases hi : icnt = 0
  · subst hi
    refine ⟨0, fun fuel _ => ?_⟩
    obtain ⟨t, ht, _, _, hrest⟩ := phaseVocoder_bootstrap sqrt pi fuel len hop s
    exact ⟨t, ht, fun j h0 h1 =>
      ⟨(hrest j h0 h1).2.1, (hrest j h0 h1).2.2, fun hne => absurd rfl hne⟩⟩
  · obtain ⟨F, hF⟩ := phaseVocoder_steady sqrt pi hpi len hop icnt hi s
    refine ⟨F, fun fuel hf => ?_⟩
    obtain ⟨t, ht, _, hrest⟩ := hF fuel hf
    exact ⟨t, ht, fun j h0 h1 =>
      ⟨(hrest j h0 h1).2.2.1, (hrest j h0 h1).2.2.2.1, fun _ => (hrest j h0 h1).2.2.2.2⟩⟩

/-- With the phase vocoder, the analysis of a frame returns once the corrector has
returned `t`: the previous-frame arrays of the new state are those of `t`, and the
frequency array handed on is `(j/len + t.dphi j) · samplerate` on the full span. -/
theorem analyseOne_of_vocoder [LinearOrderedField R] [FloorRing R] (A : Routines R)
    (sqrt : R → R) (pi : R) (fuel : Nat) (mid2freq : Int → R) (options : waon_options R)
    (samplerate : Int) (st : AnalysisState R) (f : Frame R) (t : Spectral R)
    (hflag : options.use_phase_vocoder ≠ 0)
    (ht : phaseVocoder sqrt pi fuel options.fft_size options.hop_size f.icnt
      { st.spec with p := (extractPolar A options f).1, ph1 := (extractPolar A options f).2 }
      = some t) :
    ∃ r g, analyseOne A sqrt pi fuel mid2freq options samplerate st f = some r ∧
      r.1.spec.p0 = t.p0 ∧ r.1.spec.ph0 = t.ph0 ∧ r.2.freq = some g ∧
      ∀ j : Int, 0 ≤ j → j ≤ Int.tdiv options.fft_size 2 →
        g j = ((j : R) / (options.fft_size : R) + t.dphi j) * (samplerate : R) := by
  have ht' : phaseVocoder sqrt pi fuel options.fft_size options.hop_size f.icnt
      { st.spec with
        p := (A.HC_to_polar2 options.fft_size (A.fftw_execute options.fft_size
          (A.windowing options.fft_size f.x options.window_type 1.0)) 0
          (A.init_den options.fft_size options.window_type)).1
        ph1 := (A.HC_to_polar2 options.fft_size (A.fftw_execute options.fft_size
          (A.windowing options.fft_size f.x options.window_type 1.0)) 0
          (A.init_den options.fft_size options.window_type)).2 } = some t := ht
  refine ⟨_, _, by
    simp only [analyseOne, analyseFrame, if_neg hflag, ht', Option.map_some']
    rfl, ?_, ?_, rfl, fun j h0 h1 => ?_⟩
  · show (forLoop _ (frequencyBin _ _) _).p0 = t.p0
    simp only [forLoop]
    rw [frequency_fold_p0]
  · show (forLoop _ (frequencyBin _ _) _).ph0 = t.ph0
    simp only [forLoop]
    rw [frequency_fold_ph0]
  · show (forLoop _ (frequencyBin _ _) _).dphi j = _
    simp only [forLoop]
    rw [(frequency_fold _ _ _ _).2 j, if_pos (bin_in_span options.fft_size j h0 h1)]

/-- With the phase vocoder, the analysis of a frame returns, with the same result
for every fuel from some bound on; the previous-frame arrays of the new state hold
the power and the phase extracted from the frame, and on a later frame the
frequency handed on comes from the wrapped difference between the phase extracted
and the previous phase held before. -/
theorem analyseOne_previous [LinearOrderedField R] [FloorRing R] (A : Routines R)
    (sqrt : R → R) (pi : R) (hpi : 0 < pi) (mid2freq : Int → R) (options : waon_options R)
    (samplerate : Int) (hflag : options.use_phase_vocoder ≠ 0) (st : AnalysisState R)
    (f : Frame R) :
    ∃ (F : Nat) (r : AnalysisState R × Handoff R),
      (∀ fuel, F ≤ fuel →
        analyseOne A sqrt pi fuel mid2freq options samplerate st f = some r) ∧
      ∀ j : Int, 0 ≤ j → j ≤ Int.tdiv options.fft_size 2 →
        r.1.spec.p0 j = (extractPolar A options f).1 j ∧
        r.1.spec.ph0 j = (extractPolar A options f).2 j ∧
        (f.icnt ≠ 0 → ∃ g, r.2.freq = some g ∧
          g j = ((j : R) / (options.fft_size : R)
            + ((extractPolar A options f).2 j - st.spec.ph0 j
                - 2 * pi * (j : R) / (options.fft_size : R) * (options.hop_size : R)
                - 2 * pi * (⌊((extractPolar A options f).2 j - st.spec.ph0 j
                    - 2 * pi * (j : R) / (options.fft_size : R) * (options.hop_size : R) + pi)
                    / (2 * pi)⌋ : R)) / (2 * pi) / (options.hop_size : R))
            * (samplerate : R)) := by
  obtain ⟨F1, r, h1⟩ := analyseOne_total A sqrt pi hpi mid2freq options samplerate st f
  obtain ⟨F2, h2⟩ := phaseVocoder_previous sqrt pi hpi options.fft_size options.hop_size f.icnt
    { st.spec with p := (extractPolar A options f).1, ph1 := (extractPolar A options f).2 }
  refine ⟨F1, r, h1, fun j h0 hj => ?_⟩
  obtain ⟨t, ht, hrest⟩ := h2 (max F1 F2) (le_max_right _ _)
  obtain ⟨r2, g, hr2, hp0, hph0, hg, hfreq⟩ := analyseOne_of_vocoder A sqrt pi (max F1 F2)
    mid2freq options samplerate st f t hflag ht
  have hr : r2 = r := by
    have := h1 (max F1 F2) (le_max_left _ _)
    rw [hr2] at this
    exact Option.some.inj this
  subst hr
  obtain ⟨e1, e2, e3⟩ := hrest j h0 hj
  refine ⟨by rw [hp0]; exact e1, by rw [hph0]; exact e2, fun hne => ⟨g, hg, ?_⟩⟩
  rw [hfreq j h0 hj, e3 hne]

/-- C26: with the phase vocoder enabled and `π > 0`, the analysis of any frame
returns (for every fuel from some bound on) and leaves, for every bin
`0 ≤ j ≤ N/2`, the stored previous power `p0[j]` and previous phase `ph0[j]` equal to
the power and phase extracted from that frame, before any averaging; and when the
next frame is analysed, the frequency handed on comes from the phase difference
`ph1[j] − ph0[j] − 2π·j·hop/N` taken against the phase extracted from the frame
before, wrapped to `[−π, π)`, and its own extracted power and phase are stored in
turn. -/
theorem C26_previous_frame_snapshot [LinearOrderedField R] [FloorRing R] (A : Routines R)
    (sqrt : R → R) (pi : R) (mid2freq : Int → R) (options : waon_options R)
    (samplerate : Int) (st : AnalysisState R) (f f' : Frame R)
    (hpi : 0 < pi) (hflag : options.use_phase_vocoder ≠ 0) (hnext : f'.icnt ≠ 0) :
    ∃ (F : Nat) (r r' : AnalysisState R × Handoff R),
      (∀ fuel, F ≤ fuel →
        analyseOne A sqrt pi fuel mid2freq options samplerate st f = some r ∧
        analyseOne A sqrt pi fuel mid2freq options samplerate r.1 f' = some r') ∧
      ∀ j : Int, 0 ≤ j → j ≤ Int.tdiv options.fft_size 2 →
        r.1.spec.p0 j = (extractPolar A options f).1 j ∧
        r.1.spec.ph0 j = (extractPolar A options f).2 j ∧
        r'.1.spec.p0 j = (extractPolar A options f').1 j ∧
        r'.1.spec.ph0 j = (extractPolar A options f').2 j ∧
        ∃ g, r'.2.freq = some g ∧
          g j = ((j : R) / (options.fft_size : R)
            + ((extractPolar A options f').2 j - (extractPolar A options f).2 j
                - 2 * pi * (j : R) / (options.fft_size : R) * (options.hop_size : R)
                - 2 * pi * (⌊((extractPolar A options f').2 j - (extractPolar A options f).2 j
                    - 2 * pi * (j : R) / (options.fft_size : R) * (options.hop_size : R) + pi)
                    / (2 * pi)⌋ : R)) / (2 * pi) / (options.hop_size : R))
            * (samplerate : R) := by
  obtain ⟨F1, r, h1, hr⟩ := analyseOne_previous A sqrt pi hpi mid2freq options samplerate
    hflag st f
  obtain ⟨F2, r', h2, hr'⟩ := analyseOne_previous A sqrt pi hpi mid2freq options samplerate
    hflag r.1 f'
  refine ⟨max F1 F2, r, r', fun fuel hf =>
    ⟨h1 fuel (le_trans (le_max_left _ _) hf), h2 fuel (le_trans (le_max_right _ _) hf)⟩,
    fun j h0 hj => ?_⟩
  obtain ⟨a1, a2, _⟩ := hr j h0 hj
  obtain ⟨b1, b2, b3⟩ := hr' j h0 hj
  obtain ⟨g, hg, hgj⟩ := b3 hnext
  refine ⟨a1, a2, b1, b2, g, hg, ?_⟩
  rw [hgj, a2]

/-- Witness of C26: frame size 4, hop 3, phase vocoder on, the frames with counters 0
and 1 of a ramp, analysed from cleared arrays with the stand-in routines and
`π` replaced by 3. -/
theorem C26_previous_frame_snapshot_witness :
    ∃ (F : Nat) (r r' : AnalysisState ℚ × Handoff ℚ),
      (∀ fuel, F ≤ fuel →
        analyseOne sampleRoutines (fun q => q) 3 fuel (fun n => (n : ℚ)) (optionsWith 4 3) 44100
          (startAnalysis (optionsWith 4 3) (constGlobals 0 0) (constSpectral 0) (fun _ => 0))
          (rampFrame 0 0) = some r ∧
        analyseOne sampleRoutines (fun q => q) 3 fuel (fun n => (n : ℚ)) (optionsWith 4 3) 44100
          r.1 (rampFrame 1 3) = some r') ∧
      ∀ j : Int, 0 ≤ j → j ≤ Int.tdiv (optionsWith 4 3).fft_size 2 →
        r.1.spec.p0 j = (extractPolar sampleRoutines (optionsWith 4 3) (rampFrame 0 0)).1 j ∧
        r.1.spec.ph0 j = (extractPolar sampleRoutines (optionsWith 4 3) (rampFrame 0 0)).2 j ∧
        r'.1.spec.p0 j = (extractPolar sampleRoutines (optionsWith 4 3) (rampFrame 1 3)).1 j ∧
        r'.1.spec.ph0 j = (extractPolar sampleRoutines (optionsWith 4 3) (rampFrame 1 3)).2 j ∧
        ∃ g, r'.2.freq = some g ∧
          g j = ((j : ℚ) / ((optionsWith 4 3).fft_size : ℚ)
            + ((extractPolar sampleRoutines (optionsWith 4 3) (rampFrame 1 3)).2 j
                - (extractPolar sampleRoutines (optionsWith 4 3) (rampFrame 0 0)).2 j
                - 2 * 3 * (j : ℚ) / ((optionsWith 4 3).fft_size : ℚ)
                  * ((optionsWith 4 3).hop_size : ℚ)
                - 2 * 3 * (⌊((extractPolar sampleRoutines (optionsWith 4 3) (rampFrame 1 3)).2 j
                    - (extractPolar sampleRoutines (optionsWith 4 3) (rampFrame 0 0)).2 j
                    - 2 * 3 * (j : ℚ) / ((optionsWith 4 3).fft_size : ℚ)
                      * ((optionsWith 4 3).hop_size : ℚ) + 3)
                    / (2 * 3)⌋ : ℚ)) / (2 * 3) / ((optionsWith 4 3).hop_size : ℚ))
            * ((44100 : Int) : ℚ) :=
  C26_previous_frame_snapshot sampleRoutines (fun q => q) 3 (fun n => (n : ℚ))
    (optionsWith 4 3) 44100
    (startAnalysis (optionsWith 4 3) (constGlobals 0 0) (constSpectral 0) (fun _ => 0))
    (rampFrame 0 0) (rampFrame 1 3) (by norm_num) (by decide) (by decide)

end Snapshot

/-! ## The two call sites of the frame loop -/

section CallSites

variable {R : Type}

theorem main_shift_eq (channels len hop : Int) (b : Buffers R) :
    main_shift channels len hop b = shiftBuffers channels len hop b := rfl

theorem main_table_eq [LinearOrderedField R] (channels len : Int) (b : Buffers R)
    (x : Int → R) : main_table channels len b x = mixdown channels len b x := rfl

theorem main_correction_eq [LinearOrderedField R] (sqrt : R → R) (pi : R) (fuel : Nat)
    (len hop icnt : Int) (s : Spectral R) :
    main_correction sqrt pi fuel len hop icnt s = phaseVocoder sqrt pi fuel len hop icnt s := by
  have e0 : (0.0 : R) = 0 := by norm_num
  have e2 : (2.0 : R) = 2 := by norm_num
  have hb : (fun (s : Spectral R) (i : Int) =>
      ({ p := s.p, p0 := Function.update s.p0 i (s.p i), dphi := Function.update s.dphi i 0.0,
         ph0 := Function.update s.ph0 i (s.ph1 i), ph1 := s.ph1 } : Spectral R))
      = bootstrapBin := by
    funext s i
    simp only [bootstrapBin, e0]
  by_cases hi : icnt = 0
  · simp only [main_correction, phaseVocoder, if_pos hi, hb]
  · simp only [main_correction, phaseVocoder, if_neg hi, e2]
    rfl


/-- C27: for the same locals (configuration and sample rate), the same counter and
the same state (source, history arrays, tables, spectral arrays, shared variables,
velocities), one iteration of the frame loop of `main` and one iteration of the
frame loop of `waon_transcribe_internal` end the same way: both `break`, or both
fail to return, or both reach the end of the body with the same state, the same
power and frequency arrays handed to note detection and the same arguments handed
to the note tracker; and the locals of the two call sites are the same when the
two option structures hold the same values in the fields they share. -/
theorem C27_iterations_agree [LinearOrderedField R] [FloorRing R] (A : Routines R)
    (sqrt : R → R) (pi : R) (fuel : Nat) (v : FrameLocals R) (icnt : Int)
    (st : FrameState R) :
    main_iteration A sqrt pi fuel v icnt st
      = waon_transcribe_iteration A sqrt pi fuel v icnt st ∧
    ∀ (mid2freq : Int → R) (options : waon_options R) (opts : waon_options_t R)
      (samplerate : Int),
      opts.fft_size = options.fft_size → opts.hop_size = options.hop_size →
      opts.window_type = options.window_type → opts.cutoff_ratio = options.cutoff_ratio →
      opts.relative_cutoff_ratio = options.relative_cutoff_ratio →
      opts.peak_threshold = options.peak_threshold →
      opts.bottom_note = options.note_bottom → opts.top_note = options.note_top →
      opts.use_phase_vocoder = options.use_phase_vocoder →
      opts.drum_removal_bins = options.drum_removal_bins →
      opts.drum_removal_factor = options.drum_removal_factor →
      opts.octave_removal_factor = options.octave_removal_factor →
      mainLocals A mid2freq opts samplerate = libraryLocals A mid2freq options samplerate := by
  constructor
  · have e0 : (0.0 : R) = 0 := by norm_num
    by_cases hc : (shiftAndRefill v.len v.hop st.src st.buf).1 ≠ v.hop
    · have hc' : (sndfile_read st.src (main_shift st.src.channels v.len v.hop st.buf)
          (v.len - v.hop) v.hop).1 ≠ v.hop := hc
      simp only [main_iteration, waon_transcribe_iteration, if_pos hc, if_pos hc']
      rfl
    · have hc' : ¬ (sndfile_read st.src (main_shift st.src.channels v.len v.hop st.buf)
          (v.len - v.hop) v.hop).1 ≠ v.hop := hc
      by_cases hp : v.psub_n = 0 <;> by_cases ho : v.oct_f = 0 <;>
        by_cases hflag : v.flag_phase = 0 <;>
        simp only [main_iteration, waon_transcribe_iteration, if_neg hc, if_neg hc',
          main_correction_eq, analyseFrame, artifactSuppress, e0, hp, ho, hflag, ne_eq,
          not_true_eq_false, not_false_eq_true, if_true, if_false, Option.map_some',
          Option.map_map] <;>
        rfl
  · intro mid2freq options opts samplerate h1 h2 h3 h4 h5 h6 h7 h8 h9 h10 h11 h12
    simp only [mainLocals, libraryLocals, binRange, h1, h2, h3, h4, h5, h6, h7, h8, h9, h10,
      h11, h12]

end CallSites

/-! ## The option stage of `main` -/

section OptionStageClaims

/-- The option stage of `main` opens no file other than the two default
configuration files. -/
theorem mainOptionStage_files {R : Type} [LinearOrderedField R] (T : TextRoutines R)
    (files files' : String → Option (List ConfigLine)) (expand : String → String)
    (argv : List String) (parsed : List GetoptResult)
    (h1 : files "/etc/waon.conf" = files' "/etc/waon.conf")
    (h2 : files (expand "/etc/waon.conf") = files' (expand "/etc/waon.conf"))
    (h3 : files (expand "~/.waonrc") = files' (expand "~/.waonrc"))
    (h4 : files (expand (expand "~/.waonrc")) = files' (expand (expand "~/.waonrc"))) :
    (mainOptionStage T files expand argv parsed : OptionStage R)
      = mainOptionStage T files' expand argv parsed := by
  simp only [mainOptionStage, load_default_configs, load_config_file, h1, h2, h3, h4]

/-- C24 (evaluation of the code at the failing input): the file `my.conf` sets the
frame size to 4096 (read through `load_config_file` it gives 4096), there are no
default configuration files, and the command line is `waon --config my.conf`, which
has no old-style argument. The option stage of `main` stores the name in
`config_file` and goes on to the run with the frame size 2048 of
`waon_options_init`: the file named by `--config` is never opened. In general the
options of the run are the same for any two file systems that agree on the two
default configuration files. -/
theorem C24_config_file_is_not_read :
    (load_config_file sampleText sampleFiles sampleExpand "my.conf"
      (waon_options_init : waon_options_t ℚ)).1 = 0 ∧
    (load_config_file sampleText sampleFiles sampleExpand "my.conf"
      (waon_options_init : waon_options_t ℚ)).2.fft_size = 4096 ∧
    using_legacy_args ["waon", "--config", "my.conf"] = false ∧
    (∃ o : waon_options_t ℚ,
      mainOptionStage sampleText sampleFiles sampleExpand ["waon", "--config", "my.conf"]
        [GetoptResult.OPT_CONFIG "my.conf"] = OptionStage.run o ∧
      o.config_file = some "my.conf" ∧ o.fft_size = 2048) ∧
    ∀ (T : TextRoutines ℚ) (files files' : String → Option (List ConfigLine))
      (expand : String → String) (argv : List String) (parsed : List GetoptResult),
      files "/etc/waon.conf" = files' "/etc/waon.conf" →
      files (expand "/etc/waon.conf") = files' (expand "/etc/waon.conf") →
      files (expand "~/.waonrc") = files' (expand "~/.waonrc") →
      files (expand (expand "~/.waonrc")) = files' (expand (expand "~/.waonrc")) →
      (mainOptionStage T files expand argv parsed : OptionStage ℚ)
        = mainOptionStage T files' expand argv parsed := by
  refine ⟨by decide, by decide, by decide,
    ⟨waon_options_validate
      { (waon_options_init : waon_options_t ℚ) with config_file := some "my.conf" },
      ?_, ?_, ?_⟩,
    fun T files files' expand argv parsed => mainOptionStage_files T files files' expand argv
      parsed⟩
  · rfl
  · rw [waon_options_validate_eq]
  · rw [waon_options_validate_eq]
    rfl

end OptionStageClaims

/-! ## Progress bar of the command line -/

section ProgressBar

variable {R : Type}

/-- An enabled bar with `total_steps = 0` divides by zero at its first update, and
if it is never updated, when it is finished. -/
theorem progress_zero_total (now term_width : Int) (pb : progress_bar_t)
    (henabled : pb.enabled ≠ 0) (htotal : pb.total_steps = 0) (icnts : List Int) :
    (icnts.foldlM (progress_bar_update now term_width) pb).bind
      (progress_bar_finish now term_width) = none := by
  have hupd : ∀ c, progress_bar_update now term_width pb c = none := by
    intro c
    simp only [progress_bar_update, if_neg henabled, htotal, if_true]
  cases icnts with
  | nil =>
    show progress_bar_finish now term_width pb = none
    have hupd' : progress_bar_update now term_width
        { pb with current_step := pb.total_steps } pb.total_steps = none := by
      simp only [progress_bar_update, if_neg henabled, htotal, if_true]
    simp only [progress_bar_finish, if_neg henabled, hupd']
  | cons c rest =>
    simp only [List.foldlM_cons, hupd c, Option.bind_eq_bind, Option.none_bind]

/-- Whenever `main` shows the progress on a terminal and `sfinfo.frames / hop` is
zero, the part of `main` that follows a complete priming read ends in a division by
zero, if the frame loop returns. -/
theorem main_progress_fault [LinearOrderedField R] (fuel : Nat) (now term_width : Int)
    (opts : waon_options_t R) (src : Source R) (b : Buffers R) (x : Int → R)
    (fin : LoopState R)
    (hprimed : (primingRead opts.fft_size opts.hop_size src b).1 = true)
    (hshow : opts.show_progress ≠ 0 ∧ opts.quiet = 0) (hhop : opts.hop_size ≠ 0)
    (htotal : Int.tdiv src.frames opts.hop_size = 0)
    (hloop : frameLoop opts.fft_size opts.hop_size fuel
      { src := (primingRead opts.fft_size opts.hop_size src b).2.1
        buf := (primingRead opts.fft_size opts.hop_size src b).2.2
        x := x, icnt := 0, processed := [] } = some fin) :
    main_progress fuel true now term_width opts src b x = some MainProgress.divisionByZero := by
  have hp : ¬ (primingRead opts.fft_size opts.hop_size src b).1 = false := by
    rw [hprimed]
    decide
  have hz := progress_zero_total now term_width
    (progress_bar_init true now (Int.tdiv src.frames opts.hop_size) (some "Processing"))
    (by show (1 : Int) ≠ 0; decide) htotal (fin.processed.map Frame.icnt)
  simp only [main_progress, if_neg hp, if_pos hshow, if_neg hhop, hloop, Option.map_some', hz]

/-- C30 (evaluation of the code at the failing input): `main` runs with the progress
display on a terminal, frame size 4 and hop 4 (so `1 ≤ hop ≤ len`), on a mono source
of 3 samples that announces its true length. The estimate `frames / hop` given to
`progress_bar_init` is `3 / 4 = 0`; no priming read is needed, the first read of the
loop is short, so no frame is processed and `progress_bar_update` never runs in the
loop; `progress_bar_finish` then runs on the enabled bar and calls
`progress_bar_update`, which divides by `total_steps = 0`. -/
theorem C30_progress_finish_divides_by_zero :
    (1 ≤ (progressOptions 4).hop_size ∧ (progressOptions 4).hop_size ≤ (progressOptions 4).fft_size) ∧
    Int.tdiv (rampSource 3).frames (progressOptions 4).hop_size = 0 ∧
    (progress_bar_init true 0 (Int.tdiv (rampSource 3).frames (progressOptions 4).hop_size)
      (some "Processing")).enabled = 1 ∧
    progress_bar_finish 0 80
      (progress_bar_init true 0 (Int.tdiv (rampSource 3).frames (progressOptions 4).hop_size)
        (some "Processing")) = none ∧
    ∀ fuel, 1 ≤ fuel →
      main_progress fuel true 0 80 (progressOptions 4) (rampSource 3) zeroBuffers (fun _ => 0)
        = some MainProgress.divisionByZero := by
  have hfft : (progressOptions 4).fft_size = 4 := by
    rw [progressOptions, waon_options_validate_eq]
  have hhop : (progressOptions 4).hop_size = 4 := by
    rw [progressOptions, waon_options_validate_eq]
    rfl
  have hshow : (progressOptions 4).show_progress = 1 := by
    rw [progressOptions, waon_options_validate_eq]
  have hquiet : (progressOptions 4).quiet = 0 := by
    rw [progressOptions, waon_options_validate_eq]
    rfl
  refine ⟨by rw [hhop, hfft]; decide, by rw [hhop]; decide, by decide, ?_, ?_⟩
  · rw [hhop]
    decide
  · intro fuel hf
    obtain ⟨f, rfl⟩ : ∃ f, fuel = f + 1 := ⟨fuel - 1, by omega⟩
    have hbreak : (shiftAndRefill 4 4 (primingRead 4 4 (rampSource 3) zeroBuffers).2.1
        (primingRead 4 4 (rampSource 3) zeroBuffers).2.2).1 ≠ 4 := by decide
    refine main_progress_fault (f + 1) 0 80 (progressOptions 4) (rampSource 3) zeroBuffers
      (fun _ => 0)
      { src := (shiftAndRefill 4 4 (primingRead 4 4 (rampSource 3) zeroBuffers).2.1
          (primingRead 4 4 (rampSource 3) zeroBuffers).2.2).2.1
        buf := (shiftAndRefill 4 4 (primingRead 4 4 (rampSource 3) zeroBuffers).2.1
          (primingRead 4 4 (rampSource 3) zeroBuffers).2.2).2.2
        x := fun _ => 0, icnt := 0, processed := [] }
      (by rw [hfft, hhop]; decide) ⟨by rw [hshow]; decide, hquiet⟩
      (by rw [hhop]; decide) (by rw [hhop]; decide) ?_
    rw [hfft, hhop, frameLoop, if_pos hbreak]

end ProgressBar

end WaoN
